import Mathlib

/-!
# CHIP-8 interpreter: embedding of `src/register.h`, `src/instructions.h`, `src/machine.h`

Machine integers are natural numbers; every store into a register or a memory byte
reduces modulo `2 ^ width` explicitly.  A `Register<T>*` argument of the source is a
value of `Option Reg` (`none` for `nullptr`), so that two pointers to the same
register alias exactly as they do in the source.  Memory is a flat map from addresses
to bytes: iterator arithmetic of the source is not bounds-checked and neither is the
map; the addresses a routine dereferences are computed separately where bounds matter.
-/

namespace CHIP8

/-! ## Data model -/

/-- Countdown state of `Timer<uint8_t, 60>`: the counter and the enable flag. -/
structure Timer where
  timer : Nat
  enable : Bool

/-- State of `class CHIP8` (with the program counter of `Machine` and the
function-static halt latch `FATAL` of `Machine::Task`). -/
structure State where
  PC : Nat
  ram : Nat → Nat
  V : Nat → Nat
  I : Nat
  stack : List Nat
  delay : Timer
  audio : Timer
  disp_wait : Timer
  FATAL : Bool

/-- Constants `MEMORY_FONTS`, `MEMORY_USABLE`, `MEMORY_VIDEO` of `class CHIP8`. -/
def MEMORY_FONTS : Nat := 0x050

def MEMORY_USABLE : Nat := 0x200

def MEMORY_VIDEO : Nat := 0xF00

/-- Display geometry passed to `DisplaySDL` by the constructor: `display{64, 32, 10}`. -/
def displayW : Nat := 64

def displayH : Nat := 32

/-- A register that a `Register<T>*` of the source can point to. -/
inductive Reg where
  | V (i : Nat)
  | I
  | PC

/-- Width in bits of the storage type of a register (`uint8_t`, `uint16_t`, `uint64_t`). -/
def Reg.bits : Reg → Nat
  | .V _ => 8
  | .I => 16
  | .PC => 64

/-- The value `std::numeric_limits<T>::max()` of the storage type. -/
def Reg.max (r : Reg) : Nat := 2 ^ r.bits - 1

/-- Read through a register pointer: `(T)*r`. -/
def Reg.get (s : State) : Reg → Nat
  | .V i => s.V i
  | .I => s.I
  | .PC => s.PC

/-- Store through a register pointer: `*r = v`, truncated to the storage width. -/
def Reg.set (s : State) (r : Reg) (v : Nat) : State :=
  match r with
  | .V i => { s with V := fun j => if j = i then v % 2 ^ 8 else s.V j }
  | .I => { s with I := v % 2 ^ 16 }
  | .PC => { s with PC := v % 2 ^ 64 }

/-- Decoded opcode, `struct CHIP8OpParse`. -/
structure CHIP8OpParse where
  op : Nat
  NNN : Nat
  NN : Nat
  N : Nat
  X : Nat
  Y : Nat

/-- The constructor `CHIP8OpParse(uint16_t op)`. -/
def CHIP8OpParse.parse (op : Nat) : CHIP8OpParse :=
  { op := op
    NNN := op &&& 0x0FFF
    NN := op &&& 0x0FF
    N := op &&& 0x0F
    X := (op >>> 8) &&& 0x0F
    Y := (op >>> 4) &&& 0x0F }

/-! ## `namespace Instructions` -/

/-- `AssignV(to, from)`: `if (to) *to = from;`. -/
def AssignV (to_ : Option Reg) (from_ : Nat) (s : State) : State :=
  match to_ with
  | none => s
  | some t => t.set s from_

/-- `Assign(to, from)`: `if (from) AssignV(to, (T2)*from);`. -/
def Assign (to_ from_ : Option Reg) (s : State) : State :=
  match from_ with
  | none => s
  | some f => AssignV to_ (f.get s) s

/-- `AddV(to, from, overflow)`.  The guard `!to || !from` tests the pointer `to` and the
*value* `from`: a zero addend returns before the flag is written. -/
def AddV (to_ : Option Reg) (from_ : Nat) (overflow : Option Reg) (s : State) : State :=
  match to_ with
  | none => s
  | some t =>
    if from_ = 0 then s
    else
      let over : Bool := decide (t.get s + from_ > t.max)
      let s1 := t.set s (t.get s + from_)
      match overflow with
      | none => s1
      | some o => o.set s1 (if over then 1 else 0)

/-- `Add(to, from, overflow)`: `if (from) AddV(to, (T2)*from, overflow);`. -/
def Add (to_ from_ overflow : Option Reg) (s : State) : State :=
  match from_ with
  | none => s
  | some f => AddV to_ (f.get s) overflow s

/-- `SubV(to, from, underflow)`: `*to -= from`, flag `!under` with `under = *to < from`. -/
def SubV (to_ : Option Reg) (from_ : Nat) (underflow : Option Reg) (s : State) : State :=
  match to_ with
  | none => s
  | some t =>
    if from_ = 0 then s
    else
      let under : Bool := decide (t.get s < from_)
      let s1 := t.set s (t.get s + 2 ^ t.bits - from_)
      match underflow with
      | none => s1
      | some u => u.set s1 (if under then 0 else 1)

/-- `SubVAlt(to, from, underflow)`: `*to = from - *to`, flag `!under` with
`under = from < *to`. -/
def SubVAlt (to_ : Option Reg) (from_ : Nat) (underflow : Option Reg) (s : State) : State :=
  match to_ with
  | none => s
  | some t =>
    if from_ = 0 then s
    else
      let under : Bool := decide (from_ < t.get s)
      let s1 := t.set s (from_ + 2 ^ t.bits - t.get s)
      match underflow with
      | none => s1
      | some u => u.set s1 (if under then 0 else 1)

/-- `Sub(to, from, underflow)`: `if (from) SubV(to, (T2)*from, underflow);`. -/
def Sub (to_ from_ underflow : Option Reg) (s : State) : State :=
  match from_ with
  | none => s
  | some f => SubV to_ (f.get s) underflow s

/-- The mask loop of `RShiftV`: `mask = 1; for (i = 1; i < from; ++i) mask = 1 | (mask << 1);`
on the storage width `w`. -/
def rshiftMask (w : Nat) : Nat → Nat
  | 0 => 1
  | n + 1 => (1 ||| (rshiftMask w n <<< 1)) % 2 ^ w

/-- `RShiftV(to, from, overflow)`. -/
def RShiftV (to_ : Option Reg) (from_ : Nat) (overflow : Option Reg) (s : State) : State :=
  match to_ with
  | none => s
  | some t =>
    if from_ = 0 then s
    else
      let mask := rshiftMask t.bits (from_ - 1) &&& t.get s
      let s1 := t.set s (t.get s >>> from_)
      match overflow with
      | none => s1
      | some o => o.set s1 (if mask ≠ 0 then 1 else 0)

/-- The mask loop of `LShiftV`: `mask = 0x80; for (i = 1; i < from; ++i) mask = 0x80 | (mask >> 1);`. -/
def lshiftMask : Nat → Nat
  | 0 => 0x80
  | n + 1 => 0x80 ||| (lshiftMask n >>> 1)

/-- `LShiftV(to, from, overflow)`. -/
def LShiftV (to_ : Option Reg) (from_ : Nat) (overflow : Option Reg) (s : State) : State :=
  match to_ with
  | none => s
  | some t =>
    if from_ = 0 then s
    else
      let mask := (lshiftMask (from_ - 1) % 2 ^ t.bits) &&& t.get s
      let s1 := t.set s (t.get s <<< from_)
      match overflow with
      | none => s1
      | some o => o.set s1 (if mask ≠ 0 then 1 else 0)

/-- Bitwise complement `~x` of an operand promoted to a 32-bit `int`, as a bit pattern. -/
def bnot (x : Nat) : Nat := 2 ^ 32 - 1 - x

/-- Store of one byte through an iterator: `*it = v`, truncated to `uint8_t`. -/
def poke (ram : Nat → Nat) (addr v : Nat) : Nat → Nat :=
  fun a => if a = addr then v % 256 else ram a

/-- One iteration of the row loop of `Draw`, for the normalised column `X`, the sprite
iterator `sprite` and the display iterator `video_ram`; returns the memory after the
write-back and the value assigned to `_VF`. -/
def DrawRow (W X sprite video_ram : Nat) (ram : Nat → Nat) : (Nat → Nat) × Nat :=
  let screen_data0 := (ram video_ram <<< (X % 8)) % 256
  let screen_data1 :=
    if X % 8 ≠ 0 then (screen_data0 ||| (ram (video_ram + 1) >>> (8 - X % 8))) % 256
    else screen_data0
  let screen_data_xored0 := (screen_data1 ^^^ ram sprite) % 256
  let screen_data_mask := if X + 8 > W then (0xff <<< (8 - (W - X))) % 256 else 0xff
  let screen_data := screen_data1 &&& screen_data_mask
  let screen_data_xored := screen_data_xored0 &&& screen_data_mask
  let VF := if (screen_data &&& screen_data_xored) ≠ screen_data then 1 else 0
  let ram1 := poke ram video_ram (ram video_ram &&& bnot (screen_data_mask >>> (X % 8)))
  let ram2 := poke ram1 video_ram (ram1 video_ram ||| (screen_data_xored >>> (X % 8)))
  let ram4 :=
    if X % 8 ≠ 0 then
      let ram3 := poke ram2 (video_ram + 1)
        (ram2 (video_ram + 1) &&& bnot (screen_data_mask <<< (8 - X % 8)))
      poke ram3 (video_ram + 1) (ram3 (video_ram + 1) ||| (screen_data_xored <<< (8 - X % 8)))
    else ram2
  (ram4, VF)

/-- The loop `while (_N-- && Y++ < _H) { ... ram += 1; video_ram += (_W / 8); }` of `Draw`,
by recursion on `_N`; the pair is the memory and the flag register. -/
def DrawLoop (W H X : Nat) : Nat → Nat → Nat → Nat → (Nat → Nat) × Nat → (Nat → Nat) × Nat
  | 0, _, _, _, st => st
  | N + 1, Y, sprite, video_ram, st =>
    if Y < H then
      DrawLoop W H X N (Y + 1) (sprite + 1) (video_ram + W / 8) (DrawRow W X sprite video_ram st.1)
    else st

/-- `Instructions::Draw(ram, video_ram, _VF, _X, _Y, _I, _N, _W, _H)`: `ram0` and `video_ram`
are the two iterators as addresses, `VF` the value of the flag register on entry; returns
the memory and the flag register on exit. -/
def Draw (ram : Nat → Nat) (ram0 video_ram VF VX VY I N W H : Nat) : (Nat → Nat) × Nat :=
  let X := (VX % 256) % W
  let Y := (VY % 256) % H
  DrawLoop W H X N Y (ram0 + I) (video_ram + (Y * W + X) / 8) (ram, VF)

/-- Addresses dereferenced through `video_ram` and `video_ram + 1` by one row of `Draw`. -/
def DrawRowTouched (X video_ram : Nat) : List Nat :=
  if X % 8 ≠ 0 then [video_ram, video_ram + 1] else [video_ram]

/-- Addresses dereferenced through the display iterator by the loop of `Draw`, in order. -/
def DrawLoopTouched (W H X : Nat) : Nat → Nat → Nat → List Nat
  | 0, _, _ => []
  | N + 1, Y, video_ram =>
    if Y < H then
      DrawRowTouched X video_ram ++ DrawLoopTouched W H X N (Y + 1) (video_ram + W / 8)
    else []

/-- Addresses dereferenced through the display iterator by `Draw`. -/
def DrawTouched (video_ram VX VY N W H : Nat) : List Nat :=
  let X := (VX % 256) % W
  let Y := (VY % 256) % H
  DrawLoopTouched W H X N Y (video_ram + (Y * W + X) / 8)

/-! ## Instruction handlers of the `CHIP8` constructor -/

/-- Handler `instr["7XNN"]`. -/
def instr_7XNN (opcode : Nat) (s : State) : State :=
  let op := CHIP8OpParse.parse opcode
  AddV (some (.V op.X)) op.NN none s

/-- Handler `instr["8XY1"]`. -/
def instr_8XY1 (opcode : Nat) (s : State) : State :=
  let op := CHIP8OpParse.parse opcode
  let s1 := AssignV (some (.V op.X)) (s.V op.X ||| s.V op.Y) s
  Reg.set s1 (.V 0xf) 0

/-- Handler `instr["8XY2"]`. -/
def instr_8XY2 (opcode : Nat) (s : State) : State :=
  let op := CHIP8OpParse.parse opcode
  let s1 := AssignV (some (.V op.X)) (s.V op.X &&& s.V op.Y) s
  Reg.set s1 (.V 0xf) 0

/-- Handler `instr["8XY3"]`. -/
def instr_8XY3 (opcode : Nat) (s : State) : State :=
  let op := CHIP8OpParse.parse opcode
  let s1 := AssignV (some (.V op.X)) (s.V op.X ^^^ s.V op.Y) s
  Reg.set s1 (.V 0xf) 0

/-- Handler `instr["8XY4"]`. -/
def instr_8XY4 (opcode : Nat) (s : State) : State :=
  let op := CHIP8OpParse.parse opcode
  Add (some (.V op.X)) (some (.V op.Y)) (some (.V 0xf)) s

/-- Handler `instr["8XY5"]`. -/
def instr_8XY5 (opcode : Nat) (s : State) : State :=
  let op := CHIP8OpParse.parse opcode
  Sub (some (.V op.X)) (some (.V op.Y)) (some (.V 0xf)) s

/-- Handler `instr["8XY6"]`. -/
def instr_8XY6 (opcode : Nat) (s : State) : State :=
  let op := CHIP8OpParse.parse opcode
  let s1 := Reg.set s (.V op.X) (s.V op.Y)
  RShiftV (some (.V op.X)) 1 (some (.V 0xf)) s1

/-- Handler `instr["8XY7"]`. -/
def instr_8XY7 (opcode : Nat) (s : State) : State :=
  let op := CHIP8OpParse.parse opcode
  SubVAlt (some (.V op.X)) (s.V op.Y) (some (.V 0xf)) s

/-- Handler `instr["8XYe"]`. -/
def instr_8XYe (opcode : Nat) (s : State) : State :=
  let op := CHIP8OpParse.parse opcode
  let s1 := Reg.set s (.V op.X) (s.V op.Y)
  LShiftV (some (.V op.X)) 1 (some (.V 0xf)) s1

/-- `Timer::Get`. -/
def Timer.Get (t : Timer) : Nat := t.timer

/-- `Timer::Set`: the start edge `TimeStart` has no effect on the counter. -/
def Timer.Set (t : Timer) (v : Nat) : Timer := { t with timer := v % 256 }

/-- Handler `instr["dXYN"]`: gated by the display-refresh timer; `display.Draw` only reads
the display region. -/
def instr_dXYN (opcode : Nat) (s : State) : State :=
  let op := CHIP8OpParse.parse opcode
  if s.disp_wait.Get ≠ 0 then { s with PC := (s.PC + 2 ^ 64 - 2) % 2 ^ 64 }
  else
    let r := Draw s.ram 0 MEMORY_VIDEO (s.V 0xF) (s.V op.X) (s.V op.Y) s.I op.N displayW displayH
    { s with ram := r.1, V := fun j => if j = 0xF then r.2 else s.V j,
             disp_wait := s.disp_wait.Set 1 }

/-- Register file with the listed values in `V0, V1, ...` and zero elsewhere. -/
def regs (l : List Nat) : Nat → Nat := fun i => l.getD i 0

/-- Memory holding the listed `(address, byte)` pairs and zero elsewhere. -/
def mem (l : List (Nat × Nat)) : Nat → Nat := fun a => ((l.find? (fun p => p.1 == a)).map Prod.snd).getD 0

/-- State right after construction with an all-zero memory image: registers and timers zero,
timers enabled, empty stack, `PC = MEMORY_USABLE` from `Reset`. -/
def blank : State :=
  { PC := MEMORY_USABLE, ram := fun _ => 0, V := fun _ => 0, I := 0, stack := [],
    delay := ⟨0, true⟩, audio := ⟨0, true⟩, disp_wait := ⟨0, true⟩, FATAL := false }

/-- Pixel `(x, y)` of the display: row-major from `MEMORY_VIDEO`, eight pixels per byte,
most significant bit first (the order `Display::Draw` unpacks them). -/
def pixel (ram : Nat → Nat) (x y : Nat) : Bool :=
  (ram (MEMORY_VIDEO + (y * displayW + x) / 8)).testBit (7 - x % 8)

/-- State used by the concrete evaluations: registers as listed, everything else blank. -/
def withV (l : List Nat) : State := { blank with V := regs l }

/-- State for the collision check: pixel (0, 0) lit, a two-row sprite `0x80, 0x00` at `0x300`,
`V0 = V1 = 0`, display gate open. -/
def collisionState : State :=
  { blank with ram := mem [(0xF00, 0x80), (0x300, 0x80), (0x301, 0x00)], I := 0x300 }

/-! ## The machine: external capabilities, remaining instructions, dispatch, `Task` -/

/-- What the handlers read from outside the machine during one `Task`: the keypad
(`Input::IsPressed`, and the code returned by the non-blocking `Input::GetKey(false)`, where
`0x10` is `Key::_invalid`) and the value returned by `std::rand()`. -/
structure Env where
  IsPressed : Nat → Bool
  GetKey : Nat
  rand : Nat

/-- The enumerator `Input::Key::_invalid`, one past `KF = 0xf`. -/
def Key_invalid : Nat := 0x10

/-- `Timer::Tick`: `if (enable && timer) if (!--timer) TimeOver();`, as the effect on the
counter. -/
def Timer.Tick (t : Timer) : Timer :=
  if t.enable ∧ t.timer ≠ 0 then { t with timer := t.timer - 1 } else t

/-- `Instructions::ClearDisplay(video_ram, _W, _H)`: `std::fill` of `(_W * _H) / 8` bytes. -/
def ClearDisplay (ram : Nat → Nat) (video_ram W H : Nat) : Nat → Nat :=
  fun a => if video_ram ≤ a ∧ a < video_ram + (W * H) / 8 then 0 else ram a

/-- `Instructions::Jump(PC, addr)`: `if (PC) *PC = addr;`. -/
def Jump (PC : Option Reg) (addr : Nat) (s : State) : State :=
  match PC with
  | none => s
  | some r => r.set s addr

/-- `Instructions::SkipNext(PC, condition)`: `if (PC && condition) *PC += 2;`. -/
def SkipNext (PC : Option Reg) (condition : Bool) (s : State) : State :=
  match PC with
  | none => s
  | some r => if condition then r.set s (r.get s + 2) else s

/-- `Instructions::Store(ram, _I, _X, _V)`: `std::copy` of `V0 .. VX` to `ram + _I`. -/
def Store (ram : Nat → Nat) (I X : Nat) (V : Nat → Nat) : Nat → Nat :=
  (List.range (X + 1)).foldl (fun r i => poke r (I + i) (V i)) ram

/-- `Instructions::Fill(ram, _I, _X, _V)`: `std::copy` of `X + 1` bytes from `ram + _I` to
`V0 .. VX`. -/
def Fill (ram : Nat → Nat) (I X : Nat) (V : Nat → Nat) : Nat → Nat :=
  (List.range (X + 1)).foldl (fun v i => fun j => if j = i then ram (I + i) % 2 ^ 8 else v j) V

/-- `Instructions::BCD(ram, _N, _I)`: `for (i = 2; i >= 0; --i) { ram[_I + i] = _N % 10; _N /= 10; }`. -/
def BCD (ram : Nat → Nat) (N I : Nat) : Nat → Nat :=
  let ram2 := poke ram (I + 2) (N % 10)
  let ram1 := poke ram2 (I + 1) (N / 10 % 10)
  poke ram1 (I + 0) (N / 10 / 10 % 10)

/-- Handler `instr["0NNN"]`: only a debug line. -/
def instr_0NNN (_env : Env) (_opcode : Nat) (s : State) : State := s

/-- Handler `instr["00e0"]`. -/
def instr_00e0 (_env : Env) (_opcode : Nat) (s : State) : State :=
  { s with ram := ClearDisplay s.ram (0 + MEMORY_VIDEO) displayW displayH }

/-- Handler `instr["00ee"]`: the stack holds `uint16_t`, its top is the head of the list. -/
def instr_00ee (_env : Env) (_opcode : Nat) (s : State) : State :=
  match s.stack with
  | [] => s
  | top :: rest => { AssignV (some .PC) top s with stack := rest }

/-- Handler `instr["1NNN"]`. -/
def instr_1NNN (_env : Env) (opcode : Nat) (s : State) : State :=
  let op := CHIP8OpParse.parse opcode
  AssignV (some .PC) op.NNN s

/-- Handler `instr["2NNN"]`: `stack.push(PC)` narrows the program counter to `uint16_t`. -/
def instr_2NNN (_env : Env) (opcode : Nat) (s : State) : State :=
  let op := CHIP8OpParse.parse opcode
  let s1 := { s with stack := (s.PC % 2 ^ 16) :: s.stack }
  AssignV (some .PC) op.NNN s1

/-- Handler `instr["3XNN"]`. -/
def instr_3XNN (_env : Env) (opcode : Nat) (s : State) : State :=
  let op := CHIP8OpParse.parse opcode
  SkipNext (some .PC) (s.V op.X == op.NN) s

/-- Handler `instr["4XNN"]`. -/
def instr_4XNN (_env : Env) (opcode : Nat) (s : State) : State :=
  let op := CHIP8OpParse.parse opcode
  SkipNext (some .PC) (s.V op.X != op.NN) s

/-- Handler `instr["5XY0"]`. -/
def instr_5XY0 (_env : Env) (opcode : Nat) (s : State) : State :=
  let op := CHIP8OpParse.parse opcode
  SkipNext (some .PC) (s.V op.X == s.V op.Y) s

/-- Handler `instr["6XNN"]`. -/
def instr_6XNN (_env : Env) (opcode : Nat) (s : State) : State :=
  let op := CHIP8OpParse.parse opcode
  AssignV (some (.V op.X)) op.NN s

/-- Handler `instr["8XY0"]`. -/
def instr_8XY0 (_env : Env) (opcode : Nat) (s : State) : State :=
  let op := CHIP8OpParse.parse opcode
  Assign (some (.V op.X)) (some (.V op.Y)) s

/-- Handler `instr["9XY0"]`. -/
def instr_9XY0 (_env : Env) (opcode : Nat) (s : State) : State :=
  let op := CHIP8OpParse.parse opcode
  SkipNext (some .PC) (s.V op.X != s.V op.Y) s

/-- Handler `instr["aNNN"]`. -/
def instr_aNNN (_env : Env) (opcode : Nat) (s : State) : State :=
  let op := CHIP8OpParse.parse opcode
  AssignV (some .I) op.NNN s

/-- Handler `instr["bNNN"]`: `Jump(&PC, op.NNN + V[0])`. -/
def instr_bNNN (_env : Env) (opcode : Nat) (s : State) : State :=
  let op := CHIP8OpParse.parse opcode
  Jump (some .PC) (op.NNN + s.V 0) s

/-- Handler `instr["cXNN"]`: `uint8_t(std::rand() & 0xff) & op.NN`. -/
def instr_cXNN (env : Env) (opcode : Nat) (s : State) : State :=
  let op := CHIP8OpParse.parse opcode
  AssignV (some (.V op.X)) (((env.rand &&& 0xff) % 2 ^ 8) &&& op.NN) s

/-- Handler `instr["eX9e"]`. -/
def instr_eX9e (env : Env) (opcode : Nat) (s : State) : State :=
  let op := CHIP8OpParse.parse opcode
  SkipNext (some .PC) (env.IsPressed (s.V op.X % 2 ^ 8)) s

/-- Handler `instr["eXa1"]`. -/
def instr_eXa1 (env : Env) (opcode : Nat) (s : State) : State :=
  let op := CHIP8OpParse.parse opcode
  SkipNext (some .PC) (!env.IsPressed (s.V op.X % 2 ^ 8)) s

/-- Handler `instr["fX07"]`. -/
def instr_fX07 (_env : Env) (opcode : Nat) (s : State) : State :=
  let op := CHIP8OpParse.parse opcode
  AssignV (some (.V op.X)) s.delay.Get s

/-- Handler `instr["fX0a"]`; the function-static `msg_showed` only gates a debug line. -/
def instr_fX0a (env : Env) (opcode : Nat) (s : State) : State :=
  let op := CHIP8OpParse.parse opcode
  if env.GetKey = Key_invalid then { s with PC := (s.PC + 2 ^ 64 - 2) % 2 ^ 64 }
  else AssignV (some (.V op.X)) (env.GetKey % 2 ^ 8) s

/-- Handler `instr["fX15"]`. -/
def instr_fX15 (_env : Env) (opcode : Nat) (s : State) : State :=
  let op := CHIP8OpParse.parse opcode
  { s with delay := s.delay.Set (s.V op.X) }

/-- Handler `instr["fX18"]`. -/
def instr_fX18 (_env : Env) (opcode : Nat) (s : State) : State :=
  let op := CHIP8OpParse.parse opcode
  { s with audio := s.audio.Set (s.V op.X) }

/-- Handler `instr["fX1e"]`. -/
def instr_fX1e (_env : Env) (opcode : Nat) (s : State) : State :=
  let op := CHIP8OpParse.parse opcode
  AddV (some .I) (s.V op.X) none s

/-- Handler `instr["fX29"]`. -/
def instr_fX29 (_env : Env) (opcode : Nat) (s : State) : State :=
  let op := CHIP8OpParse.parse opcode
  Reg.set s .I (MEMORY_FONTS + (s.V op.X % 2 ^ 8) * 5)

/-- Handler `instr["fX33"]`. -/
def instr_fX33 (_env : Env) (opcode : Nat) (s : State) : State :=
  let op := CHIP8OpParse.parse opcode
  { s with ram := BCD s.ram (s.V op.X % 2 ^ 8) s.I }

/-- Handler `instr["fX55"]`. -/
def instr_fX55 (_env : Env) (opcode : Nat) (s : State) : State :=
  let op := CHIP8OpParse.parse opcode
  let s1 := { s with ram := Store s.ram s.I op.X s.V }
  Reg.set s1 .I (s1.I + (op.X + 1))

/-- Handler `instr["fX65"]`. -/
def instr_fX65 (_env : Env) (opcode : Nat) (s : State) : State :=
  let op := CHIP8OpParse.parse opcode
  let s1 := { s with V := Fill s.ram s.I op.X s.V }
  Reg.set s1 .I (s1.I + (op.X + 1))

/-- An entry of `InstrMap`: the key (a four-character template) and the handler, which also
receives the external capabilities. -/
abbrev Entry := List Char × (Env → Nat → State → State)

/-- The map `instr` after the constructor has run, in the iteration order of
`std::map<std::string, ...>` (keys ascending byte-wise: digits, then upper-case letters, then
lower-case letters). -/
def instr : List Entry :=
  [ (['0', '0', 'e', '0'], instr_00e0),
    (['0', '0', 'e', 'e'], instr_00ee),
    (['0', 'N', 'N', 'N'], instr_0NNN),
    (['1', 'N', 'N', 'N'], instr_1NNN),
    (['2', 'N', 'N', 'N'], instr_2NNN),
    (['3', 'X', 'N', 'N'], instr_3XNN),
    (['4', 'X', 'N', 'N'], instr_4XNN),
    (['5', 'X', 'Y', '0'], instr_5XY0),
    (['6', 'X', 'N', 'N'], instr_6XNN),
    (['7', 'X', 'N', 'N'], fun _ => instr_7XNN),
    (['8', 'X', 'Y', '0'], instr_8XY0),
    (['8', 'X', 'Y', '1'], fun _ => instr_8XY1),
    (['8', 'X', 'Y', '2'], fun _ => instr_8XY2),
    (['8', 'X', 'Y', '3'], fun _ => instr_8XY3),
    (['8', 'X', 'Y', '4'], fun _ => instr_8XY4),
    (['8', 'X', 'Y', '5'], fun _ => instr_8XY5),
    (['8', 'X', 'Y', '6'], fun _ => instr_8XY6),
    (['8', 'X', 'Y', '7'], fun _ => instr_8XY7),
    (['8', 'X', 'Y', 'e'], fun _ => instr_8XYe),
    (['9', 'X', 'Y', '0'], instr_9XY0),
    (['a', 'N', 'N', 'N'], instr_aNNN),
    (['b', 'N', 'N', 'N'], instr_bNNN),
    (['c', 'X', 'N', 'N'], instr_cXNN),
    (['d', 'X', 'Y', 'N'], fun _ => instr_dXYN),
    (['e', 'X', '9', 'e'], instr_eX9e),
    (['e', 'X', 'a', '1'], instr_eXa1),
    (['f', 'X', '0', '7'], instr_fX07),
    (['f', 'X', '0', 'a'], instr_fX0a),
    (['f', 'X', '1', '5'], instr_fX15),
    (['f', 'X', '1', '8'], instr_fX18),
    (['f', 'X', '1', 'e'], instr_fX1e),
    (['f', 'X', '2', '9'], instr_fX29),
    (['f', 'X', '3', '3'], instr_fX33),
    (['f', 'X', '5', '5'], instr_fX55),
    (['f', 'X', '6', '5'], instr_fX65) ]

/-- The string `special_values{"NXY*"}` of `StrCmp`. -/
def special_values : List Char := ['N', 'X', 'Y', '*']

/-- The loop of `StrCmp` from index `i`:
`grade += (1 << (len - i)) * ((s1[i] == s2[i]) || find(special_values, s2[i]) != end)`. -/
def StrCmpFrom (len : Nat) : Nat → List Char → List Char → Nat
  | i, c1 :: r1, c2 :: r2 =>
    (1 <<< (len - i)) * (if c1 = c2 ∨ c2 ∈ special_values then 1 else 0)
      + StrCmpFrom len (i + 1) r1 r2
  | _, _, _ => 0

/-- `StrCmp(s1, s2)` of `machine.cpp`, with `len = min(s1.size(), s2.size())`. -/
def StrCmp (s1 s2 : List Char) : Nat :=
  StrCmpFrom (min s1.length s2.length) 0 s1 s2

/-- One lower-case hexadecimal digit as `std::hex` prints it. -/
def hexDigit (d : Nat) : Char :=
  if d < 10 then Char.ofNat ('0'.toNat + d) else Char.ofNat ('a'.toNat + (d - 10))

/-- The rendering `ss << std::hex << std::setw(4) << std::setfill('0') << opcode` of a
16-bit opcode: four lower-case hexadecimal digits. -/
def hex4 (opcode : Nat) : List Char :=
  [hexDigit (opcode / 4096 % 16), hexDigit (opcode / 256 % 16), hexDigit (opcode / 16 % 16),
    hexDigit (opcode % 16)]

/-- The loop of `Machine::FindBestInstruction`: the pair is `(best, best_matches)`. -/
def FindBestLoop (sinstr : List Char) : List Entry → Option Entry × Nat → Option Entry × Nat
  | [], acc => acc
  | e :: rest, acc =>
    if StrCmp sinstr e.1 > acc.2 then FindBestLoop sinstr rest (some e, StrCmp sinstr e.1)
    else FindBestLoop sinstr rest acc

/-- `Machine::FindBestInstruction(sinstr)`: `none` is `instr.end()`.  The test
`best_matches != 30` only prints a message; `best` is returned either way. -/
def FindBestInstruction (sinstr : List Char) : Option Entry :=
  (FindBestLoop sinstr instr (none, 0)).1

/-- `CHIP8::GetRamSize`: `ram.size() - MEMORY_USABLE`. -/
def GetRamSize : Nat := 4096 - MEMORY_USABLE

/-- `CHIP8::RamReadByte(addr)`. -/
def RamReadByte (s : State) (addr : Nat) : Option Nat :=
  if addr ≥ 4096 then none else some (s.ram addr)

/-- `CHIP8::RamWriteByte(addr, byte)`: the new state and the returned flag. -/
def RamWriteByte (s : State) (addr byte : Nat) : State × Bool :=
  if addr ≥ 4096 then (s, false) else ({ s with ram := poke s.ram addr byte }, true)

/-- `CHIP8::Reset`: `PC = MEMORY_USABLE; std::srand(12345);` (the generator is outside `State`). -/
def Reset (s : State) : State := { s with PC := MEMORY_USABLE }

/-- The 16-bit word `op[0].value() << 8 | op[1].value()` assembled from two fetched bytes. -/
def opcodeOf (op0 op1 : Nat) : Nat := ((op0 <<< 8) ||| op1) % 2 ^ 16

/-- `Machine::Task` (one step of the machine; `CHIP8::Task` only forwards to it). -/
def Task (env : Env) (s : State) : State :=
  if s.FATAL then s
  else
    match RamReadByte s s.PC with
    | none => { s with FATAL := true }
    | some op0 =>
      let s1 := { s with PC := (s.PC + 1) % 2 ^ 64 }
      match RamReadByte s1 s1.PC with
      | none => { s1 with FATAL := true }
      | some op1 =>
        let s2 := { s1 with PC := (s1.PC + 1) % 2 ^ 64 }
        let opcode := opcodeOf op0 op1
        if opcode = 0 then { s2 with FATAL := true }
        else
          match FindBestInstruction (hex4 opcode) with
          | some ix => ix.2 env opcode s2
          | none => { s2 with FATAL := true }

/-- Exact match of a rendered opcode against a template: every literal character equals the
opcode's digit at that position and every wildcard character matches unconditionally. -/
def exactMatch : List Char → List Char → Bool
  | c :: r, t :: q => (decide (c = t) || decide (t ∈ special_values)) && exactMatch r q
  | [], [] => true
  | _, _ => false

/-- Value of a lower-case hexadecimal digit character (16 for any other character). -/
def hexValue (c : Char) : Nat :=
  if '0'.toNat ≤ c.toNat ∧ c.toNat ≤ '9'.toNat then c.toNat - '0'.toNat
  else if 'a'.toNat ≤ c.toNat ∧ c.toNat ≤ 'f'.toNat then c.toNat - 'a'.toNat + 10
  else 16

/-- Bit-mask decoding as the design notes describe it: the mask of a template has the
nibble `0xF` at every literal position and `0` at every wildcard position. -/
def maskOf (t : List Char) : Nat :=
  t.foldl (fun m c => 16 * m + (if c ∈ special_values then 0 else 0xF)) 0

/-- Bit-mask decoding: the expected bits of a template carry the digit of every literal
position and `0` at every wildcard position. -/
def expectedOf (t : List Char) : Nat :=
  t.foldl (fun m c => 16 * m + (if c ∈ special_values then 0 else hexValue c)) 0

/-- Bit-mask decoding: dispatch is the first pattern, in catalogue order, whose
`(opcode & mask) == expected`. -/
def decodeByMask (opcode : Nat) : Option Entry :=
  instr.find? (fun e => opcode &&& maskOf e.1 == expectedOf e.1)

/-- The callback the display-refresh `TimerSDL` registers with `SDL_AddTimer`: one `Tick` of
`disp_wait`. -/
def TickDisplay (s : State) : State := { s with disp_wait := s.disp_wait.Tick }

/-- The call `Instructions::Draw(ram.begin(), ram.begin() + MEMORY_VIDEO, V[0xF], V[op.X],
V[op.Y], I, op.N, display.GetW(), display.GetH())` of the draw handler. -/
def drawOf (opcode : Nat) (s : State) : (Nat → Nat) × Nat :=
  Draw s.ram 0 MEMORY_VIDEO (s.V 0xF) (s.V (CHIP8OpParse.parse opcode).X)
    (s.V (CHIP8OpParse.parse opcode).Y) s.I (CHIP8OpParse.parse opcode).N displayW displayH

/-- An environment with no key down and `rand() = 0`. -/
def idle : Env := { IsPressed := fun _ => false, GetKey := Key_invalid, rand := 0 }

/-- State with the opcode `0x8128` at `0x200`, `V2 = 7`. -/
def unmatchedState : State :=
  { blank with ram := mem [(0x200, 0x81), (0x201, 0x28)], V := regs [0, 0, 7] }

/-- Program `7001` at `0x200` followed by zero bytes: one step adds 1 to `V0`, the next step
fetches the zero word and halts. -/
def haltingProgram : State :=
  { blank with ram := mem [(0x200, 0x70), (0x201, 0x01)] }

/-- State with the draw instruction `D001` at `0x200` and the display gate closed. -/
def gateClosedState : State :=
  { blank with ram := mem [(0x200, 0xD0), (0x201, 0x01)], disp_wait := ⟨1, true⟩ }

/-- State with two consecutive draw instructions `D001` at `0x200` and the gate open. -/
def twoDrawsState : State :=
  { blank with ram := mem [(0x200, 0xD0), (0x201, 0x01), (0x202, 0xD0), (0x203, 0x01)] }

/-- State with `2300` (call `0x300`) at `0x200` and `00EE` (return) at `0x300`. -/
def callState : State :=
  { blank with ram := mem [(0x200, 0x23), (0x201, 0x00), (0x300, 0x00), (0x301, 0xEE)] }

/-! ## Timer edge, program load, default key map -/

/-- Whether `Timer::Tick` reaches its call of `TimeOver()`:
`if (enable && timer) if (!--timer) TimeOver();`. -/
def Timer.TimeOver (t : Timer) : Bool :=
  t.enable && (t.timer != 0) && (t.timer - 1 == 0)

/-- Number of calls of `TimeOver()` made by `n` successive calls of `Timer::Tick`. -/
def Timer.edges : Nat → Timer → Nat
  | 0, _ => 0
  | n + 1, t => (if t.TimeOver then 1 else 0) + Timer.edges n t.Tick

/-- The loop of `CHIP8::LoadROM(std::ifstream&)`,
`for (i = 0; i < GetRamSize() && is; ++i) { is.read(&byte, 1); ram[MEMORY_USABLE + i] = byte; }`,
by recursion on the iterations left: `stream` is what the file still holds, `good` the stream
state tested by `&& is`, `byte` the local variable the reads go through (a failed read leaves
it as it was). -/
def LoadROMLoop : Nat → Nat → List Nat → Bool → Nat → (Nat → Nat) → (Nat → Nat)
  | 0, _, _, _, _, ram => ram
  | n + 1, i, stream, good, byte, ram =>
    if good then
      match stream with
      | b :: rest => LoadROMLoop n (i + 1) rest true b (poke ram (MEMORY_USABLE + i) b)
      | [] => LoadROMLoop n (i + 1) [] false byte (poke ram (MEMORY_USABLE + i) byte)
    else ram

/-- `CHIP8::LoadROM(std::ifstream&)` on a stream positioned at the start of a file with the
bytes `file`; `byte0` is the indeterminate initial value of the local `char byte`.  The key
map it then looks for belongs to the input capability; the result is always `true`. -/
def LoadROMStream (s : State) (file : List Nat) (byte0 : Nat) : State × Bool :=
  ({ s with ram := LoadROMLoop GetRamSize 0 file true byte0 s.ram }, true)

/-- `Machine::LoadROM(const std::string&)`: `rom` is `none` when the file cannot be opened,
otherwise its bytes; the length test precedes every memory write. -/
def LoadROM (s : State) (rom : Option (List Nat)) (byte0 : Nat) : State × Bool :=
  match rom with
  | none => (s, false)
  | some file =>
    if file.length > GetRamSize then (s, false)
    else LoadROMStream s file byte0

/-- Constant `gInputTotalKeys` of `input.h`. -/
def gInputTotalKeys : Nat := 16

/-- The enumerator `Input::Key::K1 = 0x1`. -/
def Key_K1 : Nat := 0x1

/-- The map `to_sdl` after the `InputSDL` constructor has run:
`for (i = 0; i < gInputTotalKeys; ++i) to_sdl[Key((int)Key::K1 + i)] = scan(keymap[i]);`
where `scan i` stands for `SDL_GetScancodeFromName(keymap[i].c_str())`. -/
def InputSDL_to_sdl (scan : Nat → Nat) : List (Nat × Nat) :=
  (List.range gInputTotalKeys).map (fun i => (Key_K1 + i, scan i))

/-- State with `F01E` (add `V0` to `I`) at `0x200`, `V0 = 1` and `I = 0xFFF`. -/
def addressEdgeState : State :=
  { blank with ram := mem [(0x200, 0xF0), (0x201, 0x1E)], V := regs [1], I := 0xFFF }

/-- State with `F10A` (wait for a key into `V1`) at `0x200`. -/
def keyWaitState : State :=
  { blank with ram := mem [(0x200, 0xF1), (0x201, 0x0A)] }

/-- An environment in which `GetKey(false)` reports the key `k`. -/
def keyDown (k : Nat) : Env := { IsPressed := fun j => j == k, GetKey := k, rand := 0 }

/-- State for the decimal conversion: `V0 = 234`, `I = 0x300`. -/
def bcdState : State := { blank with V := regs [234], I := 0x300 }

/-- State for the register dump: `V0 = 0x11`, `V1 = 0x22`, `V2 = 0x33`, `I = 0x300`. -/
def storeState : State := { blank with V := regs [0x11, 0x22, 0x33], I := 0x300 }

/-! # Theorems -/

/-! ## Decoder fields as arithmetic -/

theorem parse_X_eq (op : Nat) : (CHIP8OpParse.parse op).X = op / 256 % 16 := by
  have e15 : (0x0F : Nat) = 2 ^ 4 - 1 := by norm_num
  simp only [CHIP8OpParse.parse, e15, Nat.and_pow_two_sub_one_eq_mod, Nat.shiftRight_eq_div_pow]

theorem parse_Y_eq (op : Nat) : (CHIP8OpParse.parse op).Y = op / 16 % 16 := by
  have e15 : (0x0F : Nat) = 2 ^ 4 - 1 := by norm_num
  simp only [CHIP8OpParse.parse, e15, Nat.and_pow_two_sub_one_eq_mod, Nat.shiftRight_eq_div_pow]

theorem parse_NN_eq (op : Nat) : (CHIP8OpParse.parse op).NN = op % 256 := by
  have e : (0x0FF : Nat) = 2 ^ 8 - 1 := by norm_num
  simp only [CHIP8OpParse.parse, e, Nat.and_pow_two_sub_one_eq_mod]

theorem parse_N_eq (op : Nat) : (CHIP8OpParse.parse op).N = op % 16 := by
  have e : (0x0F : Nat) = 2 ^ 4 - 1 := by norm_num
  simp only [CHIP8OpParse.parse, e, Nat.and_pow_two_sub_one_eq_mod]

/-! ## Bytes and bits -/

theorem byte_or_lt {a b : Nat} (ha : a < 256) (hb : b < 256) : a ||| b < 256 :=
  Nat.or_lt_two_pow (n := 8) ha hb

theorem byte_and_lt {a b : Nat} (ha : a < 256) : a &&& b < 256 :=
  lt_of_le_of_lt Nat.and_le_left ha

theorem byte_xor_lt {a b : Nat} (ha : a < 256) (hb : b < 256) : a ^^^ b < 256 :=
  Nat.xor_lt_two_pow (n := 8) ha hb

theorem testBit_bnot (x i : Nat) (hx : x < 2 ^ 32) :
    (bnot x).testBit i = (decide (i < 32) && !x.testBit i) := by
  unfold bnot
  have : 2 ^ 32 - 1 - x = 2 ^ 32 - (x + 1) := by omega
  rw [this, Nat.testBit_two_pow_sub_succ hx]

theorem byte_testBit_ge {a i : Nat} (ha : a < 256) (hi : 8 ≤ i) : a.testBit i = false :=
  Nat.testBit_lt_two_pow (lt_of_lt_of_le ha (by
    calc 256 = 2 ^ 8 := by norm_num
      _ ≤ 2 ^ i := Nat.pow_le_pow_right (by norm_num) hi))

theorem testBit_mod_256 (x i : Nat) : (x % 256).testBit i = (decide (i < 8) && x.testBit i) := by
  have e256 : (256 : Nat) = 2 ^ 8 := by norm_num
  rw [e256, Nat.testBit_mod_two_pow]

/-- The clipping mask as a set of bit positions. -/
theorem testBit_mask (k i : Nat) : ((255 <<< k) % 256).testBit i = (decide (i < 8) && decide (k ≤ i)) := by
  have e256 : (256 : Nat) = 2 ^ 8 := by norm_num
  have eff : (255 : Nat) = 2 ^ 8 - 1 := by norm_num
  rw [e256, Nat.testBit_mod_two_pow, Nat.testBit_shiftLeft, eff, Nat.testBit_two_pow_sub_one]
  by_cases h1 : i < 8 <;> by_cases h2 : k ≤ i <;> simp [h1, h2]
  omega

theorem testBit_255 (i : Nat) : (255 : Nat).testBit i = decide (i < 8) := by
  have eff : (255 : Nat) = 2 ^ 8 - 1 := by norm_num
  rw [eff, Nat.testBit_two_pow_sub_one]

theorem shl8_mod_256 (x : Nat) : (x <<< 8) % 256 = 0 := by
  rw [Nat.shiftLeft_eq]
  omega

theorem and_ne_self_iff (s x : Nat) :
    (s &&& x ≠ s) ↔ ∃ j, s.testBit j = true ∧ x.testBit j = false := by
  constructor
  · intro h
    by_contra hno
    push_neg at hno
    apply h
    apply Nat.eq_of_testBit_eq
    intro j
    rw [Nat.testBit_and]
    cases hs : s.testBit j with
    | false => simp
    | true =>
      have := hno j hs
      simp only [Bool.not_eq_false] at this
      simp [this]
  · rintro ⟨j, hs, hx⟩ h
    have := congrArg (fun n => n.testBit j) h
    simp only [Nat.testBit_and, hs, hx, Bool.and_false] at this
    exact Bool.false_ne_true this

theorem mem_lt_256 (l : List (Nat × Nat)) (h : ∀ p ∈ l, p.2 < 256) (a : Nat) : mem l a < 256 := by
  unfold mem
  cases hf : l.find? (fun p => p.1 == a) with
  | none => simp
  | some p =>
    simp only [Option.map_some', Option.getD_some]
    exact h p (List.mem_of_find?_eq_some hf)

/-! ## One sprite row: the two display bytes of the window -/

theorem row_first_byte (a b sp k mask : Nat) (ha : a < 256) (hb : b < 256) (hsp : sp < 256)
    (hk : k < 8) (hm : mask = 255 ∨ mask = (255 <<< k) % 256) :
    ((a &&& bnot (mask >>> k)) % 256 |||
      (((if k ≠ 0 then ((a <<< k) % 256 ||| b >>> (8 - k)) % 256 else (a <<< k) % 256) ^^^ sp)
        % 256 &&& mask) >>> k) % 256 = a ^^^ (sp >>> k) := by
  have e256 : (256 : Nat) = 2 ^ 8 := by norm_num
  have hmlt : mask >>> k < 2 ^ 32 := by
    have : mask < 256 := by
      rcases hm with h | h
      · omega
      · rw [h]; exact Nat.mod_lt _ (by norm_num)
    rw [Nat.shiftRight_eq_div_pow]
    exact lt_of_le_of_lt (Nat.div_le_self _ _) (by omega)
  have hmbit : ∀ i, i < 8 → mask.testBit (k + i) = decide (k + i < 8) := by
    intro i hi
    rcases hm with h | h
    · rw [h, testBit_255]
    · rw [h, testBit_mask]; simp
  apply Nat.eq_of_testBit_eq
  intro i
  by_cases hi : i < 8
  · have hb' : b.testBit (8 - k + (k + i)) = false := byte_testBit_ge hb (by omega)
    have hki : k + i - k = i := by omega
    by_cases hk0 : k = 0
    · subst hk0
      have hm0 : mask.testBit i = true := by
        have := hmbit i hi
        simpa [hi] using this
      have hb0 : (bnot mask).testBit i = false := by
        rw [testBit_bnot mask i (by simpa using hmlt), hm0]
        simp
      simp [testBit_mod_256, Nat.testBit_or, Nat.testBit_and, Nat.testBit_xor, hi, hm0, hb0]
    · by_cases hik : k + i < 8
      · simp [testBit_mod_256, Nat.testBit_or, Nat.testBit_and, Nat.testBit_xor,
          Nat.testBit_shiftRight, Nat.testBit_shiftLeft, testBit_bnot _ _ hmlt, hmbit i hi, hi,
          hik, hb', hki, hk0, show i < 32 by omega]
      · simp [testBit_mod_256, Nat.testBit_or, Nat.testBit_and, Nat.testBit_xor,
          Nat.testBit_shiftRight, Nat.testBit_shiftLeft, testBit_bnot _ _ hmlt, hmbit i hi, hi,
          hik, hb', hki, hk0, show i < 32 by omega, byte_testBit_ge hsp (show 8 ≤ k + i by omega)]
  · simp [testBit_mod_256, Nat.testBit_xor, Nat.testBit_shiftRight, hi,
      byte_testBit_ge ha (show 8 ≤ i by omega), byte_testBit_ge hsp (show 8 ≤ k + i by omega)]

theorem row_second_byte (a b sp k : Nat) (hb : b < 256) (hk : k < 8) :
    ((b &&& bnot (255 <<< (8 - k))) % 256 |||
      ((((a <<< k) % 256 ||| b >>> (8 - k)) % 256 ^^^ sp) % 256 &&& 255) <<< (8 - k)) % 256
      = b ^^^ (sp <<< (8 - k)) % 256 := by
  have hmlt : 255 <<< (8 - k) < 2 ^ 32 := by
    rw [Nat.shiftLeft_eq]
    calc 255 * 2 ^ (8 - k) ≤ 255 * 2 ^ 8 :=
          Nat.mul_le_mul_left _ (Nat.pow_le_pow_right (by norm_num) (by omega))
      _ < 2 ^ 32 := by norm_num
  apply Nat.eq_of_testBit_eq
  intro i
  by_cases hi : i < 8
  · by_cases hik : 8 - k ≤ i
    · have hj : i - (8 - k) < 8 := by omega
      have hj' : ¬ k ≤ i - (8 - k) := by omega
      have hj2 : 8 - k + (i - (8 - k)) = i := by omega
      simp [testBit_mod_256, Nat.testBit_or, Nat.testBit_and, Nat.testBit_xor,
        Nat.testBit_shiftRight, Nat.testBit_shiftLeft, testBit_bnot _ _ hmlt, testBit_255, hi,
        hik, hj, hj', hj2, show i < 32 by omega]
    · simp [testBit_mod_256, Nat.testBit_or, Nat.testBit_and, Nat.testBit_xor,
        Nat.testBit_shiftRight, Nat.testBit_shiftLeft, testBit_bnot _ _ hmlt, testBit_255, hi,
        hik, show i < 32 by omega]
  · simp [testBit_mod_256, Nat.testBit_xor, hi, byte_testBit_ge hb (show 8 ≤ i by omega)]

theorem row_second_byte_clipped (a b sp k : Nat) (hb : b < 256) (hk : k < 8) :
    ((b &&& bnot (((255 <<< k) % 256) <<< (8 - k))) % 256 |||
      ((((a <<< k) % 256 ||| b >>> (8 - k)) % 256 ^^^ sp) % 256 &&& ((255 <<< k) % 256))
        <<< (8 - k)) % 256 = b := by
  have hmlt : ((255 <<< k) % 256) <<< (8 - k) < 2 ^ 32 := by
    rw [Nat.shiftLeft_eq]
    have h1 : (255 <<< k) % 256 < 256 := Nat.mod_lt _ (by norm_num)
    calc (255 <<< k) % 256 * 2 ^ (8 - k) ≤ 256 * 2 ^ 8 :=
          Nat.mul_le_mul (le_of_lt h1) (Nat.pow_le_pow_right (by norm_num) (by omega))
      _ < 2 ^ 32 := by norm_num
  apply Nat.eq_of_testBit_eq
  intro i
  by_cases hi : i < 8
  · by_cases hik : 8 - k ≤ i
    · have hj : i - (8 - k) < 8 := by omega
      have hj' : ¬ k ≤ i - (8 - k) := by omega
      simp [testBit_mod_256, Nat.testBit_or, Nat.testBit_and, Nat.testBit_xor,
        Nat.testBit_shiftRight, Nat.testBit_shiftLeft, testBit_bnot _ _ hmlt, testBit_mask, hi,
        hik, hj, hj', show i < 32 by omega]
    · simp [testBit_mod_256, Nat.testBit_or, Nat.testBit_and, Nat.testBit_xor,
        Nat.testBit_shiftRight, Nat.testBit_shiftLeft, testBit_bnot _ _ hmlt, testBit_mask, hi,
        hik, show i < 32 by omega]
  · simp [testBit_mod_256, hi, byte_testBit_ge hb (show 8 ≤ i by omega)]

/-- The on-screen window reconstructed by `Draw` from the two display bytes it spans. -/
theorem window_testBit (a b k j : Nat) (hb : b < 256) (hk : k < 8) (hj : j < 8) :
    (if k ≠ 0 then ((a <<< k) % 256 ||| b >>> (8 - k)) % 256 else (a <<< k) % 256).testBit j =
      if k ≤ j then a.testBit (j - k) else b.testBit (8 - k + j) := by
  by_cases hk0 : k = 0
  · subst hk0
    simp [testBit_mod_256, hj]
  · by_cases hkj : k ≤ j
    · simp [testBit_mod_256, Nat.testBit_or, Nat.testBit_shiftLeft, Nat.testBit_shiftRight, hj,
        hk0, hkj, byte_testBit_ge hb (show 8 ≤ 8 - k + j by omega)]
    · simp [testBit_mod_256, Nat.testBit_or, Nat.testBit_shiftLeft, Nat.testBit_shiftRight, hj,
        hk0, hkj]

theorem window_pixel (ram : Nat → Nat) (X Y j : Nat) (hj : j < 8) :
    (if X % 8 ≤ j then (ram (0xF00 + 8 * Y + X / 8)).testBit (j - X % 8)
      else (ram (0xF00 + 8 * Y + X / 8 + 1)).testBit (8 - X % 8 + j)) =
      pixel ram (X + (7 - j)) Y := by
  unfold pixel
  simp only [MEMORY_VIDEO, displayW]
  by_cases hkj : X % 8 ≤ j
  · have e1 : 0xF00 + (Y * 64 + (X + (7 - j))) / 8 = 0xF00 + 8 * Y + X / 8 := by omega
    have e2 : 7 - (X + (7 - j)) % 8 = j - X % 8 := by omega
    rw [if_pos hkj, e1, e2]
  · have e1 : 0xF00 + (Y * 64 + (X + (7 - j))) / 8 = 0xF00 + 8 * Y + X / 8 + 1 := by omega
    have e2 : 7 - (X + (7 - j)) % 8 = 8 - X % 8 + j := by omega
    rw [if_neg hkj, e1, e2]

theorem DrawRow_ram (X sprite vp : Nat) (ram : Nat → Nat) (hX : X < 64)
    (hwf : ∀ a, ram a < 256) (addr : Nat) :
    (DrawRow 64 X sprite vp ram).1 addr =
      if addr = vp then ram vp ^^^ (ram sprite >>> (X % 8))
      else if addr = vp + 1 ∧ X / 8 < 7 then
        ram (vp + 1) ^^^ ((ram sprite <<< (8 - X % 8)) % 256)
      else ram addr := by
  have hk : X % 8 < 8 := Nat.mod_lt _ (by norm_num)
  have hne : vp + 1 ≠ vp := by omega
  by_cases hk0 : X % 8 = 0
  · have hclip : ¬ (X + 8 > 64) := by omega
    have h1 := row_first_byte (ram vp) (ram (vp + 1)) (ram sprite) (X % 8) 255 (hwf _) (hwf _)
      (hwf _) hk (Or.inl rfl)
    rw [hk0] at h1
    simp only [ne_eq, not_true_eq_false, if_false] at h1
    simp only [DrawRow, poke, hk0, hclip, if_false, ne_eq, not_true_eq_false, if_true]
    by_cases ha : addr = vp
    · simp only [ha, if_true]
      exact h1
    · simp only [ha, if_false]
      by_cases ha1 : addr = vp + 1 ∧ X / 8 < 7
      · simp only [ha1, and_self, if_true, Nat.sub_zero, shl8_mod_256, Nat.xor_zero]
      · simp only [ha1, if_false]
  · by_cases hclip : X + 8 > 64
    · have hX7 : ¬ (X / 8 < 7) := by omega
      have hkk : 8 - (64 - X) = X % 8 := by omega
      have h1 := row_first_byte (ram vp) (ram (vp + 1)) (ram sprite) (X % 8)
        ((255 <<< (X % 8)) % 256) (hwf _) (hwf _) (hwf _) hk (Or.inr rfl)
      have h2 := row_second_byte_clipped (ram vp) (ram (vp + 1)) (ram sprite) (X % 8) (hwf _) hk
      simp only [ne_eq, hk0, not_false_eq_true, if_true] at h1
      simp only [DrawRow, poke, hk0, hclip, if_false, ne_eq, not_false_eq_true, if_true, hkk,
        hne, hX7, and_false]
      by_cases ha : addr = vp
      · simp only [ha, if_true, if_neg (Ne.symm hne)]
        exact h1
      · by_cases ha1 : addr = vp + 1
        · simp only [ha1, hne, if_true, if_false]
          exact h2
        · simp only [ha, ha1, if_false]
    · have hX7 : X / 8 < 7 := by omega
      have h1 := row_first_byte (ram vp) (ram (vp + 1)) (ram sprite) (X % 8) 255 (hwf _) (hwf _)
        (hwf _) hk (Or.inl rfl)
      have h2 := row_second_byte (ram vp) (ram (vp + 1)) (ram sprite) (X % 8) (hwf _) hk
      simp only [ne_eq, hk0, not_false_eq_true, if_true] at h1
      simp only [DrawRow, poke, hk0, hclip, if_false, ne_eq, not_false_eq_true, if_true,
        hne, hX7, and_true]
      by_cases ha : addr = vp
      · simp only [ha, if_true, if_neg (Ne.symm hne)]
        exact h1
      · by_cases ha1 : addr = vp + 1
        · simp only [ha1, hne, if_true, if_false]
          exact h2
        · simp only [ha, ha1, if_false]

theorem DrawRow_wf (X sprite vp : Nat) (ram : Nat → Nat) (hX : X < 64)
    (hwf : ∀ a, ram a < 256) (addr : Nat) : (DrawRow 64 X sprite vp ram).1 addr < 256 := by
  rw [DrawRow_ram X sprite vp ram hX hwf]
  have hs : ram sprite >>> (X % 8) < 256 := by
    rw [Nat.shiftRight_eq_div_pow]
    exact lt_of_le_of_lt (Nat.div_le_self _ _) (hwf _)
  split_ifs
  · exact byte_xor_lt (hwf _) hs
  · exact byte_xor_lt (hwf _) (Nat.mod_lt _ (by norm_num))
  · exact hwf _

/-- The value one row of `Draw` assigns to the flag: 1 exactly when a visible pixel of the
row is set on screen and set in the sprite byte. -/
theorem DrawRow_flag (X Y sprite : Nat) (ram : Nat → Nat) (hX : X < 64)
    (hwf : ∀ a, ram a < 256) :
    ((DrawRow 64 X sprite (0xF00 + 8 * Y + X / 8) ram).2 = 1 ↔
      ∃ c, c < 8 ∧ X + c < 64 ∧ pixel ram (X + c) Y = true ∧
          (ram sprite).testBit (7 - c) = true) ∧
    ((DrawRow 64 X sprite (0xF00 + 8 * Y + X / 8) ram).2 = 0 ∨
      (DrawRow 64 X sprite (0xF00 + 8 * Y + X / 8) ram).2 = 1) := by
  have hk : X % 8 < 8 := Nat.mod_lt _ (by norm_num)
  set a := ram (0xF00 + 8 * Y + X / 8) with ha
  set b := ram (0xF00 + 8 * Y + X / 8 + 1) with hb
  set sp := ram sprite with hsp
  have hmask : ∀ j, (if X + 8 > 64 then (255 <<< (8 - (64 - X))) % 256 else 255).testBit j =
      decide (j < 8 ∧ X + (7 - j) < 64) := by
    intro j
    by_cases hclip : X + 8 > 64
    · rw [if_pos hclip, testBit_mask]
      by_cases h1 : j < 8 <;> by_cases h2 : 8 - (64 - X) ≤ j <;> simp [h1, h2] <;> omega
    · rw [if_neg hclip, testBit_255]
      by_cases h1 : j < 8 <;> simp [h1]
      omega
  have hwin : ∀ j, j < 8 → X + (7 - j) < 64 →
      (if X % 8 ≠ 0 then ((a <<< (X % 8)) % 256 ||| b >>> (8 - X % 8)) % 256
        else (a <<< (X % 8)) % 256).testBit j = pixel ram (X + (7 - j)) Y := by
    intro j hj hx
    rw [window_testBit a b (X % 8) j (hwf _) hk hj, ← window_pixel ram X Y j hj]
  have hcond : ((if X % 8 ≠ 0 then ((a <<< (X % 8)) % 256 ||| b >>> (8 - X % 8)) % 256
          else (a <<< (X % 8)) % 256) &&&
        (if X + 8 > 64 then (255 <<< (8 - (64 - X))) % 256 else 255)) &&&
      (((if X % 8 ≠ 0 then ((a <<< (X % 8)) % 256 ||| b >>> (8 - X % 8)) % 256
          else (a <<< (X % 8)) % 256) ^^^ sp) % 256 &&&
        (if X + 8 > 64 then (255 <<< (8 - (64 - X))) % 256 else 255)) ≠
      (if X % 8 ≠ 0 then ((a <<< (X % 8)) % 256 ||| b >>> (8 - X % 8)) % 256
          else (a <<< (X % 8)) % 256) &&&
        (if X + 8 > 64 then (255 <<< (8 - (64 - X))) % 256 else 255) ↔
      ∃ c, c < 8 ∧ X + c < 64 ∧ pixel ram (X + c) Y = true ∧ sp.testBit (7 - c) = true := by
    rw [and_ne_self_iff]
    constructor
    · rintro ⟨j, h1, h2⟩
      rw [Nat.testBit_and, hmask] at h1 h2
      simp only [Bool.and_eq_true, decide_eq_true_eq] at h1
      obtain ⟨hw, hj, hx⟩ := h1
      rw [hwin j hj hx] at hw
      rw [testBit_mod_256, Nat.testBit_xor, hwin j hj hx, hw] at h2
      simp only [hj, hx, and_self, decide_True, Bool.true_and, Bool.and_true,
        Bool.true_xor, Bool.not_eq_false'] at h2
      refine ⟨7 - j, by omega, hx, hw, ?_⟩
      have : 7 - (7 - j) = j := by omega
      rw [this]; exact h2
    · rintro ⟨c, hc, hx, hp, hs⟩
      have e : X + (7 - (7 - c)) = X + c := by omega
      have hw := hwin (7 - c) (by omega) (by omega)
      rw [e, hp] at hw
      refine ⟨7 - c, ?_, ?_⟩
      · rw [Nat.testBit_and, hmask, hw]
        simp only [Bool.true_and, decide_eq_true_eq]
        omega
      · rw [Nat.testBit_and, hmask, testBit_mod_256, Nat.testBit_xor, hw, hs]
        simp
  simp only [DrawRow]
  by_cases hex : ∃ c, c < 8 ∧ X + c < 64 ∧ pixel ram (X + c) Y = true ∧ sp.testBit (7 - c) = true
  · rw [if_pos (hcond.mpr hex)]
    exact ⟨⟨fun _ => hex, fun _ => rfl⟩, Or.inr rfl⟩
  · rw [if_neg (fun h => hex (hcond.mp h))]
    exact ⟨⟨fun h => absurd h (by decide), fun h => absurd h hex⟩, Or.inl rfl⟩

/-! ## The row loop -/

/-- Closed form of the memory after the row loop: byte-level effect of drawing `N` sprite rows
read from `sprite` onward, starting at display row `Y` and column `X`. -/
theorem DrawLoop_ram (X : Nat) (hX : X < 64) (N : Nat) :
    ∀ (Y sprite : Nat) (ram : Nat → Nat) (vf : Nat),
      (∀ a, ram a < 256) →
      (∀ r, r < N → sprite + r < 0xF00 ∨ 0x1000 ≤ sprite + r) →
      ∀ addr,
        (DrawLoop 64 32 X N Y sprite (0xF00 + 8 * Y + X / 8) (ram, vf)).1 addr =
          if 0xF00 ≤ addr ∧ addr < 0x1000 ∧ Y ≤ (addr - 0xF00) / 8 ∧ (addr - 0xF00) / 8 < Y + N then
            if (addr - 0xF00) % 8 = X / 8 then
              ram addr ^^^ (ram (sprite + ((addr - 0xF00) / 8 - Y)) >>> (X % 8))
            else if (addr - 0xF00) % 8 = X / 8 + 1 then
              ram addr ^^^ ((ram (sprite + ((addr - 0xF00) / 8 - Y)) <<< (8 - X % 8)) % 256)
            else ram addr
          else ram addr := by
  induction N with
  | zero =>
    intro Y sprite ram vf _ _ addr
    have : ¬ (0xF00 ≤ addr ∧ addr < 0x1000 ∧ Y ≤ (addr - 0xF00) / 8 ∧ (addr - 0xF00) / 8 < Y + 0) := by
      omega
    simp only [DrawLoop, this, if_false]
  | succ N ih =>
    intro Y sprite ram vf hwf hs addr
    by_cases hY : Y < 32
    · have hstep : DrawLoop 64 32 X (N + 1) Y sprite (0xF00 + 8 * Y + X / 8) (ram, vf) =
          DrawLoop 64 32 X N (Y + 1) (sprite + 1) (0xF00 + 8 * (Y + 1) + X / 8)
            (DrawRow 64 X sprite (0xF00 + 8 * Y + X / 8) ram) := by
        have e : 0xF00 + 8 * Y + X / 8 + 64 / 8 = 0xF00 + 8 * (Y + 1) + X / 8 := by omega
        simp only [DrawLoop, hY, if_true, e]
      rw [hstep]
      have hs0 := hs 0 (by omega)
      have hs' : ∀ r, r < N → sprite + 1 + r < 0xF00 ∨ 0x1000 ≤ sprite + 1 + r := by
        intro r hr
        have := hs (r + 1) (by omega)
        omega
      have hsp : ∀ r, r < N → (DrawRow 64 X sprite (0xF00 + 8 * Y + X / 8) ram).1 (sprite + 1 + r)
          = ram (sprite + 1 + r) := by
        intro r hr
        have := hs' r hr
        rw [DrawRow_ram X sprite _ ram hX hwf]
        have h1 : sprite + 1 + r ≠ 0xF00 + 8 * Y + X / 8 := by omega
        have h2 : ¬ (sprite + 1 + r = 0xF00 + 8 * Y + X / 8 + 1 ∧ X / 8 < 7) := by omega
        simp only [h1, h2, if_false]
      have := ih (Y + 1) (sprite + 1) (DrawRow 64 X sprite (0xF00 + 8 * Y + X / 8) ram).1
        (DrawRow 64 X sprite (0xF00 + 8 * Y + X / 8) ram).2
        (DrawRow_wf X sprite _ ram hX hwf) hs' addr
      rw [this]
      have hrow := DrawRow_ram X sprite (0xF00 + 8 * Y + X / 8) ram hX hwf addr
      by_cases hd : 0xF00 ≤ addr ∧ addr < 0x1000
      · by_cases hlo : Y + 1 ≤ (addr - 0xF00) / 8
        · by_cases hhi : (addr - 0xF00) / 8 < Y + 1 + N
          · have c1 : 0xF00 ≤ addr ∧ addr < 0x1000 ∧ Y + 1 ≤ (addr - 0xF00) / 8 ∧
                (addr - 0xF00) / 8 < Y + 1 + N := ⟨hd.1, hd.2, hlo, hhi⟩
            have c2 : 0xF00 ≤ addr ∧ addr < 0x1000 ∧ Y ≤ (addr - 0xF00) / 8 ∧
                (addr - 0xF00) / 8 < Y + (N + 1) := ⟨hd.1, hd.2, by omega, by omega⟩
            have h1 : addr ≠ 0xF00 + 8 * Y + X / 8 := by omega
            have h2 : ¬ (addr = 0xF00 + 8 * Y + X / 8 + 1 ∧ X / 8 < 7) := by omega
            have e : sprite + ((addr - 0xF00) / 8 - Y) = sprite + 1 + ((addr - 0xF00) / 8 - (Y + 1)) := by
              omega
            have hsp' := hsp ((addr - 0xF00) / 8 - (Y + 1)) (by omega)
            rw [if_pos c1, if_pos c2, e, hsp', hrow, if_neg h1, if_neg h2]
          · have c1 : ¬ (0xF00 ≤ addr ∧ addr < 0x1000 ∧ Y + 1 ≤ (addr - 0xF00) / 8 ∧
                (addr - 0xF00) / 8 < Y + 1 + N) := by omega
            have c2 : ¬ (0xF00 ≤ addr ∧ addr < 0x1000 ∧ Y ≤ (addr - 0xF00) / 8 ∧
                (addr - 0xF00) / 8 < Y + (N + 1)) := by omega
            have h1 : addr ≠ 0xF00 + 8 * Y + X / 8 := by omega
            have h2 : ¬ (addr = 0xF00 + 8 * Y + X / 8 + 1 ∧ X / 8 < 7) := by omega
            rw [if_neg c1, if_neg c2, hrow, if_neg h1, if_neg h2]
        · have c1 : ¬ (0xF00 ≤ addr ∧ addr < 0x1000 ∧ Y + 1 ≤ (addr - 0xF00) / 8 ∧
              (addr - 0xF00) / 8 < Y + 1 + N) := by omega
          rw [if_neg c1, hrow]
          by_cases hrowY : (addr - 0xF00) / 8 = Y
          · have c2 : 0xF00 ≤ addr ∧ addr < 0x1000 ∧ Y ≤ (addr - 0xF00) / 8 ∧
                (addr - 0xF00) / 8 < Y + (N + 1) := ⟨hd.1, hd.2, by omega, by omega⟩
            have e0 : sprite + ((addr - 0xF00) / 8 - Y) = sprite := by omega
            rw [if_pos c2, e0]
            by_cases hc : (addr - 0xF00) % 8 = X / 8
            · have h1 : addr = 0xF00 + 8 * Y + X / 8 := by omega
              rw [if_pos h1, if_pos hc, ← h1]
            · have h1 : addr ≠ 0xF00 + 8 * Y + X / 8 := by omega
              rw [if_neg h1, if_neg hc]
              by_cases hc1 : (addr - 0xF00) % 8 = X / 8 + 1
              · have h2 : addr = 0xF00 + 8 * Y + X / 8 + 1 ∧ X / 8 < 7 := by omega
                rw [if_pos h2, if_pos hc1, ← h2.1]
              · have h2 : ¬ (addr = 0xF00 + 8 * Y + X / 8 + 1 ∧ X / 8 < 7) := by omega
                rw [if_neg h2, if_neg hc1]
          · have c2 : ¬ (0xF00 ≤ addr ∧ addr < 0x1000 ∧ Y ≤ (addr - 0xF00) / 8 ∧
                (addr - 0xF00) / 8 < Y + (N + 1)) := by omega
            have h1 : addr ≠ 0xF00 + 8 * Y + X / 8 := by omega
            have h2 : ¬ (addr = 0xF00 + 8 * Y + X / 8 + 1 ∧ X / 8 < 7) := by omega
            rw [if_neg c2, if_neg h1, if_neg h2]
      · have c1 : ¬ (0xF00 ≤ addr ∧ addr < 0x1000 ∧ Y + 1 ≤ (addr - 0xF00) / 8 ∧
            (addr - 0xF00) / 8 < Y + 1 + N) := by omega
        have c2 : ¬ (0xF00 ≤ addr ∧ addr < 0x1000 ∧ Y ≤ (addr - 0xF00) / 8 ∧
            (addr - 0xF00) / 8 < Y + (N + 1)) := by omega
        have h1 : addr ≠ 0xF00 + 8 * Y + X / 8 := by omega
        have h2 : ¬ (addr = 0xF00 + 8 * Y + X / 8 + 1 ∧ X / 8 < 7) := by omega
        rw [if_neg c1, if_neg c2, hrow, if_neg h1, if_neg h2]
    · have : ¬ (0xF00 ≤ addr ∧ addr < 0x1000 ∧ Y ≤ (addr - 0xF00) / 8 ∧
          (addr - 0xF00) / 8 < Y + (N + 1)) := by omega
      simp only [DrawLoop, hY, this, if_false]

theorem Draw_eq_DrawLoop (ram : Nat → Nat) (VF VX VY I N : Nat) :
    Draw ram 0 MEMORY_VIDEO VF VX VY I N displayW displayH =
      DrawLoop 64 32 (VX % 64) N (VY % 32) I (0xF00 + 8 * (VY % 32) + VX % 64 / 8) (ram, VF) := by
  have hx : VX % 256 % 64 = VX % 64 := by omega
  have hy : VY % 256 % 32 = VY % 32 := by omega
  have e : 0xF00 + (VY % 32 * 64 + VX % 64) / 8 = 0xF00 + 8 * (VY % 32) + VX % 64 / 8 := by omega
  simp only [Draw, MEMORY_VIDEO, displayW, displayH, hx, hy, e, Nat.zero_add]

theorem Draw_one_row (ram : Nat → Nat) (VF VX VY I : Nat) :
    Draw ram 0 MEMORY_VIDEO VF VX VY I 1 displayW displayH =
      DrawRow 64 (VX % 64) I (0xF00 + 8 * (VY % 32) + VX % 64 / 8) ram := by
  have hY : VY % 32 < 32 := Nat.mod_lt _ (by norm_num)
  rw [Draw_eq_DrawLoop]
  simp only [DrawLoop, hY, if_true]

/-- Pixel-level effect of `Draw` on the 64 x 32 display. -/
theorem Draw_pixel (ram : Nat → Nat) (VF VX VY I N : Nat) (hwf : ∀ a, ram a < 256)
    (hs : ∀ r, r < N → I + r < 0xF00 ∨ 0x1000 ≤ I + r) (x y : Nat) (hx : x < 64) (hy : y < 32) :
    pixel (Draw ram 0 MEMORY_VIDEO VF VX VY I N displayW displayH).1 x y =
      xor (pixel ram x y)
        (decide (VY % 32 ≤ y ∧ y < VY % 32 + N ∧ VX % 64 ≤ x ∧ x < VX % 64 + 8) &&
          (ram (I + (y - VY % 32))).testBit (7 - (x - VX % 64))) := by
  have hX : VX % 64 < 64 := Nat.mod_lt _ (by norm_num)
  have hY : VY % 32 < 32 := Nat.mod_lt _ (by norm_num)
  have ea : MEMORY_VIDEO + (y * displayW + x) / 8 = 0xF00 + 8 * y + x / 8 := by
    simp only [MEMORY_VIDEO, displayW]; omega
  have hrow : (0xF00 + 8 * y + x / 8 - 0xF00) / 8 = y := by omega
  have hcol : (0xF00 + 8 * y + x / 8 - 0xF00) % 8 = x / 8 := by omega
  generalize hX0 : VX % 64 = X0 at *
  generalize hY0 : VY % 32 = Y0 at *
  simp only [pixel, ea, Draw_eq_DrawLoop, hX0, hY0, DrawLoop_ram X0 hX N Y0 I ram VF hwf hs, hrow, hcol]
  by_cases hr : Y0 ≤ y ∧ y < Y0 + N
  · have c : 0xF00 ≤ 0xF00 + 8 * y + x / 8 ∧ 0xF00 + 8 * y + x / 8 < 0x1000 ∧ Y0 ≤ y ∧ y < Y0 + N :=
      ⟨by omega, by omega, hr.1, hr.2⟩
    rw [if_pos c]
    have hsp := hwf (I + (y - Y0))
    by_cases hc : x / 8 = X0 / 8
    · rw [if_pos hc]
      rw [Nat.testBit_xor, Nat.testBit_shiftRight]
      by_cases hxx : X0 ≤ x
      · have e1 : X0 % 8 + (7 - x % 8) = 7 - (x - X0) := by omega
        have c2 : Y0 ≤ y ∧ y < Y0 + N ∧ X0 ≤ x ∧ x < X0 + 8 := ⟨hr.1, hr.2, hxx, by omega⟩
        simp only [e1, c2, and_self, decide_True, Bool.true_and]
      · have e1 : (ram (I + (y - Y0))).testBit (X0 % 8 + (7 - x % 8)) = false :=
          byte_testBit_ge hsp (by omega)
        have c2 : ¬ (Y0 ≤ y ∧ y < Y0 + N ∧ X0 ≤ x ∧ x < X0 + 8) := by omega
        simp only [e1, c2, decide_False, Bool.false_and]
    · rw [if_neg hc]
      by_cases hc1 : x / 8 = X0 / 8 + 1
      · rw [if_pos hc1, Nat.testBit_xor, testBit_mod_256, Nat.testBit_shiftLeft]
        by_cases hxx : x < X0 + 8
        · have e1 : 7 - x % 8 - (8 - X0 % 8) = 7 - (x - X0) := by omega
          have c2 : Y0 ≤ y ∧ y < Y0 + N ∧ X0 ≤ x ∧ x < X0 + 8 := ⟨hr.1, hr.2, by omega, hxx⟩
          have c3 : 7 - x % 8 < 8 := by omega
          have c4 : 7 - x % 8 ≥ 8 - X0 % 8 := by omega
          simp only [e1, c2, c3, c4, and_self, decide_True, Bool.true_and]
        · have c2 : ¬ (Y0 ≤ y ∧ y < Y0 + N ∧ X0 ≤ x ∧ x < X0 + 8) := by omega
          have c4 : ¬ (7 - x % 8 ≥ 8 - X0 % 8) := by omega
          simp only [c2, c4, decide_False, Bool.false_and, Bool.and_false]
      · rw [if_neg hc1]
        have c2 : ¬ (Y0 ≤ y ∧ y < Y0 + N ∧ X0 ≤ x ∧ x < X0 + 8) := by omega
        simp only [c2, decide_False, Bool.false_and, Bool.xor_false]
  · have c : ¬ (0xF00 ≤ 0xF00 + 8 * y + x / 8 ∧ 0xF00 + 8 * y + x / 8 < 0x1000 ∧ Y0 ≤ y ∧ y < Y0 + N) := by
      omega
    have c2 : ¬ (Y0 ≤ y ∧ y < Y0 + N ∧ X0 ≤ x ∧ x < X0 + 8) := by omega
    simp only [c, c2, if_false, decide_False, Bool.false_and, Bool.xor_false]

theorem Draw_outside (ram : Nat → Nat) (VF VX VY I N : Nat) (hwf : ∀ a, ram a < 256)
    (hs : ∀ r, r < N → I + r < 0xF00 ∨ 0x1000 ≤ I + r) (a : Nat) (ha : a < 0xF00 ∨ 0x1000 ≤ a) :
    (Draw ram 0 MEMORY_VIDEO VF VX VY I N displayW displayH).1 a = ram a := by
  have hX : VX % 64 < 64 := Nat.mod_lt _ (by norm_num)
  rw [Draw_eq_DrawLoop, DrawLoop_ram (VX % 64) hX N (VY % 32) I ram VF hwf hs]
  have c : ¬ (0xF00 ≤ a ∧ a < 0x1000 ∧ VY % 32 ≤ (a - 0xF00) / 8 ∧ (a - 0xF00) / 8 < VY % 32 + N) := by
    omega
  rw [if_neg c]

/-! ## The flag and the addresses touched -/

theorem DrawRow_pixel_other_row (X Y sprite : Nat) (ram : Nat → Nat) (hX : X < 64)
    (hwf : ∀ a, ram a < 256) (x y : Nat) (hx : x < 64) (hy : y ≠ Y) :
    pixel (DrawRow 64 X sprite (0xF00 + 8 * Y + X / 8) ram).1 x y = pixel ram x y := by
  unfold pixel
  rw [DrawRow_ram X sprite _ ram hX hwf]
  have h1 : MEMORY_VIDEO + (y * displayW + x) / 8 ≠ 0xF00 + 8 * Y + X / 8 := by
    simp only [MEMORY_VIDEO, displayW]; omega
  have h2 : ¬ (MEMORY_VIDEO + (y * displayW + x) / 8 = 0xF00 + 8 * Y + X / 8 + 1 ∧ X / 8 < 7) := by
    simp only [MEMORY_VIDEO, displayW]; omega
  rw [if_neg h1, if_neg h2]

/-- The flag left by the row loop is the flag of the last row it processed: with `N > 0` rows
requested from display row `Y < 32`, the last processed row is `Y + min N (32 - Y) - 1`. -/
theorem DrawLoop_flag (X : Nat) (hX : X < 64) (N : Nat) :
    ∀ (Y sprite : Nat) (ram : Nat → Nat) (vf : Nat),
      (∀ a, ram a < 256) →
      (∀ r, r < N → sprite + r < 0xF00 ∨ 0x1000 ≤ sprite + r) →
      Y < 32 → 0 < N →
      ((DrawLoop 64 32 X N Y sprite (0xF00 + 8 * Y + X / 8) (ram, vf)).2 = 1 ↔
        ∃ c, c < 8 ∧ X + c < 64 ∧ pixel ram (X + c) (Y + min N (32 - Y) - 1) = true ∧
          (ram (sprite + min N (32 - Y) - 1)).testBit (7 - c) = true) ∧
      ((DrawLoop 64 32 X N Y sprite (0xF00 + 8 * Y + X / 8) (ram, vf)).2 = 0 ∨
        (DrawLoop 64 32 X N Y sprite (0xF00 + 8 * Y + X / 8) (ram, vf)).2 = 1) := by
  induction N with
  | zero =>
    intro Y sprite ram vf _ _ _ h0
    omega
  | succ N ih =>
    intro Y sprite ram vf hwf hs hY _
    have hstep : DrawLoop 64 32 X (N + 1) Y sprite (0xF00 + 8 * Y + X / 8) (ram, vf) =
        DrawLoop 64 32 X N (Y + 1) (sprite + 1) (0xF00 + 8 * (Y + 1) + X / 8)
          (DrawRow 64 X sprite (0xF00 + 8 * Y + X / 8) ram) := by
      have e : 0xF00 + 8 * Y + X / 8 + 64 / 8 = 0xF00 + 8 * (Y + 1) + X / 8 := by omega
      simp only [DrawLoop, hY, if_true, e]
    rw [hstep]
    by_cases hlast : N = 0 ∨ ¬ (Y + 1 < 32)
    · have hstop : DrawLoop 64 32 X N (Y + 1) (sprite + 1) (0xF00 + 8 * (Y + 1) + X / 8)
          (DrawRow 64 X sprite (0xF00 + 8 * Y + X / 8) ram) =
          DrawRow 64 X sprite (0xF00 + 8 * Y + X / 8) ram := by
        cases N with
        | zero => simp only [DrawLoop]
        | succ M =>
          have hno : ¬ (Y + 1 < 32) := by omega
          simp only [DrawLoop, hno, if_false]
      have e1 : Y + min (N + 1) (32 - Y) - 1 = Y := by omega
      have e2 : sprite + min (N + 1) (32 - Y) - 1 = sprite := by omega
      rw [hstop, e1, e2]
      exact DrawRow_flag X Y sprite ram hX hwf
    · have hN : 0 < N := by omega
      have hY1 : Y + 1 < 32 := by omega
      have hs' : ∀ r, r < N → sprite + 1 + r < 0xF00 ∨ 0x1000 ≤ sprite + 1 + r := by
        intro r hr
        have := hs (r + 1) (by omega)
        omega
      have := ih (Y + 1) (sprite + 1) (DrawRow 64 X sprite (0xF00 + 8 * Y + X / 8) ram).1
        (DrawRow 64 X sprite (0xF00 + 8 * Y + X / 8) ram).2
        (DrawRow_wf X sprite _ ram hX hwf) hs' hY1 hN
      have e1 : Y + min (N + 1) (32 - Y) - 1 = Y + 1 + min N (32 - (Y + 1)) - 1 := by omega
      have e2 : sprite + min (N + 1) (32 - Y) - 1 = sprite + 1 + min N (32 - (Y + 1)) - 1 := by
        omega
      rw [e1, e2]
      have hsp : (DrawRow 64 X sprite (0xF00 + 8 * Y + X / 8) ram).1
          (sprite + 1 + min N (32 - (Y + 1)) - 1) = ram (sprite + 1 + min N (32 - (Y + 1)) - 1) := by
        have := hs (min N (32 - (Y + 1))) (by omega)
        rw [DrawRow_ram X sprite _ ram hX hwf]
        have h1 : sprite + 1 + min N (32 - (Y + 1)) - 1 ≠ 0xF00 + 8 * Y + X / 8 := by omega
        have h2 : ¬ (sprite + 1 + min N (32 - (Y + 1)) - 1 = 0xF00 + 8 * Y + X / 8 + 1 ∧
            X / 8 < 7) := by omega
        rw [if_neg h1, if_neg h2]
      have hpx : ∀ c, X + c < 64 →
          pixel (DrawRow 64 X sprite (0xF00 + 8 * Y + X / 8) ram).1 (X + c)
            (Y + 1 + min N (32 - (Y + 1)) - 1) =
          pixel ram (X + c) (Y + 1 + min N (32 - (Y + 1)) - 1) := by
        intro c hc
        exact DrawRow_pixel_other_row X Y sprite ram hX hwf _ _ hc (by omega)
      refine ⟨?_, this.2⟩
      rw [this.1, hsp]
      constructor
      · rintro ⟨c, hc, hx, hp, hb⟩
        exact ⟨c, hc, hx, by rw [← hpx c hx]; exact hp, hb⟩
      · rintro ⟨c, hc, hx, hp, hb⟩
        exact ⟨c, hc, hx, by rw [hpx c hx]; exact hp, hb⟩

/-- What `Draw` leaves in the flag: the flag of the last processed row when `N > 0`, the
incoming flag when `N = 0`. -/
theorem Draw_flag (ram : Nat → Nat) (VF VX VY I N : Nat) (hwf : ∀ a, ram a < 256)
    (hs : ∀ r, r < N → I + r < 0xF00 ∨ 0x1000 ≤ I + r) :
    (N = 0 → (Draw ram 0 MEMORY_VIDEO VF VX VY I N displayW displayH).2 = VF) ∧
    (0 < N →
      ((Draw ram 0 MEMORY_VIDEO VF VX VY I N displayW displayH).2 = 1 ↔
        ∃ c, c < 8 ∧ VX % 64 + c < 64 ∧
          pixel ram (VX % 64 + c) (VY % 32 + min N (32 - VY % 32) - 1) = true ∧
          (ram (I + min N (32 - VY % 32) - 1)).testBit (7 - c) = true) ∧
      ((Draw ram 0 MEMORY_VIDEO VF VX VY I N displayW displayH).2 = 0 ∨
        (Draw ram 0 MEMORY_VIDEO VF VX VY I N displayW displayH).2 = 1)) := by
  have hX : VX % 64 < 64 := Nat.mod_lt _ (by norm_num)
  have hY : VY % 32 < 32 := Nat.mod_lt _ (by norm_num)
  rw [Draw_eq_DrawLoop]
  constructor
  · intro h0
    subst h0
    simp only [DrawLoop]
  · intro hN
    exact DrawLoop_flag (VX % 64) hX N (VY % 32) I ram VF hwf hs hY hN

theorem DrawLoopTouched_bounds (X : Nat) (hX : X < 64) (N : Nat) :
    ∀ (Y a : Nat), a ∈ DrawLoopTouched 64 32 X N Y (0xF00 + 8 * Y + X / 8) →
      0xF00 ≤ a ∧ a ≤ 0x1000 := by
  induction N with
  | zero =>
    intro Y a ha
    simp [DrawLoopTouched] at ha
  | succ N ih =>
    intro Y a ha
    by_cases hY : Y < 32
    · have e : 0xF00 + 8 * Y + X / 8 + 64 / 8 = 0xF00 + 8 * (Y + 1) + X / 8 := by omega
      simp only [DrawLoopTouched, hY, if_true, e, List.mem_append] at ha
      rcases ha with h | h
      · unfold DrawRowTouched at h
        split_ifs at h
        · simp only [List.mem_cons, List.mem_singleton, List.not_mem_nil, or_false] at h
          omega
        · simp only [List.mem_singleton] at h
          omega
      · exact ih (Y + 1) a h
    · simp [DrawLoopTouched, hY] at ha

/-- Every address `Draw` dereferences through the display iterator lies in `[0xF00, 0x1000]`:
the only address outside the buffer it can reach is `0x1000`. -/
theorem DrawTouched_bounds (VX VY N a : Nat)
    (ha : a ∈ DrawTouched MEMORY_VIDEO VX VY N displayW displayH) : 0xF00 ≤ a ∧ a ≤ 0x1000 := by
  have hX : VX % 64 < 64 := Nat.mod_lt _ (by norm_num)
  have hx : VX % 256 % 64 = VX % 64 := by omega
  have hy : VY % 256 % 32 = VY % 32 := by omega
  have e : 0xF00 + (VY % 32 * 64 + VX % 64) / 8 = 0xF00 + 8 * (VY % 32) + VX % 64 / 8 := by omega
  simp only [DrawTouched, MEMORY_VIDEO, displayW, displayH, hx, hy, e] at ha
  exact DrawLoopTouched_bounds (VX % 64) hX N (VY % 32) a ha

/-! ## Arithmetic and logic instructions -/

/-- `8XY4` with a non-zero addend `VY`: the flag is the carry of the pre-instruction sum and is
written last; `VX` receives the sum modulo 256. -/
theorem instr_8XY4_of_ne_zero (X Y : Nat) (hX : X < 16) (hY : Y < 16) (s : State)
    (h0 : s.V Y ≠ 0) :
    (instr_8XY4 (0x8004 + 256 * X + 16 * Y) s).V 0xF = (if s.V X + s.V Y > 255 then 1 else 0) ∧
    (X ≠ 0xF → (instr_8XY4 (0x8004 + 256 * X + 16 * Y) s).V X = (s.V X + s.V Y) % 256) := by
  have hx : (0x8004 + 256 * X + 16 * Y) / 256 % 16 = X := by omega
  have hy : (0x8004 + 256 * X + 16 * Y) / 16 % 16 = Y := by omega
  simp only [instr_8XY4, parse_X_eq, parse_Y_eq, hx, hy, Add, AddV, Reg.get, Reg.set, Reg.max,
    Reg.bits, if_neg h0]
  constructor
  · by_cases h : 255 < s.V X + s.V Y <;> simp [h]
  · intro hXF
    simp [hXF]

/-- C1, evaluated where it fails: `8XY4` with `V0 = 5`, `V1 = 0`, `VF = 1`.  The sum `5 + 0` does
not exceed 255, so the flag should become 0; the guard `!from` of `AddV` returns before the
flag is written and `VF` keeps its stale value 1. -/
theorem instr_8XY4_zero_addend_keeps_flag :
    (withV [5, 0, 0, 0, 0, 0, 0, 0, 0, 0, 0, 0, 0, 0, 0, 1]).V 0 +
      (withV [5, 0, 0, 0, 0, 0, 0, 0, 0, 0, 0, 0, 0, 0, 0, 1]).V 1 ≤ 255 ∧
    (instr_8XY4 0x8014 (withV [5, 0, 0, 0, 0, 0, 0, 0, 0, 0, 0, 0, 0, 0, 0, 1])).V 0xF = 1 := by
  decide

/-- `8XY5` with a non-zero subtrahend `VY`: the flag is 1 exactly when `VX >= VY` held before the
subtraction and is written last; `VX` receives the difference modulo 256. -/
theorem instr_8XY5_of_ne_zero (X Y : Nat) (hX : X < 16) (hY : Y < 16) (s : State)
    (h0 : s.V Y ≠ 0) :
    (instr_8XY5 (0x8005 + 256 * X + 16 * Y) s).V 0xF = (if s.V Y ≤ s.V X then 1 else 0) ∧
    (X ≠ 0xF →
      (instr_8XY5 (0x8005 + 256 * X + 16 * Y) s).V X = (s.V X + 256 - s.V Y) % 256) := by
  have hx : (0x8005 + 256 * X + 16 * Y) / 256 % 16 = X := by omega
  have hy : (0x8005 + 256 * X + 16 * Y) / 16 % 16 = Y := by omega
  simp only [instr_8XY5, parse_X_eq, parse_Y_eq, hx, hy, Sub, SubV, Reg.get, Reg.set,
    Reg.bits, if_neg h0]
  constructor
  · by_cases h : s.V X < s.V Y
    · simp [h, Nat.not_le.mpr h]
    · simp [h, Nat.not_lt.mp h]
  · intro hXF
    simp [hXF]

/-- C2, evaluated where it fails: `8XY5` with `V0 = 5`, `V1 = 0`, `VF = 0`.  No borrow occurs
(`V0 >= V1`), so the flag should become 1; the guard `!from` of `SubV` returns before the
flag is written and `VF` stays 0. -/
theorem instr_8XY5_zero_subtrahend_keeps_flag :
    (withV [5, 0]).V 1 ≤ (withV [5, 0]).V 0 ∧ (instr_8XY5 0x8015 (withV [5, 0])).V 0xF = 0 := by
  decide

/-- `8XY7` with a non-zero minuend `VY`: the flag is 1 exactly when `VY >= VX` held before the
subtraction; `VX` receives `VY - VX` modulo 256. -/
theorem instr_8XY7_of_ne_zero (X Y : Nat) (hX : X < 16) (hY : Y < 16) (s : State)
    (h0 : s.V Y ≠ 0) :
    (instr_8XY7 (0x8007 + 256 * X + 16 * Y) s).V 0xF = (if s.V X ≤ s.V Y then 1 else 0) ∧
    (X ≠ 0xF →
      (instr_8XY7 (0x8007 + 256 * X + 16 * Y) s).V X = (s.V Y + 256 - s.V X) % 256) := by
  have hx : (0x8007 + 256 * X + 16 * Y) / 256 % 16 = X := by omega
  have hy : (0x8007 + 256 * X + 16 * Y) / 16 % 16 = Y := by omega
  simp only [instr_8XY7, parse_X_eq, parse_Y_eq, hx, hy, SubVAlt, Reg.get, Reg.set,
    Reg.bits, if_neg h0]
  constructor
  · by_cases h : s.V Y < s.V X
    · simp [h, Nat.not_le.mpr h]
    · simp [h, Nat.not_lt.mp h]
  · intro hXF
    simp [hXF]

/-- C3, evaluated where it fails: `8XY7` with `V1 = 0`, `V0 = 1`, `VF = 1`.  The claim gives
`V0 = 256 - 1 = 255` and `VF = 0`; the guard `!from` of `SubVAlt` returns at once, so `V0`
stays 1 and `VF` stays 1. -/
theorem instr_8XY7_zero_minuend_is_skipped :
    (withV [1, 0, 0, 0, 0, 0, 0, 0, 0, 0, 0, 0, 0, 0, 0, 1]).V 1 = 0 ∧
    (instr_8XY7 0x8017 (withV [1, 0, 0, 0, 0, 0, 0, 0, 0, 0, 0, 0, 0, 0, 0, 1])).V 0 = 1 ∧
    (instr_8XY7 0x8017 (withV [1, 0, 0, 0, 0, 0, 0, 0, 0, 0, 0, 0, 0, 0, 0, 1])).V 0xF = 1 := by
  decide

/-- C4: for every register index `X` and immediate `NN`, `7XNN` sets `VX` to `(VX + NN) mod 256`
and changes nothing else in the machine; in particular the flag register is not written
(for `X` other than `0xF` it keeps its value, overflow or not). -/
theorem instr_7XNN_spec (X NN : Nat) (hX : X < 16) (hNN : NN < 256) (s : State)
    (hV : s.V X < 256) :
    instr_7XNN (0x7000 + 256 * X + NN) s =
      { s with V := fun j => if j = X then (s.V X + NN) % 256 else s.V j } ∧
    (X ≠ 0xF → (instr_7XNN (0x7000 + 256 * X + NN) s).V 0xF = s.V 0xF) := by
  have hx : (0x7000 + 256 * X + NN) / 256 % 16 = X := by omega
  have hn : (0x7000 + 256 * X + NN) % 256 = NN := by omega
  have key : instr_7XNN (0x7000 + 256 * X + NN) s =
      { s with V := fun j => if j = X then (s.V X + NN) % 256 else s.V j } := by
    simp only [instr_7XNN, parse_X_eq, parse_NN_eq, hx, hn, AddV, Reg.get, Reg.set]
    by_cases h0 : NN = 0
    · subst h0
      simp only [if_true, Nat.add_zero, Nat.mod_eq_of_lt hV]
      cases s
      simp only [State.mk.injEq, true_and, and_true]
      funext j
      split <;> simp_all
    · simp [h0]
  refine ⟨key, fun hXF => ?_⟩
  rw [key]
  simp [Ne.symm hXF]

/-- Witness for C4: `V0 = 0xFF`, add-immediate 1. -/
theorem instr_7XNN_spec_witness :
    (0 : Nat) < 16 ∧ (1 : Nat) < 256 ∧ (withV [0xFF]).V 0 < 256 ∧
    (instr_7XNN (0x7000 + 256 * 0 + 1) (withV [0xFF]) =
      { withV [0xFF] with V := fun j => if j = 0 then ((withV [0xFF]).V 0 + 1) % 256
                                         else (withV [0xFF]).V j } ∧
    ((0 : Nat) ≠ 0xF → (instr_7XNN (0x7000 + 256 * 0 + 1) (withV [0xFF])).V 0xF =
      (withV [0xFF]).V 0xF)) :=
  ⟨by decide, by decide, by decide,
    instr_7XNN_spec 0 1 (by decide) (by decide) (withV [0xFF]) (by decide)⟩

/-- C5: `8XY6` leaves `VF` equal to the least significant bit of the pre-instruction `VY` and,
for `X` other than `0xF`, `VX` equal to `VY` shifted right by one; `8XYE` leaves `VF` equal to
the most significant bit of the pre-instruction `VY` and, for `X` other than `0xF`, `VX` equal
to `(VY * 2) mod 256`.  `X` and `Y` range over all sixteen registers, `0xF` included. -/
theorem instr_8XY6_8XYe_spec (X Y : Nat) (hX : X < 16) (hY : Y < 16) (s : State)
    (hVY : s.V Y < 256) :
    (instr_8XY6 (0x8006 + 256 * X + 16 * Y) s).V 0xF = s.V Y % 2 ∧
    (X ≠ 0xF → (instr_8XY6 (0x8006 + 256 * X + 16 * Y) s).V X = s.V Y >>> 1) ∧
    (instr_8XYe (0x800e + 256 * X + 16 * Y) s).V 0xF = s.V Y / 128 ∧
    (X ≠ 0xF → (instr_8XYe (0x800e + 256 * X + 16 * Y) s).V X = (s.V Y * 2) % 256) := by
  have hx : (0x8006 + 256 * X + 16 * Y) / 256 % 16 = X := by omega
  have hy : (0x8006 + 256 * X + 16 * Y) / 16 % 16 = Y := by omega
  have hx' : (0x800e + 256 * X + 16 * Y) / 256 % 16 = X := by omega
  have hy' : (0x800e + 256 * X + 16 * Y) / 16 % 16 = Y := by omega
  have hlsb : ∀ v : Nat, v < 256 → (if (1 &&& v) ≠ 0 then 1 else 0) = v % 2 := by
    intro v hv
    interval_cases v <;> rfl
  have hmsb : ∀ v : Nat, v < 256 → (if (128 &&& v) ≠ 0 then 1 else 0) = v / 128 := by
    intro v hv
    interval_cases v <;> rfl
  simp only [instr_8XY6, instr_8XYe, parse_X_eq, parse_Y_eq, hx, hy, hx', hy', RShiftV, LShiftV,
    Reg.get, Reg.set, Reg.bits, rshiftMask, lshiftMask]
  have h8 : s.V Y % 2 ^ 8 = s.V Y := Nat.mod_eq_of_lt hVY
  have e128 : 128 % 2 ^ 8 = 128 := by norm_num
  simp only [h8, e128, if_true, hlsb _ hVY, hmsb _ hVY, if_false, OfNat.one_ne_ofNat,
    Nat.shiftLeft_eq, Nat.shiftRight_eq_div_pow, one_ne_zero]
  refine ⟨?_, fun hXF => ?_, ?_, fun hXF => ?_⟩
  · simp; omega
  · simp [hXF]; omega
  · simp; omega
  · simp [hXF]

/-- Witness for C5: `X = 0xF`, `Y = 1`, `V1 = 0x81`. -/
theorem instr_8XY6_8XYe_spec_witness :
    (0xF : Nat) < 16 ∧ (1 : Nat) < 16 ∧ (withV [0, 0x81]).V 1 < 256 ∧
    ((instr_8XY6 (0x8006 + 256 * 0xF + 16 * 1) (withV [0, 0x81])).V 0xF = (withV [0, 0x81]).V 1 % 2 ∧
    ((0xF : Nat) ≠ 0xF → (instr_8XY6 (0x8006 + 256 * 0xF + 16 * 1) (withV [0, 0x81])).V 0xF =
      (withV [0, 0x81]).V 1 >>> 1) ∧
    (instr_8XYe (0x800e + 256 * 0xF + 16 * 1) (withV [0, 0x81])).V 0xF = (withV [0, 0x81]).V 1 / 128 ∧
    ((0xF : Nat) ≠ 0xF → (instr_8XYe (0x800e + 256 * 0xF + 16 * 1) (withV [0, 0x81])).V 0xF =
      ((withV [0, 0x81]).V 1 * 2) % 256)) :=
  ⟨by decide, by decide, by decide,
    instr_8XY6_8XYe_spec 0xF 1 (by decide) (by decide) (withV [0, 0x81]) (by decide)⟩

/-- C6: `8XY1`, `8XY2`, `8XY3` leave `VF` equal to 0 and, for `X` other than `0xF`, `VX` equal to
the bitwise OR, AND, XOR of the pre-instruction `VX` and `VY` (the pre-instruction `VF` is the
operand when `Y` is `0xF`); no other register and nothing else in the machine changes. -/
theorem instr_8XY1_8XY2_8XY3_spec (X Y : Nat) (hX : X < 16) (hY : Y < 16) (s : State)
    (hVX : s.V X < 256) (hVY : s.V Y < 256) :
    instr_8XY1 (0x8001 + 256 * X + 16 * Y) s =
      { s with V := fun j => if j = 0xF then 0 else if j = X then s.V X ||| s.V Y else s.V j } ∧
    instr_8XY2 (0x8002 + 256 * X + 16 * Y) s =
      { s with V := fun j => if j = 0xF then 0 else if j = X then s.V X &&& s.V Y else s.V j } ∧
    instr_8XY3 (0x8003 + 256 * X + 16 * Y) s =
      { s with V := fun j => if j = 0xF then 0 else if j = X then s.V X ^^^ s.V Y else s.V j } := by
  have hx1 : (0x8001 + 256 * X + 16 * Y) / 256 % 16 = X := by omega
  have hy1 : (0x8001 + 256 * X + 16 * Y) / 16 % 16 = Y := by omega
  have hx2 : (0x8002 + 256 * X + 16 * Y) / 256 % 16 = X := by omega
  have hy2 : (0x8002 + 256 * X + 16 * Y) / 16 % 16 = Y := by omega
  have hx3 : (0x8003 + 256 * X + 16 * Y) / 256 % 16 = X := by omega
  have hy3 : (0x8003 + 256 * X + 16 * Y) / 16 % 16 = Y := by omega
  have e1 : (s.V X ||| s.V Y) % 2 ^ 8 = s.V X ||| s.V Y := Nat.mod_eq_of_lt (byte_or_lt hVX hVY)
  have e2 : (s.V X &&& s.V Y) % 2 ^ 8 = s.V X &&& s.V Y := Nat.mod_eq_of_lt (byte_and_lt hVX)
  have e3 : (s.V X ^^^ s.V Y) % 2 ^ 8 = s.V X ^^^ s.V Y := Nat.mod_eq_of_lt (byte_xor_lt hVX hVY)
  simp only [instr_8XY1, instr_8XY2, instr_8XY3, parse_X_eq, parse_Y_eq, hx1, hy1, hx2, hy2,
    hx3, hy3, AssignV, Reg.set, e1, e2, e3, Nat.zero_mod, and_self]

/-- Witness for C6: `X = 0`, `Y = 0xF`, `V0 = 0x0C`, `VF = 0x0A`. -/
theorem instr_8XY1_8XY2_8XY3_spec_witness :
    (0 : Nat) < 16 ∧ (0xF : Nat) < 16 ∧
    (withV [0x0C, 0, 0, 0, 0, 0, 0, 0, 0, 0, 0, 0, 0, 0, 0, 0x0A]).V 0 < 256 ∧
    (withV [0x0C, 0, 0, 0, 0, 0, 0, 0, 0, 0, 0, 0, 0, 0, 0, 0x0A]).V 0xF < 256 ∧
    (instr_8XY1 (0x8001 + 256 * 0 + 16 * 0xF)
        (withV [0x0C, 0, 0, 0, 0, 0, 0, 0, 0, 0, 0, 0, 0, 0, 0, 0x0A]) =
      { withV [0x0C, 0, 0, 0, 0, 0, 0, 0, 0, 0, 0, 0, 0, 0, 0, 0x0A] with
        V := fun j => if j = 0xF then 0 else if j = 0 then
          (withV [0x0C, 0, 0, 0, 0, 0, 0, 0, 0, 0, 0, 0, 0, 0, 0, 0x0A]).V 0 |||
            (withV [0x0C, 0, 0, 0, 0, 0, 0, 0, 0, 0, 0, 0, 0, 0, 0, 0x0A]).V 0xF
          else (withV [0x0C, 0, 0, 0, 0, 0, 0, 0, 0, 0, 0, 0, 0, 0, 0, 0x0A]).V j } ∧
    instr_8XY2 (0x8002 + 256 * 0 + 16 * 0xF)
        (withV [0x0C, 0, 0, 0, 0, 0, 0, 0, 0, 0, 0, 0, 0, 0, 0, 0x0A]) =
      { withV [0x0C, 0, 0, 0, 0, 0, 0, 0, 0, 0, 0, 0, 0, 0, 0, 0x0A] with
        V := fun j => if j = 0xF then 0 else if j = 0 then
          (withV [0x0C, 0, 0, 0, 0, 0, 0, 0, 0, 0, 0, 0, 0, 0, 0, 0x0A]).V 0 &&&
            (withV [0x0C, 0, 0, 0, 0, 0, 0, 0, 0, 0, 0, 0, 0, 0, 0, 0x0A]).V 0xF
          else (withV [0x0C, 0, 0, 0, 0, 0, 0, 0, 0, 0, 0, 0, 0, 0, 0, 0x0A]).V j } ∧
    instr_8XY3 (0x8003 + 256 * 0 + 16 * 0xF)
        (withV [0x0C, 0, 0, 0, 0, 0, 0, 0, 0, 0, 0, 0, 0, 0, 0, 0x0A]) =
      { withV [0x0C, 0, 0, 0, 0, 0, 0, 0, 0, 0, 0, 0, 0, 0, 0, 0x0A] with
        V := fun j => if j = 0xF then 0 else if j = 0 then
          (withV [0x0C, 0, 0, 0, 0, 0, 0, 0, 0, 0, 0, 0, 0, 0, 0, 0x0A]).V 0 ^^^
            (withV [0x0C, 0, 0, 0, 0, 0, 0, 0, 0, 0, 0, 0, 0, 0, 0, 0x0A]).V 0xF
          else (withV [0x0C, 0, 0, 0, 0, 0, 0, 0, 0, 0, 0, 0, 0, 0, 0, 0x0A]).V j }) :=
  ⟨by decide, by decide, by decide, by decide,
    instr_8XY1_8XY2_8XY3_spec 0 0xF (by decide) (by decide)
      (withV [0x0C, 0, 0, 0, 0, 0, 0, 0, 0, 0, 0, 0, 0, 0, 0, 0x0A]) (by decide) (by decide)⟩

/-! ## The draw instruction -/

/-- C7: `Draw` is a per-pixel XOR with start wraparound, right-edge clipping and no vertical
wrap.  With `X0 = VX mod 64`, `Y0 = VY mod 32` and the `N` sprite bytes outside the display
region: every pixel `(X0 + c, Y0 + r)` with `r < min N (32 - Y0)`, `c < 8`, `X0 + c < 64` becomes
its old value XOR bit `7 - c` of `ram[I + r]`; every other display pixel and every byte
outside the display region is unchanged.  Pixels are row-major, most significant bit first,
from `0xF00` (definition `pixel`). -/
theorem Draw_spec (ram : Nat → Nat) (VF VX VY I N : Nat) (hwf : ∀ a, ram a < 256)
    (hs : ∀ r, r < N → I + r < 0xF00 ∨ 0x1000 ≤ I + r) :
    (∀ r c, r < min N (32 - VY % 32) → c < 8 → VX % 64 + c < 64 →
      pixel (Draw ram 0 MEMORY_VIDEO VF VX VY I N displayW displayH).1 (VX % 64 + c) (VY % 32 + r) =
        xor (pixel ram (VX % 64 + c) (VY % 32 + r)) ((ram (I + r)).testBit (7 - c))) ∧
    (∀ x y, x < 64 → y < 32 →
      ¬ (∃ r c, r < min N (32 - VY % 32) ∧ c < 8 ∧ x = VX % 64 + c ∧ y = VY % 32 + r) →
      pixel (Draw ram 0 MEMORY_VIDEO VF VX VY I N displayW displayH).1 x y = pixel ram x y) ∧
    (∀ a, a < 0xF00 ∨ 0x1000 ≤ a →
      (Draw ram 0 MEMORY_VIDEO VF VX VY I N displayW displayH).1 a = ram a) := by
  refine ⟨?_, ?_, ?_⟩
  · intro r c hr hc hxc
    have hr' : r < N ∧ r < 32 - VY % 32 := by omega
    rw [Draw_pixel ram VF VX VY I N hwf hs _ _ hxc (by omega)]
    have c1 : VY % 32 ≤ VY % 32 + r ∧ VY % 32 + r < VY % 32 + N ∧ VX % 64 ≤ VX % 64 + c ∧
        VX % 64 + c < VX % 64 + 8 := by omega
    have e1 : VY % 32 + r - VY % 32 = r := by omega
    have e2 : VX % 64 + c - VX % 64 = c := by omega
    simp only [c1, and_self, decide_True, Bool.true_and, e1, e2]
  · intro x y hx hy hno
    rw [Draw_pixel ram VF VX VY I N hwf hs x y hx hy]
    have c1 : ¬ (VY % 32 ≤ y ∧ y < VY % 32 + N ∧ VX % 64 ≤ x ∧ x < VX % 64 + 8) := by
      intro h
      exact hno ⟨y - VY % 32, x - VX % 64, by omega, by omega, by omega, by omega⟩
    simp only [c1, decide_False, Bool.false_and, Bool.xor_false]
  · intro a ha
    exact Draw_outside ram VF VX VY I N hwf hs a ha

/-- Witness for C7: sprite byte `0xFF` at `0x300`, drawn at `(60, 31)` over the byte `0x0F`. -/
theorem Draw_spec_witness :
    (∀ a, mem [(0x300, 0xFF), (0xFFF, 0x0F)] a < 256) ∧
    (∀ r, r < 1 → 0x300 + r < 0xF00 ∨ 0x1000 ≤ 0x300 + r) ∧
    ((∀ r c, r < min 1 (32 - 31 % 32) → c < 8 → 60 % 64 + c < 64 →
      pixel (Draw (mem [(0x300, 0xFF), (0xFFF, 0x0F)]) 0 MEMORY_VIDEO 0 60 31 0x300 1
          displayW displayH).1 (60 % 64 + c) (31 % 32 + r) =
        xor (pixel (mem [(0x300, 0xFF), (0xFFF, 0x0F)]) (60 % 64 + c) (31 % 32 + r))
          ((mem [(0x300, 0xFF), (0xFFF, 0x0F)] (0x300 + r)).testBit (7 - c))) ∧
    (∀ x y, x < 64 → y < 32 →
      ¬ (∃ r c, r < min 1 (32 - 31 % 32) ∧ c < 8 ∧ x = 60 % 64 + c ∧ y = 31 % 32 + r) →
      pixel (Draw (mem [(0x300, 0xFF), (0xFFF, 0x0F)]) 0 MEMORY_VIDEO 0 60 31 0x300 1
          displayW displayH).1 x y = pixel (mem [(0x300, 0xFF), (0xFFF, 0x0F)]) x y) ∧
    (∀ a, a < 0xF00 ∨ 0x1000 ≤ a →
      (Draw (mem [(0x300, 0xFF), (0xFFF, 0x0F)]) 0 MEMORY_VIDEO 0 60 31 0x300 1
          displayW displayH).1 a = mem [(0x300, 0xFF), (0xFFF, 0x0F)] a)) :=
  ⟨mem_lt_256 _ (by decide), by omega,
    Draw_spec (mem [(0x300, 0xFF), (0xFFF, 0x0F)]) 0 60 31 0x300 1 (mem_lt_256 _ (by decide))
      (by omega)⟩

/-- C8, evaluated where it fails: `D012` with `V0 = V1 = 0` over a lit pixel `(0, 0)` and the
sprite rows `0x80, 0x00`.  Row 0 turns pixel `(0, 0)` off, a collision; row 1 has none and
reassigns the flag, so `VF` ends at 0 although a processed row collided. -/
theorem instr_dXYN_collision_lost :
    pixel collisionState.ram 0 0 = true ∧
    pixel (instr_dXYN 0xD012 collisionState).ram 0 0 = false ∧
    (instr_dXYN 0xD012 collisionState).V 0xF = 0 := by
  decide

/-- C9: a one-row sprite at a start column `X0 = VX mod 64` with `X0 + 8 > 64` changes only
pixels in columns `X0..63` of row `Y0 = VY mod 32` (each becomes its old value XOR the sprite
bit of its column); every other pixel, the left edge of the row and the following row
included, is unchanged.  The flag ends at 1 exactly when one of those `64 - X0` pixels went
from set to unset, equivalently when one of them was set together with its own sprite bit
`7 - c`: neither the clipped sprite bits nor any other display byte enters, and the flag is
0 otherwise. -/
theorem Draw_clipped_row (ram : Nat → Nat) (VF VX VY I : Nat) (hwf : ∀ a, ram a < 256)
    (hs : I < 0xF00 ∨ 0x1000 ≤ I) (hclip : VX % 64 + 8 > 64) :
    (∀ x y, x < 64 → y < 32 →
      pixel (Draw ram 0 MEMORY_VIDEO VF VX VY I 1 displayW displayH).1 x y =
        if y = VY % 32 ∧ VX % 64 ≤ x then
          xor (pixel ram x y) ((ram I).testBit (7 - (x - VX % 64)))
        else pixel ram x y) ∧
    ((Draw ram 0 MEMORY_VIDEO VF VX VY I 1 displayW displayH).2 = 1 ↔
      ∃ c, c < 64 - VX % 64 ∧ pixel ram (VX % 64 + c) (VY % 32) = true ∧
        pixel (Draw ram 0 MEMORY_VIDEO VF VX VY I 1 displayW displayH).1 (VX % 64 + c) (VY % 32)
          = false) ∧
    ((Draw ram 0 MEMORY_VIDEO VF VX VY I 1 displayW displayH).2 = 1 ↔
      ∃ c, c < 64 - VX % 64 ∧ pixel ram (VX % 64 + c) (VY % 32) = true ∧
        (ram I).testBit (7 - c) = true) ∧
    ((Draw ram 0 MEMORY_VIDEO VF VX VY I 1 displayW displayH).2 = 0 ∨
      (Draw ram 0 MEMORY_VIDEO VF VX VY I 1 displayW displayH).2 = 1) := by
  have hX : VX % 64 < 64 := Nat.mod_lt _ (by norm_num)
  have hY : VY % 32 < 32 := Nat.mod_lt _ (by norm_num)
  have hs' : ∀ r, r < 1 → I + r < 0xF00 ∨ 0x1000 ≤ I + r := by
    intro r hr
    omega
  have hpix : ∀ x y, x < 64 → y < 32 →
      pixel (Draw ram 0 MEMORY_VIDEO VF VX VY I 1 displayW displayH).1 x y =
        if y = VY % 32 ∧ VX % 64 ≤ x then
          xor (pixel ram x y) ((ram I).testBit (7 - (x - VX % 64)))
        else pixel ram x y := by
    intro x y hx hy
    rw [Draw_pixel ram VF VX VY I 1 hwf hs' x y hx hy]
    by_cases h : y = VY % 32 ∧ VX % 64 ≤ x
    · have c : VY % 32 ≤ y ∧ y < VY % 32 + 1 ∧ VX % 64 ≤ x ∧ x < VX % 64 + 8 := by omega
      have e : I + (y - VY % 32) = I := by omega
      rw [if_pos h, decide_eq_true c, Bool.true_and, e]
    · have c : ¬ (VY % 32 ≤ y ∧ y < VY % 32 + 1 ∧ VX % 64 ≤ x ∧ x < VX % 64 + 8) := by omega
      rw [if_neg h, decide_eq_false c, Bool.false_and, Bool.xor_false]
  have hflag := DrawRow_flag (VX % 64) (VY % 32) I ram hX hwf
  rw [← Draw_one_row ram VF VX VY I] at hflag
  have hin : (Draw ram 0 MEMORY_VIDEO VF VX VY I 1 displayW displayH).2 = 1 ↔
      ∃ c, c < 64 - VX % 64 ∧ pixel ram (VX % 64 + c) (VY % 32) = true ∧
        (ram I).testBit (7 - c) = true := by
    rw [hflag.1]
    constructor
    · rintro ⟨c, _, hx, hp, hb⟩
      exact ⟨c, by omega, hp, hb⟩
    · rintro ⟨c, hc, hp, hb⟩
      exact ⟨c, by omega, by omega, hp, hb⟩
  refine ⟨hpix, ?_, hin, hflag.2⟩
  rw [hin]
  constructor
  · rintro ⟨c, hc, hp, hb⟩
    refine ⟨c, hc, hp, ?_⟩
    rw [hpix _ _ (by omega) hY, if_pos ⟨rfl, by omega⟩, hp]
    have e : VX % 64 + c - VX % 64 = c := by omega
    simp [e, hb]
  · rintro ⟨c, hc, hp, hq⟩
    refine ⟨c, hc, hp, ?_⟩
    rw [hpix _ _ (by omega) hY, if_pos ⟨rfl, by omega⟩, hp] at hq
    have e : VX % 64 + c - VX % 64 = c := by omega
    simpa [e] using hq

/-- Witness for C9: sprite byte `0xFF` at `x = 60`, row 0, over the byte `0x05`. -/
theorem Draw_clipped_row_witness :
    (∀ a, mem [(0x300, 0xFF), (0xF07, 0x05)] a < 256) ∧
    ((0x300 : Nat) < 0xF00 ∨ 0x1000 ≤ 0x300) ∧ 60 % 64 + 8 > 64 ∧
    ((∀ x y, x < 64 → y < 32 →
      pixel (Draw (mem [(0x300, 0xFF), (0xF07, 0x05)]) 0 MEMORY_VIDEO 0 60 0 0x300 1
          displayW displayH).1 x y =
        if y = 0 % 32 ∧ 60 % 64 ≤ x then
          xor (pixel (mem [(0x300, 0xFF), (0xF07, 0x05)]) x y)
            ((mem [(0x300, 0xFF), (0xF07, 0x05)] 0x300).testBit (7 - (x - 60 % 64)))
        else pixel (mem [(0x300, 0xFF), (0xF07, 0x05)]) x y) ∧
    ((Draw (mem [(0x300, 0xFF), (0xF07, 0x05)]) 0 MEMORY_VIDEO 0 60 0 0x300 1
          displayW displayH).2 = 1 ↔
      ∃ c, c < 64 - 60 % 64 ∧ pixel (mem [(0x300, 0xFF), (0xF07, 0x05)]) (60 % 64 + c) (0 % 32) = true ∧
        pixel (Draw (mem [(0x300, 0xFF), (0xF07, 0x05)]) 0 MEMORY_VIDEO 0 60 0 0x300 1
          displayW displayH).1 (60 % 64 + c) (0 % 32) = false) ∧
    ((Draw (mem [(0x300, 0xFF), (0xF07, 0x05)]) 0 MEMORY_VIDEO 0 60 0 0x300 1
          displayW displayH).2 = 1 ↔
      ∃ c, c < 64 - 60 % 64 ∧ pixel (mem [(0x300, 0xFF), (0xF07, 0x05)]) (60 % 64 + c) (0 % 32) = true ∧
        (mem [(0x300, 0xFF), (0xF07, 0x05)] 0x300).testBit (7 - c) = true) ∧
    ((Draw (mem [(0x300, 0xFF), (0xF07, 0x05)]) 0 MEMORY_VIDEO 0 60 0 0x300 1
          displayW displayH).2 = 0 ∨
      (Draw (mem [(0x300, 0xFF), (0xF07, 0x05)]) 0 MEMORY_VIDEO 0 60 0 0x300 1
          displayW displayH).2 = 1)) :=
  ⟨mem_lt_256 _ (by decide), by decide, by decide,
    Draw_clipped_row (mem [(0x300, 0xFF), (0xF07, 0x05)]) 0 60 0 0x300 (mem_lt_256 _ (by decide))
      (by decide) (by decide)⟩

/-- C10, evaluated where it fails: for `VX = 60`, `VY = 31` and one row the window starts in the
last byte `0xFFF` of the buffer and is not byte-aligned, so `Draw` dereferences
`video_ram + 1`, address `0x1000`, one past the display buffer and past the memory array. -/
theorem Draw_touches_past_buffer :
    0x1000 ∈ DrawTouched MEMORY_VIDEO 60 31 1 displayW displayH := by
  decide

/-! ## Dispatch: scores, exact matches, bit masks -/

/-- The template keys in the map are strictly ascending in the order of `std::string`. -/
theorem instr_keys_sorted : (instr.map Prod.fst).Pairwise (fun a b => a < b) := by
  decide

theorem instr_keys_length : ∀ e ∈ instr, e.1.length = 4 := by
  decide

theorem StrCmp_four (a b c d t0 t1 t2 t3 : Char) :
    StrCmp [a, b, c, d] [t0, t1, t2, t3] =
      16 * (if a = t0 ∨ t0 ∈ special_values then 1 else 0) +
      8 * (if b = t1 ∨ t1 ∈ special_values then 1 else 0) +
      4 * (if c = t2 ∨ t2 ∈ special_values then 1 else 0) +
      2 * (if d = t3 ∨ t3 ∈ special_values then 1 else 0) := by
  simp only [StrCmp, StrCmpFrom, List.length_cons, List.length_nil]
  norm_num [Nat.shiftLeft_eq]
  ring

theorem length_four {t : List Char} (h : t.length = 4) : ∃ a b c d, t = [a, b, c, d] := by
  match t, h with
  | [a, b, c, d], _ => exact ⟨a, b, c, d, rfl⟩

/-- A score never exceeds 30 on four-character strings, and equals 30 exactly on an exact
match. -/
theorem StrCmp_le_and_eq (s t : List Char) (hs : s.length = 4) (ht : t.length = 4) :
    StrCmp s t ≤ 30 ∧ (StrCmp s t = 30 ↔ exactMatch s t = true) := by
  obtain ⟨a, b, c, d, rfl⟩ := length_four hs
  obtain ⟨t0, t1, t2, t3, rfl⟩ := length_four ht
  rw [StrCmp_four]
  simp only [exactMatch, Bool.and_true, Bool.and_eq_true, Bool.or_eq_true, decide_eq_true_eq]
  by_cases h0 : a = t0 ∨ t0 ∈ special_values <;> by_cases h1 : b = t1 ∨ t1 ∈ special_values <;>
    by_cases h2 : c = t2 ∨ t2 ∈ special_values <;> by_cases h3 : d = t3 ∨ t3 ∈ special_values <;>
    simp [h0, h1, h2, h3]

theorem FindBestLoop_done (s : List Char) (l : List Entry) (e : Entry)
    (hle : ∀ x ∈ l, StrCmp s x.1 ≤ 30) : FindBestLoop s l (some e, 30) = (some e, 30) := by
  induction l with
  | nil => rfl
  | cons x rest ih =>
    have hx := hle x (List.mem_cons_self _ _)
    have : ¬ (StrCmp s x.1 > 30) := by omega
    simp only [FindBestLoop, this, if_false]
    exact ih (fun y hy => hle y (List.mem_cons_of_mem _ hy))

theorem FindBestLoop_first (s : List Char) (l : List Entry) :
    ∀ (acc : Option Entry × Nat) (e : Entry), acc.2 < 30 → (∀ x ∈ l, StrCmp s x.1 ≤ 30) →
      l.find? (fun x => StrCmp s x.1 == 30) = some e → FindBestLoop s l acc = (some e, 30) := by
  induction l with
  | nil =>
    intro acc e _ _ h
    simp at h
  | cons x rest ih =>
    intro acc e hacc hle hfind
    have hrest : ∀ y ∈ rest, StrCmp s y.1 ≤ 30 := fun y hy => hle y (List.mem_cons_of_mem _ hy)
    by_cases hx : StrCmp s x.1 = 30
    · have hgt : StrCmp s x.1 > acc.2 := by omega
      simp only [List.find?, hx, beq_self_eq_true, Option.some.injEq] at hfind
      subst hfind
      simp only [FindBestLoop, if_pos hgt]
      rw [hx]
      exact FindBestLoop_done s rest x hrest
    · have hlt : StrCmp s x.1 < 30 := by
        have := hle x (List.mem_cons_self _ _)
        omega
      have hne : (StrCmp s x.1 == 30) = false := by simpa using hx
      simp only [List.find?, hne] at hfind
      by_cases hgt : StrCmp s x.1 > acc.2
      · simp only [FindBestLoop, hgt, if_true]
        exact ih (some x, StrCmp s x.1) e hlt hrest hfind
      · simp only [FindBestLoop, hgt, if_false]
        exact ih acc e hacc hrest hfind

theorem find?_congr_mem {α : Type} (l : List α) (p q : α → Bool) (h : ∀ x ∈ l, p x = q x) :
    l.find? p = l.find? q := by
  induction l with
  | nil => rfl
  | cons x rest ih =>
    simp only [List.find?, h x (List.mem_cons_self _ _)]
    rw [ih (fun y hy => h y (List.mem_cons_of_mem _ hy))]

/-- The scoring dispatcher returns the first template, in map order, that matches the
rendered opcode exactly, whenever one does. -/
theorem FindBestInstruction_exact (s : List Char) (hs : s.length = 4) (e : Entry)
    (h : instr.find? (fun x => exactMatch s x.1) = some e) : FindBestInstruction s = some e := by
  have hle : ∀ x ∈ instr, StrCmp s x.1 ≤ 30 := fun x hx =>
    (StrCmp_le_and_eq s x.1 hs (instr_keys_length x hx)).1
  have hpq : ∀ x ∈ instr, (StrCmp s x.1 == 30) = exactMatch s x.1 := by
    intro x hx
    have := (StrCmp_le_and_eq s x.1 hs (instr_keys_length x hx)).2
    cases hm : exactMatch s x.1 with
    | true => simpa using this.mpr hm
    | false =>
      have hne : StrCmp s x.1 ≠ 30 := fun h30 => by
        have := this.mp h30
        rw [hm] at this
        exact Bool.false_ne_true this
      simpa using hne
  have hfind : instr.find? (fun x => StrCmp s x.1 == 30) = some e := by
    rw [find?_congr_mem instr _ _ hpq]
    exact h
  unfold FindBestInstruction
  rw [FindBestLoop_first s instr (none, 0) e (by norm_num) hle hfind]

theorem FindBestLoop_none (s : List Char) (l : List Entry) :
    ∀ (acc : Option Entry × Nat), (FindBestLoop s l acc).1 = none →
      acc.1 = none ∧ ∀ e ∈ l, StrCmp s e.1 ≤ acc.2 := by
  induction l with
  | nil =>
    intro acc h
    exact ⟨h, fun e he => absurd he (List.not_mem_nil e)⟩
  | cons x rest ih =>
    intro acc h
    by_cases hgt : StrCmp s x.1 > acc.2
    · simp only [FindBestLoop, hgt, if_true] at h
      have := (ih _ h).1
      simp at this
    · simp only [FindBestLoop, hgt, if_false] at h
      obtain ⟨h1, h2⟩ := ih _ h
      refine ⟨h1, fun e he => ?_⟩
      rcases List.mem_cons.mp he with rfl | hr
      · omega
      · exact h2 e hr

/-- The scoring dispatcher always selects some handler for a rendered opcode: the template
`0NNN` alone scores at least 14. -/
theorem FindBestInstruction_some (op : Nat) : ∃ e, FindBestInstruction (hex4 op) = some e := by
  cases h : FindBestInstruction (hex4 op) with
  | some e => exact ⟨e, rfl⟩
  | none =>
    exfalso
    have h0 := (FindBestLoop_none (hex4 op) instr (none, 0) h).2
      (['0', 'N', 'N', 'N'], instr_0NNN) (by simp [instr])
    simp only [hex4, StrCmp_four] at h0
    simp [special_values] at h0

theorem hex4_length (op : Nat) : (hex4 op).length = 4 := rfl

theorem dispatch_dXYN (op : Nat) (h : op / 4096 % 16 = 13) :
    FindBestInstruction (hex4 op) = some (['d', 'X', 'Y', 'N'], fun _ => instr_dXYN) := by
  apply FindBestInstruction_exact _ (hex4_length op)
  have hd : hexDigit 13 = 'd' := rfl
  simp [hex4, h, hd, instr, exactMatch, special_values]

theorem dispatch_2NNN (op : Nat) (h : op / 4096 % 16 = 2) :
    FindBestInstruction (hex4 op) = some (['2', 'N', 'N', 'N'], instr_2NNN) := by
  apply FindBestInstruction_exact _ (hex4_length op)
  have hd : hexDigit 2 = '2' := rfl
  simp [hex4, h, hd, instr, exactMatch, special_values]

theorem dispatch_00ee : FindBestInstruction (hex4 0x00EE) = some (['0', '0', 'e', 'e'], instr_00ee) := by
  apply FindBestInstruction_exact _ (hex4_length _)
  simp [hex4, hexDigit, instr, exactMatch, special_values]

theorem land_nibble (a m x y : Nat) (hx : x < 16) (hy : y < 16) :
    (16 * a + x) &&& (16 * m + y) = 16 * (a &&& m) + (x &&& y) := by
  have hxy : x &&& y < 2 ^ 4 := lt_of_le_of_lt Nat.and_le_left (by simpa using hx)
  have hx' : x < 2 ^ 4 := by simpa using hx
  have hy' : y < 2 ^ 4 := by simpa using hy
  have e16 : (16 : Nat) = 2 ^ 4 := by norm_num
  apply Nat.eq_of_testBit_eq
  intro j
  rw [e16, Nat.testBit_and, Nat.testBit_mul_pow_two_add a hx', Nat.testBit_mul_pow_two_add m hy',
    Nat.testBit_mul_pow_two_add (a &&& m) hxy]
  by_cases hj : j < 4 <;> simp [hj, Nat.testBit_and]

/-- The characters a template of the catalogue is made of: the wildcards and the lower-case
hexadecimal digits. -/
theorem instr_keys_chars : ∀ e ∈ instr, ∀ c ∈ e.1,
    c ∈ special_values ∨ (hexValue c < 16 ∧ hexDigit (hexValue c) = c) := by
  decide

theorem hexDigit_inj : ∀ d < 16, ∀ v < 16, hexDigit d = hexDigit v → d = v := by
  decide

theorem nibble_match (d : Nat) (hd : d < 16) (c : Char)
    (hc : c ∈ special_values ∨ (hexValue c < 16 ∧ hexDigit (hexValue c) = c)) :
    (hexDigit d = c ∨ c ∈ special_values) ↔
      d &&& (if c ∈ special_values then 0 else 0xF) = (if c ∈ special_values then 0 else hexValue c) := by
  by_cases hs : c ∈ special_values
  · simp [hs]
  · rcases hc with h | ⟨hv, hh⟩
    · exact absurd h hs
    · have e15 : (0xF : Nat) = 2 ^ 4 - 1 := by norm_num
      simp only [hs, if_false, or_false, e15, Nat.and_pow_two_sub_one_eq_mod]
      have : d % 2 ^ 4 = d := Nat.mod_eq_of_lt (by simpa using hd)
      rw [this]
      constructor
      · intro h
        rw [← hh] at h
        exact hexDigit_inj d hd _ hv h
      · intro h
        rw [h, hh]

theorem nibble_exp_lt (c : Char)
    (hc : c ∈ special_values ∨ (hexValue c < 16 ∧ hexDigit (hexValue c) = c)) :
    (if c ∈ special_values then 0 else hexValue c) < 16 := by
  by_cases hs : c ∈ special_values
  · simp [hs]
  · rcases hc with h | ⟨hv, _⟩
    · exact absurd h hs
    · simp [hs, hv]

theorem nibble_and_lt (d : Nat) (hd : d < 16) (m : Nat) : d &&& m < 16 :=
  lt_of_le_of_lt Nat.and_le_left hd

/-- For a template of the catalogue, an exact match of the rendered opcode is the same as
agreement under the template's bit mask. -/
theorem exactMatch_iff_mask (op : Nat) (hop : op < 65536) (e : Entry) (he : e ∈ instr) :
    exactMatch (hex4 op) e.1 = (op &&& maskOf e.1 == expectedOf e.1) := by
  obtain ⟨t0, t1, t2, t3, ht⟩ := length_four (instr_keys_length e he)
  have hc := instr_keys_chars e he
  rw [ht] at hc ⊢
  have c0 := hc t0 (by simp)
  have c1 := hc t1 (by simp)
  have c2 := hc t2 (by simp)
  have c3 := hc t3 (by simp)
  have d0 : op / 4096 % 16 < 16 := Nat.mod_lt _ (by norm_num)
  have d1 : op / 256 % 16 < 16 := Nat.mod_lt _ (by norm_num)
  have d2 : op / 16 % 16 < 16 := Nat.mod_lt _ (by norm_num)
  have d3 : op % 16 < 16 := Nat.mod_lt _ (by norm_num)
  have hopd : op = 16 * (16 * (16 * (16 * 0 + op / 4096 % 16) + op / 256 % 16) + op / 16 % 16)
      + op % 16 := by omega
  have hand : op &&& maskOf [t0, t1, t2, t3] =
      16 * (16 * (16 * (16 * 0 + (op / 4096 % 16 &&& (if t0 ∈ special_values then 0 else 0xF)))
        + (op / 256 % 16 &&& (if t1 ∈ special_values then 0 else 0xF)))
        + (op / 16 % 16 &&& (if t2 ∈ special_values then 0 else 0xF)))
        + (op % 16 &&& (if t3 ∈ special_values then 0 else 0xF)) := by
    have hm : ∀ c : Char, (if c ∈ special_values then 0 else 0xF) < 16 := by
      intro c
      split_ifs <;> norm_num
    simp only [maskOf, List.foldl]
    conv_lhs => rw [hopd]
    rw [land_nibble _ _ _ _ d3 (hm t3), land_nibble _ _ _ _ d2 (hm t2),
      land_nibble _ _ _ _ d1 (hm t1), land_nibble _ _ _ _ d0 (hm t0)]
    simp
  have e0 := nibble_match _ d0 t0 c0
  have e1 := nibble_match _ d1 t1 c1
  have e2 := nibble_match _ d2 t2 c2
  have e3 := nibble_match _ d3 t3 c3
  have l0 := nibble_exp_lt t0 c0
  have l1 := nibble_exp_lt t1 c1
  have l2 := nibble_exp_lt t2 c2
  have l3 := nibble_exp_lt t3 c3
  have a0 := nibble_and_lt _ d0 (if t0 ∈ special_values then 0 else 0xF)
  have a1 := nibble_and_lt _ d1 (if t1 ∈ special_values then 0 else 0xF)
  have a2 := nibble_and_lt _ d2 (if t2 ∈ special_values then 0 else 0xF)
  have a3 := nibble_and_lt _ d3 (if t3 ∈ special_values then 0 else 0xF)
  have hexp : expectedOf [t0, t1, t2, t3] =
      16 * (16 * (16 * (16 * 0 + (if t0 ∈ special_values then 0 else hexValue t0))
        + (if t1 ∈ special_values then 0 else hexValue t1))
        + (if t2 ∈ special_values then 0 else hexValue t2))
        + (if t3 ∈ special_values then 0 else hexValue t3) := by
    simp only [expectedOf, List.foldl]
  rw [hand, hexp]
  have hiff : (exactMatch (hex4 op) [t0, t1, t2, t3] = true) ↔
      ((hexDigit (op / 4096 % 16) = t0 ∨ t0 ∈ special_values) ∧
       (hexDigit (op / 256 % 16) = t1 ∨ t1 ∈ special_values) ∧
       (hexDigit (op / 16 % 16) = t2 ∨ t2 ∈ special_values) ∧
       (hexDigit (op % 16) = t3 ∨ t3 ∈ special_values)) := by
    simp only [hex4, exactMatch, Bool.and_true, Bool.and_eq_true, Bool.or_eq_true,
      decide_eq_true_eq]
  rw [e0, e1, e2, e3] at hiff
  rw [Bool.eq_iff_iff, hiff, beq_iff_eq]
  constructor
  · rintro ⟨h0, h1, h2, h3⟩
    rw [h0, h1, h2, h3]
  · intro h
    refine ⟨?_, ?_, ?_, ?_⟩ <;> omega

theorem and_ffff (n : Nat) (h : n < 65536) : n &&& 0xFFFF = n := by
  have e : (0xFFFF : Nat) = 2 ^ 16 - 1 := by norm_num
  rw [e, Nat.and_pow_two_sub_one_eq_mod]
  exact Nat.mod_eq_of_lt (by simpa using h)

theorem dispatch_0NNN (n : Nat) (hn : n < 4096) (h1 : n ≠ 0x00E0) (h2 : n ≠ 0x00EE) :
    FindBestInstruction (hex4 n) = some (['0', 'N', 'N', 'N'], instr_0NNN) := by
  apply FindBestInstruction_exact _ (hex4_length n)
  have m1 : exactMatch (hex4 n) ['0', '0', 'e', '0'] = false := by
    have := exactMatch_iff_mask n (by omega) (['0', '0', 'e', '0'], instr_00e0) (by simp [instr])
    rw [this]
    have hm : maskOf ['0', '0', 'e', '0'] = 0xFFFF := by decide
    have he : expectedOf ['0', '0', 'e', '0'] = 0x00E0 := by decide
    simp only [hm, he, and_ffff n (by omega)]
    simpa using h1
  have m2 : exactMatch (hex4 n) ['0', '0', 'e', 'e'] = false := by
    have := exactMatch_iff_mask n (by omega) (['0', '0', 'e', 'e'], instr_00ee) (by simp [instr])
    rw [this]
    have hm : maskOf ['0', '0', 'e', 'e'] = 0xFFFF := by decide
    have he : expectedOf ['0', '0', 'e', 'e'] = 0x00EE := by decide
    simp only [hm, he, and_ffff n (by omega)]
    simpa using h2
  have m3 : exactMatch (hex4 n) ['0', 'N', 'N', 'N'] = true := by
    have h0 : n / 4096 % 16 = 0 := by omega
    have hd : hexDigit 0 = '0' := rfl
    simp [hex4, h0, hd, exactMatch, special_values]
  simp only [instr, List.find?, m1, m2, m3]

/-! ## Fetch and dispatch in `Task` -/

theorem opcodeOf_lt (b0 b1 : Nat) : opcodeOf b0 b1 < 65536 := by
  unfold opcodeOf
  exact Nat.mod_lt _ (by norm_num)

theorem opcodeOf_bytes (b0 b1 : Nat) (h0 : b0 < 256) (h1 : b1 < 256) :
    opcodeOf b0 b1 = b0 * 256 + b1 := by
  unfold opcodeOf
  have h : 2 ^ 8 * b0 + b1 = 2 ^ 8 * b0 ||| b1 := Nat.mul_add_lt_is_or (by simpa using h1) b0
  rw [Nat.shiftLeft_eq, Nat.mul_comm, ← h]
  exact Nat.mod_eq_of_lt (by omega)

/-- A successful fetch followed by dispatch: `Task` runs the selected handler on the state
whose program counter has been advanced by 2. -/
theorem Task_dispatch (env : Env) (s : State) (hF : s.FATAL = false) (hPC : s.PC + 1 < 4096)
    (hop : opcodeOf (s.ram s.PC) (s.ram (s.PC + 1)) ≠ 0) (e : Entry)
    (hd : FindBestInstruction (hex4 (opcodeOf (s.ram s.PC) (s.ram (s.PC + 1)))) = some e) :
    Task env s = e.2 env (opcodeOf (s.ram s.PC) (s.ram (s.PC + 1))) { s with PC := s.PC + 2 } := by
  have h1 : ¬ (s.PC ≥ 4096) := by omega
  have h2 : (s.PC + 1) % 2 ^ 64 = s.PC + 1 := Nat.mod_eq_of_lt (by omega)
  have h3 : ¬ (s.PC + 1 ≥ 4096) := by omega
  have h4 : (s.PC + 1 + 1) % 2 ^ 64 = s.PC + 2 := Nat.mod_eq_of_lt (by omega)
  simp only [Task, hF, RamReadByte, h1, h2, h3, h4, if_false, hop, hd, Bool.false_eq_true]

/-- A draw instruction fetched while the gate is closed undoes its own fetch: the step leaves
the state as it was. -/
theorem Task_draw_retry (env : Env) (s : State) (hF : s.FATAL = false)
    (hPC : s.PC + 1 < 4096) (hop : opcodeOf (s.ram s.PC) (s.ram (s.PC + 1)) / 4096 = 0xD)
    (hgate : s.disp_wait.Get ≠ 0) : Task env s = s := by
  have hlt := opcodeOf_lt (s.ram s.PC) (s.ram (s.PC + 1))
  have hne : opcodeOf (s.ram s.PC) (s.ram (s.PC + 1)) ≠ 0 := by omega
  have hd := dispatch_dXYN (opcodeOf (s.ram s.PC) (s.ram (s.PC + 1))) (by omega)
  rw [Task_dispatch env s hF hPC hne _ hd]
  have hback : (s.PC + 2 + 2 ^ 64 - 2) % 2 ^ 64 = s.PC := by
    have : s.PC + 2 + 2 ^ 64 - 2 = s.PC + 2 ^ 64 := by omega
    rw [this, Nat.add_mod_right]
    exact Nat.mod_eq_of_lt (by omega)
  simp only [instr_dXYN, hgate, ne_eq, not_false_eq_true, if_true, hback]

theorem poke_ne (ram : Nat → Nat) (addr v a : Nat) (h : a ≠ addr) : poke ram addr v a = ram a := by
  unfold poke
  rw [if_neg h]

theorem DrawRow_other (W X sprite vp : Nat) (ram : Nat → Nat) (a : Nat) (h1 : a ≠ vp)
    (h2 : a ≠ vp + 1) : (DrawRow W X sprite vp ram).1 a = ram a := by
  simp only [DrawRow]
  split_ifs <;> simp only [poke_ne _ _ _ _ h1, poke_ne _ _ _ _ h2]

theorem DrawLoop_below (W H X : Nat) (N : Nat) :
    ∀ (Y sprite vp : Nat) (st : (Nat → Nat) × Nat) (a : Nat), a < vp →
      (DrawLoop W H X N Y sprite vp st).1 a = st.1 a := by
  induction N with
  | zero =>
    intro Y sprite vp st a _
    rfl
  | succ N ih =>
    intro Y sprite vp st a ha
    by_cases hY : Y < H
    · simp only [DrawLoop, hY, if_true]
      rw [ih (Y + 1) (sprite + 1) (vp + W / 8) _ a (by omega)]
      exact DrawRow_other W X sprite vp st.1 a (by omega) (by omega)
    · simp only [DrawLoop, hY, if_false]

/-- `Draw` never writes below the display iterator it is given. -/
theorem Draw_below (ram : Nat → Nat) (ram0 video_ram VF VX VY I N W H a : Nat)
    (ha : a < video_ram) : (Draw ram ram0 video_ram VF VX VY I N W H).1 a = ram a := by
  unfold Draw
  exact DrawLoop_below W H _ N _ _ _ (ram, VF) a (by omega)

/-- What the draw handler does when the gate is open. -/
theorem instr_dXYN_gate_open (opcode : Nat) (s : State) (hopen : s.disp_wait.timer = 0) :
    instr_dXYN opcode s =
      { s with
        ram := (drawOf opcode s).1,
        V := fun j => if j = 0xF then (drawOf opcode s).2 else s.V j,
        disp_wait := { s.disp_wait with timer := 1 } } := by
  simp only [instr_dXYN, Timer.Get, hopen, ne_eq, not_true_eq_false, if_false, Timer.Set, drawOf]

theorem parse_NNN_eq (op : Nat) : (CHIP8OpParse.parse op).NNN = op % 4096 := by
  have e : (0x0FFF : Nat) = 2 ^ 12 - 1 := by norm_num
  simp only [CHIP8OpParse.parse, e, Nat.and_pow_two_sub_one_eq_mod]

/-- Call, then the return instruction found at the call target: the second step restores the
state of before the call, with the program counter behind the call instruction. -/
theorem call_then_return (env : Env) (s : State) (NNN : Nat) (hF : s.FATAL = false)
    (hPC : s.PC + 1 < 4096) (hN : NNN + 1 < 4096)
    (hcall : opcodeOf (s.ram s.PC) (s.ram (s.PC + 1)) = 0x2000 + NNN)
    (hret : opcodeOf (s.ram NNN) (s.ram (NNN + 1)) = 0x00EE) :
    Task env s = { s with PC := NNN, stack := (s.PC + 2) :: s.stack } ∧
    Task env (Task env s) = { s with PC := s.PC + 2 } := by
  have hd := dispatch_2NNN (0x2000 + NNN) (by omega)
  have e1 : Task env s = { s with PC := NNN, stack := (s.PC + 2) :: s.stack } := by
    rw [Task_dispatch env s hF hPC (by rw [hcall]; omega) _ (by rw [hcall]; exact hd), hcall]
    have hn : (0x2000 + NNN) % 4096 = NNN := by omega
    have h16 : (s.PC + 2) % 2 ^ 16 = s.PC + 2 := Nat.mod_eq_of_lt (by omega)
    have h64 : NNN % 2 ^ 64 = NNN := Nat.mod_eq_of_lt (by omega)
    simp only [instr_2NNN, parse_NNN_eq, hn, AssignV, Reg.set, h16, h64]
  refine ⟨e1, ?_⟩
  rw [e1]
  have hop : opcodeOf (s.ram NNN) (s.ram (NNN + 1)) ≠ 0 := by rw [hret]; decide
  have := Task_dispatch env { s with PC := NNN, stack := (s.PC + 2) :: s.stack } hF hN hop _
    (by show FindBestInstruction (hex4 (opcodeOf (s.ram NNN) (s.ram (NNN + 1)))) = _
        rw [hret]; exact dispatch_00ee)
  rw [this]
  have h64 : (s.PC + 2) % 2 ^ 64 = s.PC + 2 := Nat.mod_eq_of_lt (by omega)
  simp only [instr_00ee, AssignV, Reg.set, h64]

/-- The return instruction with an empty stack: the handler is the identity, and a step that
fetches it only advances the program counter. -/
theorem return_empty_stack (env : Env) (s : State) (hS : s.stack = []) :
    (∀ opcode, instr_00ee env opcode s = s) ∧
    (s.FATAL = false → s.PC + 1 < 4096 → opcodeOf (s.ram s.PC) (s.ram (s.PC + 1)) = 0x00EE →
      Task env s = { s with PC := s.PC + 2 } ∧ (Task env s).FATAL = false) := by
  have h0 : ∀ opcode, instr_00ee env opcode s = s := by
    intro opcode
    simp only [instr_00ee, hS]
  refine ⟨h0, fun hF hPC hop => ?_⟩
  have hne : opcodeOf (s.ram s.PC) (s.ram (s.PC + 1)) ≠ 0 := by rw [hop]; decide
  have e1 := Task_dispatch env s hF hPC hne _ (by rw [hop]; exact dispatch_00ee)
  have e2 : Task env s = { s with PC := s.PC + 2 } := by
    rw [e1]
    simp only [instr_00ee, hS]
  exact ⟨e2, by rw [e2]; exact hF⟩

/-! ## The machine cycle: gate, decoder, dispatcher, halt, reset, call and return -/

/-- C11: when the display-refresh gate is closed (`disp_wait` non-zero), a step whose fetched
opcode is `DXYN` mutates nothing: registers, `I`, memory, stack, timers and gate keep their
values and the program counter ends at the address of the draw instruction itself, so the
whole state is the one before the step. -/
theorem Task_dXYN_gate_closed (env : Env) (s : State) (hF : s.FATAL = false)
    (hPC : s.PC + 1 < 4096) (hop : opcodeOf (s.ram s.PC) (s.ram (s.PC + 1)) / 4096 = 0xD)
    (hgate : s.disp_wait.Get ≠ 0) : Task env s = s :=
  Task_draw_retry env s hF hPC hop hgate

/-- Witness for C11: `D001` at `0x200` with `disp_wait = 1`. -/
theorem Task_dXYN_gate_closed_witness :
    gateClosedState.FATAL = false ∧ gateClosedState.PC + 1 < 4096 ∧
    opcodeOf (gateClosedState.ram gateClosedState.PC)
      (gateClosedState.ram (gateClosedState.PC + 1)) / 4096 = 0xD ∧
    gateClosedState.disp_wait.Get ≠ 0 ∧
    Task idle gateClosedState = gateClosedState :=
  ⟨by decide, by decide, by decide, by decide,
    Task_dXYN_gate_closed idle gateClosedState (by decide) (by decide) (by decide) (by decide)⟩

/-- C12: with the gate open and two consecutive draw instructions below the display region, the
first step executes the first draw and closes the gate (`disp_wait = 1`); a second step with no
tick in between changes nothing and leaves the program counter at the second draw; after one
`Tick` of the refresh timer the gate is open and the next step executes the second draw. -/
theorem Task_two_draws (env : Env) (s : State) (hF : s.FATAL = false)
    (hen : s.disp_wait.enable = true) (hopen : s.disp_wait.timer = 0)
    (hPC : s.PC + 3 < 0xF00)
    (h1 : opcodeOf (s.ram s.PC) (s.ram (s.PC + 1)) / 4096 = 0xD)
    (h2 : opcodeOf (s.ram (s.PC + 2)) (s.ram (s.PC + 3)) / 4096 = 0xD) :
    ((Task env s).ram = (drawOf (opcodeOf (s.ram s.PC) (s.ram (s.PC + 1))) s).1 ∧
      (Task env s).V 0xF = (drawOf (opcodeOf (s.ram s.PC) (s.ram (s.PC + 1))) s).2 ∧
      (Task env s).disp_wait.timer = 1 ∧ (Task env s).PC = s.PC + 2) ∧
    Task env (Task env s) = Task env s ∧
    (TickDisplay (Task env (Task env s))).disp_wait.timer = 0 ∧
    ((Task env (TickDisplay (Task env (Task env s)))).ram =
        (drawOf (opcodeOf (s.ram (s.PC + 2)) (s.ram (s.PC + 3))) (Task env s)).1 ∧
      (Task env (TickDisplay (Task env (Task env s)))).V 0xF =
        (drawOf (opcodeOf (s.ram (s.PC + 2)) (s.ram (s.PC + 3))) (Task env s)).2 ∧
      (Task env (TickDisplay (Task env (Task env s)))).disp_wait.timer = 1 ∧
      (Task env (TickDisplay (Task env (Task env s)))).PC = s.PC + 4) := by
  have hlt1 := opcodeOf_lt (s.ram s.PC) (s.ram (s.PC + 1))
  have hlt2 := opcodeOf_lt (s.ram (s.PC + 2)) (s.ram (s.PC + 3))
  have hne1 : opcodeOf (s.ram s.PC) (s.ram (s.PC + 1)) ≠ 0 := by omega
  have hne2 : opcodeOf (s.ram (s.PC + 2)) (s.ram (s.PC + 3)) ≠ 0 := by omega
  have hd1 := dispatch_dXYN (opcodeOf (s.ram s.PC) (s.ram (s.PC + 1))) (by omega)
  have hd2 := dispatch_dXYN (opcodeOf (s.ram (s.PC + 2)) (s.ram (s.PC + 3))) (by omega)
  have e1 : Task env s =
      instr_dXYN (opcodeOf (s.ram s.PC) (s.ram (s.PC + 1))) { s with PC := s.PC + 2 } :=
    Task_dispatch env s hF (by omega) hne1 _ hd1
  rw [instr_dXYN_gate_open _ { s with PC := s.PC + 2 } hopen] at e1
  have hF1 : (Task env s).FATAL = false := by rw [e1]; exact hF
  have hPC1 : (Task env s).PC = s.PC + 2 := by rw [e1]
  have ht1 : (Task env s).disp_wait.timer = 1 := by rw [e1]
  have hen1 : (Task env s).disp_wait.enable = true := by rw [e1]; exact hen
  have hram1 : ∀ a, a < 0xF00 → (Task env s).ram a = s.ram a := by
    intro a ha
    rw [e1]
    exact Draw_below _ _ _ _ _ _ _ _ _ _ a ha
  have hop1 : opcodeOf ((Task env s).ram (Task env s).PC) ((Task env s).ram ((Task env s).PC + 1))
      = opcodeOf (s.ram (s.PC + 2)) (s.ram (s.PC + 3)) := by
    rw [hPC1, hram1 _ (by omega), hram1 _ (by omega)]
  have e2 : Task env (Task env s) = Task env s := by
    apply Task_draw_retry env _ hF1 (by rw [hPC1]; omega)
    · rw [hop1]; exact h2
    · simp only [Timer.Get, ht1]; decide
  have htick : (TickDisplay (Task env s)).disp_wait.timer = 0 := by
    simp only [TickDisplay, Timer.Tick, hen1, ht1]
    rfl
  have e3 : Task env (TickDisplay (Task env s)) =
      instr_dXYN (opcodeOf (s.ram (s.PC + 2)) (s.ram (s.PC + 3)))
        { TickDisplay (Task env s) with PC := (Task env s).PC + 2 } := by
    have := Task_dispatch env (TickDisplay (Task env s)) hF1
      (by show (Task env s).PC + 1 < 4096; rw [hPC1]; omega)
      (by show opcodeOf ((Task env s).ram (Task env s).PC)
            ((Task env s).ram ((Task env s).PC + 1)) ≠ 0
          rw [hop1]; exact hne2)
      _ (by show FindBestInstruction (hex4 (opcodeOf ((Task env s).ram (Task env s).PC)
            ((Task env s).ram ((Task env s).PC + 1)))) = _
            rw [hop1]; exact hd2)
    rw [this]
    show instr_dXYN (opcodeOf ((Task env s).ram (Task env s).PC)
            ((Task env s).ram ((Task env s).PC + 1))) _ = _
    rw [hop1]
    rfl
  rw [instr_dXYN_gate_open _ { TickDisplay (Task env s) with PC := (Task env s).PC + 2 } htick] at e3
  refine ⟨⟨?_, ?_, ht1, hPC1⟩, e2, ?_, ?_, ?_, ?_, ?_⟩
  · rw [e1]; rfl
  · rw [e1]; rfl
  · rw [e2]; exact htick
  · rw [e2, e3]; rfl
  · rw [e2, e3]; rfl
  · rw [e2, e3]
  · rw [e2, e3]
    show (Task env s).PC + 2 = s.PC + 4
    rw [hPC1]

/-- Witness for C12: two `D001` instructions at `0x200`. -/
theorem Task_two_draws_witness :
    twoDrawsState.FATAL = false ∧ twoDrawsState.disp_wait.enable = true ∧
    twoDrawsState.disp_wait.timer = 0 ∧ twoDrawsState.PC + 3 < 0xF00 ∧
    (Task idle twoDrawsState).disp_wait.timer = 1 ∧
    Task idle (Task idle twoDrawsState) = Task idle twoDrawsState ∧
    (Task idle (TickDisplay (Task idle (Task idle twoDrawsState)))).PC = twoDrawsState.PC + 4 := by
  have h := Task_two_draws idle twoDrawsState (by decide) (by decide) (by decide) (by decide)
    (by decide) (by decide)
  exact ⟨by decide, by decide, by decide, by decide, h.1.2.2.1, h.2.1, h.2.2.2.2.2.2⟩

/-- C13: for every word `op`, `CHIP8OpParse` keeps `op` and yields `NNN = op mod 4096`,
`NN = op mod 256`, `N = op mod 16`, `X = (op div 256) mod 16`, `Y = (op div 16) mod 16`;
hence `NNN = 256 * X + 16 * Y + N` and `NN = 16 * Y + N`. -/
theorem CHIP8OpParse_fields (op : Nat) :
    (CHIP8OpParse.parse op).op = op ∧
    (CHIP8OpParse.parse op).NNN = op % 4096 ∧
    (CHIP8OpParse.parse op).NN = op % 256 ∧
    (CHIP8OpParse.parse op).N = op % 16 ∧
    (CHIP8OpParse.parse op).X = op / 256 % 16 ∧
    (CHIP8OpParse.parse op).Y = op / 16 % 16 ∧
    (CHIP8OpParse.parse op).NNN =
      256 * (CHIP8OpParse.parse op).X + 16 * (CHIP8OpParse.parse op).Y + (CHIP8OpParse.parse op).N ∧
    (CHIP8OpParse.parse op).NN = 16 * (CHIP8OpParse.parse op).Y + (CHIP8OpParse.parse op).N := by
  refine ⟨rfl, parse_NNN_eq op, parse_NN_eq op, parse_N_eq op, parse_X_eq op, parse_Y_eq op, ?_, ?_⟩
  · rw [parse_NNN_eq, parse_X_eq, parse_Y_eq, parse_N_eq]
    omega
  · rw [parse_NN_eq, parse_Y_eq, parse_N_eq]
    omega

/-- C14, evaluated where it fails: the opcode `0x8128` matches no template exactly, yet
`FindBestInstruction` returns the best-scoring entry `8XY0` and `Task` runs it: `V1` becomes
`V2 = 7` and the machine is not halted. -/
theorem Task_unmatched_opcode_runs_handler :
    (instr.all fun e => !exactMatch (hex4 0x8128) e.1) = true ∧
    (FindBestInstruction (hex4 0x8128)).map Prod.fst = some ['8', 'X', 'Y', '0'] ∧
    unmatchedState.V 1 = 0 ∧
    (Task idle unmatchedState).V 1 = 7 ∧
    (Task idle unmatchedState).FATAL = false := by
  decide

/-- C15: for every 16-bit opcode that matches at least one catalogue template under its bit
mask, the scoring dispatcher returns the first template, in map order, with
`(opcode & mask) == expected`.  In particular `0x00E0` and `0x00EE` go to `00e0` and `00ee`,
and every other opcode below `0x1000` goes to `0NNN`. -/
theorem FindBestInstruction_refines_mask (op : Nat) (hop : op < 65536)
    (hex : ∃ e ∈ instr, op &&& maskOf e.1 = expectedOf e.1) :
    FindBestInstruction (hex4 op) = decodeByMask op ∧
    (FindBestInstruction (hex4 0x00E0)).map Prod.fst = some ['0', '0', 'e', '0'] ∧
    (FindBestInstruction (hex4 0x00EE)).map Prod.fst = some ['0', '0', 'e', 'e'] ∧
    (∀ n, n < 4096 → n ≠ 0x00E0 → n ≠ 0x00EE →
      (FindBestInstruction (hex4 n)).map Prod.fst = some ['0', 'N', 'N', 'N']) := by
  refine ⟨?_, by decide, by decide, ?_⟩
  · have hpq : ∀ x ∈ instr, (op &&& maskOf x.1 == expectedOf x.1) = exactMatch (hex4 op) x.1 :=
      fun x hx => (exactMatch_iff_mask op hop x hx).symm
    have hdec : decodeByMask op = instr.find? (fun x => exactMatch (hex4 op) x.1) :=
      find?_congr_mem instr _ _ hpq
    obtain ⟨e, he, hm⟩ := hex
    cases hf : instr.find? (fun x => exactMatch (hex4 op) x.1) with
    | none =>
      exfalso
      have := List.find?_eq_none.mp hf e he
      rw [exactMatch_iff_mask op hop e he] at this
      simp [hm] at this
    | some e' =>
      rw [hdec, hf]
      exact FindBestInstruction_exact _ (hex4_length op) e' hf
  · intro n hn h1 h2
    rw [dispatch_0NNN n hn h1 h2]
    rfl

/-- Witness for C15: the opcode `0xD125`, matched by `dXYN`. -/
theorem FindBestInstruction_refines_mask_witness :
    (0xD125 : Nat) < 65536 ∧
    (∃ e ∈ instr, 0xD125 &&& maskOf e.1 = expectedOf e.1) ∧
    (FindBestInstruction (hex4 0xD125) = decodeByMask 0xD125 ∧
    (FindBestInstruction (hex4 0x00E0)).map Prod.fst = some ['0', '0', 'e', '0'] ∧
    (FindBestInstruction (hex4 0x00EE)).map Prod.fst = some ['0', '0', 'e', 'e'] ∧
    (∀ n, n < 4096 → n ≠ 0x00E0 → n ≠ 0x00EE →
      (FindBestInstruction (hex4 n)).map Prod.fst = some ['0', 'N', 'N', 'N'])) :=
  ⟨by decide, ⟨(['d', 'X', 'Y', 'N'], fun _ => instr_dXYN), by simp [instr], by decide⟩,
    FindBestInstruction_refines_mask 0xD125 (by decide)
      ⟨(['d', 'X', 'Y', 'N'], fun _ => instr_dXYN), by simp [instr], by decide⟩⟩

/-- C16: a running machine halts, executing no handler, when the first byte to fetch lies at an
address `>= 4096`, when the second does (`PC = 4095`), and when the fetched word is `0x0000`,
although `0x0000` matches the template `0NNN` exactly.  Nothing but the program counter and
the halt latch changes. -/
theorem Task_halts (env : Env) (s : State) (hF : s.FATAL = false) :
    (4096 ≤ s.PC → Task env s = { s with FATAL := true }) ∧
    (s.PC = 4095 → Task env s = { s with PC := 4096, FATAL := true }) ∧
    (s.PC + 1 < 4096 → s.ram s.PC * 256 + s.ram (s.PC + 1) = 0 →
      Task env s = { s with PC := s.PC + 2, FATAL := true }) ∧
    exactMatch (hex4 0x0000) ['0', 'N', 'N', 'N'] = true := by
  refine ⟨?_, ?_, ?_, by decide⟩
  · intro h
    have h1 : s.PC ≥ 4096 := h
    simp only [Task, hF, RamReadByte, h1, if_true, Bool.false_eq_true, if_false]
  · intro h
    have h1 : ¬ (s.PC ≥ 4096) := by omega
    have h2 : (s.PC + 1) % 2 ^ 64 = 4096 := by rw [h]; norm_num
    simp only [Task, hF, RamReadByte, h1, h2, if_false, Bool.false_eq_true, ge_iff_le, le_refl,
      if_true]
  · intro h hz
    have h1 : ¬ (s.PC ≥ 4096) := by omega
    have h2 : (s.PC + 1) % 2 ^ 64 = s.PC + 1 := Nat.mod_eq_of_lt (by omega)
    have h3 : ¬ (s.PC + 1 ≥ 4096) := by omega
    have h4 : (s.PC + 1 + 1) % 2 ^ 64 = s.PC + 2 := Nat.mod_eq_of_lt (by omega)
    have hb0 : s.ram s.PC = 0 := by omega
    have hb1 : s.ram (s.PC + 1) = 0 := by omega
    have hop : opcodeOf 0 0 = 0 := by decide
    simp only [Task, hF, RamReadByte, h1, h2, h3, h4, if_false, hb0, hb1, hop, if_true,
      Bool.false_eq_true]

/-- Witness for C16: the blank machine fetches the zero word at `0x200`. -/
theorem Task_halts_witness :
    blank.FATAL = false ∧ Task idle blank = { blank with PC := blank.PC + 2, FATAL := true } :=
  ⟨by decide, (Task_halts idle blank (by decide)).2.2.1 (by decide) (by decide)⟩

/-- C17: once the halt latch is set, any sequence of further steps, under any external
conditions and whatever the memory contains, leaves the whole machine state unchanged. -/
theorem Task_halted (envs : List Env) (s : State) (hF : s.FATAL = true) :
    envs.foldl (fun st env => Task env st) s = s := by
  induction envs with
  | nil => rfl
  | cons env rest ih =>
    have h1 : Task env s = s := by
      simp only [Task, hF, if_true]
    simp only [List.foldl, h1]
    exact ih

/-- Witness for C17: two steps of a halted blank machine. -/
theorem Task_halted_witness :
    ({ blank with FATAL := true } : State).FATAL = true ∧
    [idle, idle].foldl (fun st env => Task env st) { blank with FATAL := true } =
      { blank with FATAL := true } :=
  ⟨by decide, Task_halted [idle, idle] { blank with FATAL := true } (by decide)⟩

/-- C18 fails on the code: the program `7001` runs one step (`V0 = 1`) and halts on the zero
word; after `Reset` the next step executes nothing, `V0` stays 1, the program counter stays
at `0x200` and the machine is still halted.  (Reset before the halt does re-run `7001`:
`V0 = 2`.) -/
theorem Reset_leaves_halted :
    (Task idle (Task idle haltingProgram)).FATAL = true ∧
    (Task idle (Task idle haltingProgram)).V 0 = 1 ∧
    (Task idle (Reset (Task idle (Task idle haltingProgram)))).V 0 = 1 ∧
    (Task idle (Reset (Task idle (Task idle haltingProgram)))).PC = 0x200 ∧
    (Task idle (Reset (Task idle (Task idle haltingProgram)))).FATAL = true ∧
    (Task idle (Reset (Task idle haltingProgram))).V 0 = 2 := by
  decide

/-- C18 as amended: `Reset` does not clear the halt latch.  On a halted machine `Reset` followed
by a step changes nothing further and the machine stays halted; on a machine that is not
halted, `Reset` followed by a step fetches the word at `0x200` and, when it is non-zero, runs
the handler dispatched for it with the program counter at `0x202`. -/
theorem Reset_then_Task (env : Env) (s : State) :
    (s.FATAL = true → Task env (Reset s) = Reset s ∧ (Task env (Reset s)).FATAL = true) ∧
    (s.FATAL = false → opcodeOf (s.ram 0x200) (s.ram 0x201) ≠ 0 →
      ∃ e, FindBestInstruction (hex4 (opcodeOf (s.ram 0x200) (s.ram 0x201))) = some e ∧
        Task env (Reset s) = e.2 env (opcodeOf (s.ram 0x200) (s.ram 0x201)) { s with PC := 0x202 }) := by
  constructor
  · intro hF
    have hF' : (Reset s).FATAL = true := hF
    have h1 : Task env (Reset s) = Reset s := by
      simp only [Task, hF', if_true]
    exact ⟨h1, by rw [h1]; exact hF'⟩
  · intro hF hop
    obtain ⟨e, he⟩ := FindBestInstruction_some (opcodeOf (s.ram 0x200) (s.ram 0x201))
    refine ⟨e, he, ?_⟩
    have hPC : (Reset s).PC + 1 < 4096 := by
      show MEMORY_USABLE + 1 < 4096
      decide
    exact Task_dispatch env (Reset s) hF hPC hop e he

/-- C19: `Reset` sets the program counter to `0x200` and leaves the registers, `I`, the memory,
the three timers (and the stack and halt latch) unchanged. -/
theorem Reset_frame (s : State) :
    (Reset s).PC = 0x200 ∧ (Reset s).V = s.V ∧ (Reset s).I = s.I ∧ (Reset s).ram = s.ram ∧
    (Reset s).delay = s.delay ∧ (Reset s).audio = s.audio ∧ (Reset s).disp_wait = s.disp_wait ∧
    (Reset s).stack = s.stack ∧ (Reset s).FATAL = s.FATAL :=
  ⟨rfl, rfl, rfl, rfl, rfl, rfl, rfl, rfl, rfl⟩

/-- C20: a step on `2NNN` at program counter `p` pushes `p + 2` and sets the program counter to
`NNN`; when `00EE` is the instruction at `NNN`, the following step sets the program counter to
`p + 2` and leaves the stack, and everything else, as before the call.  With an empty stack
the handler of `00EE` changes nothing, and a step that fetches it only advances the program
counter, without halting. -/
theorem call_return_round_trip (env : Env) (s : State) (NNN : Nat) (hF : s.FATAL = false)
    (hPC : s.PC + 1 < 4096) (hN : NNN < 4096)
    (hcall : opcodeOf (s.ram s.PC) (s.ram (s.PC + 1)) = 0x2000 + NNN) :
    Task env s = { s with PC := NNN, stack := (s.PC + 2) :: s.stack } ∧
    (NNN + 1 < 4096 → opcodeOf (s.ram NNN) (s.ram (NNN + 1)) = 0x00EE →
      Task env (Task env s) = { s with PC := s.PC + 2 }) ∧
    (∀ t : State, t.stack = [] →
      (∀ opcode, instr_00ee env opcode t = t) ∧
      (t.FATAL = false → t.PC + 1 < 4096 → opcodeOf (t.ram t.PC) (t.ram (t.PC + 1)) = 0x00EE →
        Task env t = { t with PC := t.PC + 2 } ∧ (Task env t).FATAL = false)) := by
  have hd := dispatch_2NNN (0x2000 + NNN) (by omega)
  have e1 : Task env s = { s with PC := NNN, stack := (s.PC + 2) :: s.stack } := by
    rw [Task_dispatch env s hF hPC (by rw [hcall]; omega) _ (by rw [hcall]; exact hd), hcall]
    have hn : (0x2000 + NNN) % 4096 = NNN := by omega
    have h16 : (s.PC + 2) % 2 ^ 16 = s.PC + 2 := Nat.mod_eq_of_lt (by omega)
    have h64 : NNN % 2 ^ 64 = NNN := Nat.mod_eq_of_lt (by omega)
    simp only [instr_2NNN, parse_NNN_eq, hn, AssignV, Reg.set, h16, h64]
  refine ⟨e1, fun hN1 hret => ?_, fun t ht => return_empty_stack env t ht⟩
  exact (call_then_return env s NNN hF hPC hN1 hcall hret).2

/-- Witness for C20: call `0x300` at `0x200`, return at `0x300`. -/
theorem call_return_round_trip_witness :
    callState.FATAL = false ∧ callState.PC + 1 < 4096 ∧ (0x300 : Nat) < 4096 ∧
    opcodeOf (callState.ram callState.PC) (callState.ram (callState.PC + 1)) = 0x2000 + 0x300 ∧
    Task idle callState = { callState with PC := 0x300, stack := (callState.PC + 2) :: callState.stack } ∧
    Task idle (Task idle callState) = { callState with PC := callState.PC + 2 } := by
  have h := call_return_round_trip idle callState 0x300 (by decide) (by decide) (by decide) (by decide)
  exact ⟨by decide, by decide, by decide, by decide, h.1, h.2.1 (by decide) (by decide)⟩

/-! ## Timer countdown -/

/-- One `Tick` of an enabled timer is a truncated decrement of the counter. -/
theorem Tick_enabled (t : Timer) (hen : t.enable = true) :
    t.Tick = { t with timer := t.timer - 1 } := by
  unfold Timer.Tick
  cases t with
  | mk timer enable =>
    simp only at hen
    subst hen
    by_cases h0 : timer = 0
    · subst h0
      simp
    · simp [h0]

/-- After `k` ticks an enabled timer holds its counter minus `k`, truncated at 0. -/
theorem Tick_iterate (k : Nat) : ∀ (t : Timer), t.enable = true →
    Timer.Tick^[k] t = { t with timer := t.timer - k } := by
  induction k with
  | zero =>
    intro t _
    rfl
  | succ k ih =>
    intro t hen
    rw [Function.iterate_succ_apply, Tick_enabled t hen]
    have := ih { t with timer := t.timer - 1 } hen
    rw [this]
    simp only [Timer.mk.injEq, and_true]
    omega

/-- Ticks never change the enable flag. -/
theorem Tick_iterate_enable (k : Nat) (t : Timer) (hen : t.enable = true) :
    (Timer.Tick^[k] t).enable = true := by
  rw [Tick_iterate k t hen]
  exact hen

/-- Counter of an enabled timer after `k` ticks. -/
theorem Tick_iterate_timer (k : Nat) (t : Timer) (hen : t.enable = true) :
    (Timer.Tick^[k] t).timer = t.timer - k := by
  rw [Tick_iterate k t hen]

/-- An enabled timer reaches `TimeOver()` on its next tick exactly when the counter is 1. -/
theorem TimeOver_iff (t : Timer) (hen : t.enable = true) : t.TimeOver = true ↔ t.timer = 1 := by
  unfold Timer.TimeOver
  simp only [hen, Bool.true_and, Bool.and_eq_true, bne_iff_ne, ne_eq, beq_iff_eq]
  omega

/-- An enabled timer calls `TimeOver()` once within `k` ticks when its counter is between 1 and `k`,
and never otherwise. -/
theorem edges_enabled (k : Nat) : ∀ (t : Timer), t.enable = true →
    Timer.edges k t = if 1 ≤ t.timer ∧ t.timer ≤ k then 1 else 0 := by
  induction k with
  | zero =>
    intro t _
    have : ¬ (1 ≤ t.timer ∧ t.timer ≤ 0) := by omega
    simp only [Timer.edges, this, if_false]
  | succ k ih =>
    intro t hen
    have hen' : t.Tick.enable = true := by rw [Tick_enabled t hen]; exact hen
    have ht : t.Tick.timer = t.timer - 1 := by rw [Tick_enabled t hen]
    rw [Timer.edges, ih _ hen', ht]
    by_cases h1 : t.timer = 1
    · have := (TimeOver_iff t hen).mpr h1
      simp [this, h1]
    · have hno : t.TimeOver = false := by
        cases h : t.TimeOver with
        | false => rfl
        | true => exact absurd ((TimeOver_iff t hen).mp h) h1
      rw [hno]
      by_cases h2 : 1 ≤ t.timer - 1 ∧ t.timer - 1 ≤ k
      · have h3 : 1 ≤ t.timer ∧ t.timer ≤ k + 1 := by omega
        rw [if_pos h2, if_pos h3]
        rfl
      · have h3 : ¬ (1 ≤ t.timer ∧ t.timer ≤ k + 1) := by omega
        rw [if_neg h2, if_neg h3]
        rfl

/-- C21: for every `n` in 1..255 and an enabled timer, `Set(n)` followed by `n` calls of `Tick`
brings the counter to 0; `TimeOver()` is called exactly once in those `n` ticks, not within the
first `n - 1` of them, and the `n`-th tick is the one that calls it; after any number `m` of further
ticks the counter is still 0 (no wrap to 255), the next tick would call nothing, and the count of
calls is still 1. -/
theorem Timer_countdown (t : Timer) (n : Nat) (hen : t.enable = true) (h1 : 1 ≤ n)
    (h2 : n ≤ 255) :
    (Timer.Tick^[n] (t.Set n)).timer = 0 ∧
    Timer.edges n (t.Set n) = 1 ∧
    Timer.edges (n - 1) (t.Set n) = 0 ∧
    (Timer.Tick^[n - 1] (t.Set n)).TimeOver = true ∧
    ∀ m, (Timer.Tick^[n + m] (t.Set n)).timer = 0 ∧
      (Timer.Tick^[n + m] (t.Set n)).TimeOver = false ∧
      Timer.edges (n + m) (t.Set n) = 1 := by
  have hs : (t.Set n).timer = n := by
    simp only [Timer.Set]
    omega
  have hse : (t.Set n).enable = true := hen
  refine ⟨?_, ?_, ?_, ?_, fun m => ⟨?_, ?_, ?_⟩⟩
  · rw [Tick_iterate_timer n _ hse, hs]
    omega
  · rw [edges_enabled n _ hse, hs]
    simp [h1]
  · rw [edges_enabled (n - 1) _ hse, hs]
    have : ¬ (1 ≤ n ∧ n ≤ n - 1) := by omega
    simp [this]
  · apply (TimeOver_iff _ (Tick_iterate_enable (n - 1) _ hse)).mpr
    rw [Tick_iterate_timer (n - 1) _ hse, hs]
    omega
  · rw [Tick_iterate_timer (n + m) _ hse, hs]
    omega
  · cases h : (Timer.Tick^[n + m] (t.Set n)).TimeOver with
    | false => rfl
    | true =>
      have := (TimeOver_iff _ (Tick_iterate_enable (n + m) _ hse)).mp h
      rw [Tick_iterate_timer (n + m) _ hse, hs] at this
      omega
  · rw [edges_enabled (n + m) _ hse, hs]
    have : 1 ≤ n ∧ n ≤ n + m := by omega
    simp [this]

/-- Witness for C21: `Set(5)` on a fresh timer, five ticks, and a sixth tick that changes nothing.
-/
theorem Timer_countdown_witness :
    (⟨0, true⟩ : Timer).enable = true ∧ 1 ≤ 5 ∧ 5 ≤ 255 ∧
    (Timer.Tick^[5] ((⟨0, true⟩ : Timer).Set 5)).timer = 0 ∧
    Timer.edges 5 ((⟨0, true⟩ : Timer).Set 5) = 1 ∧
    (Timer.Tick^[5 + 1] ((⟨0, true⟩ : Timer).Set 5)).timer = 0 ∧
    Timer.edges (5 + 1) ((⟨0, true⟩ : Timer).Set 5) = 1 := by
  have h := Timer_countdown ⟨0, true⟩ 5 rfl (by decide) (by decide)
  exact ⟨rfl, by decide, by decide, h.1, h.2.1, (h.2.2.2.2 1).1, (h.2.2.2.2 1).2.2⟩

/-! ## Key wait, memory interface, address register, clear display -/

/-- Every opcode `FX0A` selects the entry `fX0a`. -/
theorem dispatch_fX0a (X : Nat) (hX : X < 16) :
    FindBestInstruction (hex4 (0xF00A + 256 * X)) = some (['f', 'X', '0', 'a'], instr_fX0a) := by
  apply FindBestInstruction_exact _ (hex4_length _)
  have h0 : (0xF00A + 256 * X) / 4096 % 16 = 15 := by omega
  have h2 : (0xF00A + 256 * X) / 16 % 16 = 0 := by omega
  have h3 : (0xF00A + 256 * X) % 16 = 10 := by omega
  have d0 : hexDigit 15 = 'f' := rfl
  have d2 : hexDigit 0 = '0' := rfl
  have d3 : hexDigit 10 = 'a' := rfl
  simp [hex4, h0, h2, h3, d0, d2, d3, instr, exactMatch, special_values]

/-- C22: one step on `FX0A` returns in both cases. When `GetKey(false)` reports `_invalid` the step
leaves the whole state as it was, the program counter at the address of the instruction included;
when it reports a key code `k` the step stores `k` in `VX`, leaves every other register and the
memory unchanged, and leaves the program counter advanced by 2. -/
theorem Task_fX0a (env : Env) (s : State) (X : Nat) (hX : X < 16) (hF : s.FATAL = false)
    (hPC : s.PC + 1 < 4096)
    (hop : opcodeOf (s.ram s.PC) (s.ram (s.PC + 1)) = 0xF00A + 256 * X) :
    (env.GetKey = Key_invalid → Task env s = s) ∧
    (env.GetKey ≠ Key_invalid → env.GetKey < 256 →
      Task env s =
        { s with PC := s.PC + 2, V := fun j => if j = X then env.GetKey else s.V j }) := by
  have hne : opcodeOf (s.ram s.PC) (s.ram (s.PC + 1)) ≠ 0 := by rw [hop]; omega
  have e1 := Task_dispatch env s hF hPC hne _ (by rw [hop]; exact dispatch_fX0a X hX)
  rw [hop] at e1
  have hx : (0xF00A + 256 * X) / 256 % 16 = X := by omega
  constructor
  · intro hk
    rw [e1]
    have hback : (s.PC + 2 + 2 ^ 64 - 2) % 2 ^ 64 = s.PC := by
      have : s.PC + 2 + 2 ^ 64 - 2 = s.PC + 2 ^ 64 := by omega
      rw [this, Nat.add_mod_right]
      exact Nat.mod_eq_of_lt (by omega)
    simp only [instr_fX0a, hk, if_true, hback]
  · intro hk hlt
    rw [e1]
    have hm : env.GetKey % 2 ^ 8 = env.GetKey := Nat.mod_eq_of_lt (by simpa using hlt)
    simp only [instr_fX0a, hk, if_false, AssignV, Reg.set, parse_X_eq, hx, hm, Nat.mod_mod]

/-- Witness for C22: `F10A` at `0x200`, first with no key down, then with key 7 down. -/
theorem Task_fX0a_witness :
    (1 : Nat) < 16 ∧ keyWaitState.FATAL = false ∧ keyWaitState.PC + 1 < 4096 ∧
    opcodeOf (keyWaitState.ram keyWaitState.PC) (keyWaitState.ram (keyWaitState.PC + 1)) =
      0xF00A + 256 * 1 ∧
    Task idle keyWaitState = keyWaitState ∧
    Task (keyDown 7) keyWaitState =
      { keyWaitState with PC := keyWaitState.PC + 2,
                          V := fun j => if j = 1 then (keyDown 7).GetKey else keyWaitState.V j } := by
  have h1 := Task_fX0a idle keyWaitState 1 (by decide) (by decide) (by decide) (by decide)
  have h2 := Task_fX0a (keyDown 7) keyWaitState 1 (by decide) (by decide) (by decide) (by decide)
  exact ⟨by decide, by decide, by decide, by decide, h1.1 (by decide),
    h2.2 (by decide) (by decide)⟩

/-- C23: `RamReadByte(a)` returns no value exactly when `a >= 4096` and otherwise returns `ram[a]`;
`RamWriteByte(a, b)` returns false with the state unchanged exactly when `a >= 4096`, and otherwise
returns true, makes `RamReadByte(a)` return `b`, and leaves every other byte unchanged. -/
theorem Ram_access (s : State) (a b : Nat) :
    (RamReadByte s a = none ↔ 4096 ≤ a) ∧
    (a < 4096 → RamReadByte s a = some (s.ram a)) ∧
    (((RamWriteByte s a b).2 = false ∧ (RamWriteByte s a b).1 = s) ↔ 4096 ≤ a) ∧
    (4096 ≤ a → ∀ c, (RamWriteByte s a b).1.ram c = s.ram c) ∧
    (a < 4096 → b < 256 →
      (RamWriteByte s a b).2 = true ∧
      RamReadByte (RamWriteByte s a b).1 a = some b ∧
      ∀ c, c ≠ a → (RamWriteByte s a b).1.ram c = s.ram c) := by
  by_cases h : a ≥ 4096
  · have hlt : ¬ a < 4096 := by omega
    simp [RamReadByte, RamWriteByte, h, hlt]
  · have hlt : a < 4096 := by omega
    have hle : ¬ 4096 ≤ a := by omega
    simp only [RamReadByte, RamWriteByte, h, if_false, hle, iff_false, not_false_eq_true,
      true_and, Bool.true_eq_false, false_and, hlt, forall_const, reduceCtorEq, IsEmpty.forall_iff]
    intro hb
    refine ⟨?_, ?_⟩
    · simp only [poke, if_true]
      rw [Nat.mod_eq_of_lt hb]
    · intro c hc
      simp only [poke, hc, if_false]

/-- C24: from a state with `I = 0xFFF` (inside the address space) and `V0 = 1`, one step on `F01E`
dispatches to `fX1e` and yields `I = 0x1000`, above the address space, without halting. -/
theorem addressEdge_leaves_space :
    addressEdgeState.I ≤ 0xFFF ∧
    (FindBestInstruction (hex4 0xF01E)).map Prod.fst = some ['f', 'X', '1', 'e'] ∧
    (Task idle addressEdgeState).I = 0x1000 ∧
    (Task idle addressEdgeState).FATAL = false := by
  decide

/-- C27: the handler of `00E0` sets every byte of `[0xF00, 0x1000)` to zero and changes nothing
else: every other memory byte, the registers `V0..VF`, `I`, the call stack, the program counter and
the timers are as before. -/
theorem instr_00e0_spec (env : Env) (opcode : Nat) (s : State) :
    instr_00e0 env opcode s =
      { s with ram := fun a => if 0xF00 ≤ a ∧ a < 0x1000 then 0 else s.ram a } := by
  simp only [instr_00e0, ClearDisplay, MEMORY_VIDEO, displayW, displayH]
  rfl

/-! ## Decimal conversion and register dump -/

/-- C29: for every value of `VX` and every `I` with `I + 2 < 4096`, the handler of `FX33` stores `VX
/ 100`, `VX / 10 % 10`, `VX % 10` at `ram[I]`, `ram[I+1]`, `ram[I+2]` and changes nothing else; each
stored byte is at most 9 and the three digits recompose `VX`. -/
theorem instr_fX33_spec (env : Env) (X : Nat) (hX : X < 16) (s : State) (hV : s.V X < 256)
    (_hI : s.I + 2 < 4096) :
    instr_fX33 env (0xF033 + 256 * X) s =
      { s with ram := fun a =>
          if a = s.I then s.V X / 100
          else if a = s.I + 1 then s.V X / 10 % 10
          else if a = s.I + 2 then s.V X % 10
          else s.ram a } ∧
    s.V X / 100 ≤ 9 ∧ s.V X / 10 % 10 ≤ 9 ∧ s.V X % 10 ≤ 9 ∧
    100 * (s.V X / 100) + 10 * (s.V X / 10 % 10) + s.V X % 10 = s.V X := by
  have hx : (0xF033 + 256 * X) / 256 % 16 = X := by omega
  have hv : s.V X % 2 ^ 8 = s.V X := Nat.mod_eq_of_lt (by simpa using hV)
  refine ⟨?_, by omega, by omega, by omega, by omega⟩
  simp only [instr_fX33, parse_X_eq, hx, hv, BCD]
  congr 1
  funext a
  simp only [poke, Nat.add_zero]
  by_cases h0 : a = s.I
  · have e : s.V X / 10 / 10 % 10 % 256 = s.V X / 100 := by omega
    simp only [h0, if_true, e]
  · by_cases h1 : a = s.I + 1
    · have e : s.V X / 10 % 10 % 256 = s.V X / 10 % 10 := by omega
      simp only [h0, h1, if_true, if_false, e]
      have : ¬ (s.I + 1 = s.I) := by omega
      simp only [this, if_false]
    · by_cases h2 : a = s.I + 2
      · have e : s.V X % 10 % 256 = s.V X % 10 := by omega
        have n1 : ¬ (s.I + 2 = s.I) := by omega
        have n2 : ¬ (s.I + 2 = s.I + 1) := by omega
        simp only [h2, n1, n2, if_true, if_false, e]
      · simp only [h0, h1, h2, if_false]

/-- Witness for C29: `V0 = 234`, `I = 0x300`. -/
theorem instr_fX33_spec_witness :
    (0 : Nat) < 16 ∧ bcdState.V 0 < 256 ∧ bcdState.I + 2 < 4096 ∧
    (instr_fX33 idle (0xF033 + 256 * 0) bcdState =
      { bcdState with ram := fun a =>
          if a = bcdState.I then bcdState.V 0 / 100
          else if a = bcdState.I + 1 then bcdState.V 0 / 10 % 10
          else if a = bcdState.I + 2 then bcdState.V 0 % 10
          else bcdState.ram a } ∧
    bcdState.V 0 / 100 ≤ 9 ∧ bcdState.V 0 / 10 % 10 ≤ 9 ∧ bcdState.V 0 % 10 ≤ 9 ∧
    100 * (bcdState.V 0 / 100) + 10 * (bcdState.V 0 / 10 % 10) + bcdState.V 0 % 10 =
      bcdState.V 0) :=
  ⟨by decide, by decide, by decide,
    instr_fX33_spec idle 0 (by decide) bcdState (by decide) (by decide)⟩

/-- Closed form of `Store`: the bytes `I .. I + X` receive `V0 .. VX`, every other byte is kept. -/
theorem Store_spec (ram : Nat → Nat) (I : Nat) (V : Nat → Nat) (X : Nat) :
    ∀ a, Store ram I X V a = if I ≤ a ∧ a ≤ I + X then V (a - I) % 256 else ram a := by
  induction X with
  | zero =>
    intro a
    simp only [Store, List.range_succ, List.range_zero, List.nil_append, List.foldl, poke,
      Nat.add_zero]
    by_cases h : a = I
    · subst h
      simp
    · have : ¬ (I ≤ a ∧ a ≤ I) := by omega
      simp only [h, this, if_false]
  | succ X ih =>
    intro a
    have hstep : Store ram I (X + 1) V = poke (Store ram I X V) (I + (X + 1)) (V (X + 1)) := by
      simp only [Store, List.range_succ (X + 1), List.foldl_append, List.foldl]
    rw [hstep]
    simp only [poke]
    by_cases h : a = I + (X + 1)
    · have c : I ≤ a ∧ a ≤ I + (X + 1) := by omega
      have e : a - I = X + 1 := by omega
      rw [if_pos h, if_pos c, e]
    · rw [if_neg h, ih a]
      by_cases c : I ≤ a ∧ a ≤ I + X
      · have c2 : I ≤ a ∧ a ≤ I + (X + 1) := by omega
        rw [if_pos c, if_pos c2]
      · have c2 : ¬ (I ≤ a ∧ a ≤ I + (X + 1)) := by omega
        rw [if_neg c, if_neg c2]

/-- C30: for every `X` and every `I` with `I + X < 4096`, the handler of `FX55` stores `V0..VX` at
`ram[I]..ram[I + X]`, leaves every other memory byte and every register `V0..VF` unchanged, and
increases `I` by exactly `X + 1`. -/
theorem instr_fX55_spec (env : Env) (X : Nat) (hX : X < 16) (s : State)
    (hV : ∀ i, i ≤ X → s.V i < 256) (hI : s.I + X < 4096) :
    instr_fX55 env (0xF055 + 256 * X) s =
      { s with ram := fun a => if s.I ≤ a ∧ a ≤ s.I + X then s.V (a - s.I) else s.ram a,
               I := s.I + (X + 1) } := by
  have hx : (0xF055 + 256 * X) / 256 % 16 = X := by omega
  have hi : (s.I + (X + 1)) % 2 ^ 16 = s.I + (X + 1) := Nat.mod_eq_of_lt (by omega)
  simp only [instr_fX55, parse_X_eq, hx, Reg.set, hi]
  congr 1
  funext a
  rw [Store_spec]
  by_cases c : s.I ≤ a ∧ a ≤ s.I + X
  · rw [if_pos c, if_pos c]
    exact Nat.mod_eq_of_lt (hV _ (by omega))
  · rw [if_neg c, if_neg c]

/-- Witness for C30: `V0..V2 = 0x11, 0x22, 0x33`, `I = 0x300`, `X = 2`. -/
theorem instr_fX55_spec_witness :
    (2 : Nat) < 16 ∧ (∀ i, i ≤ 2 → storeState.V i < 256) ∧ storeState.I + 2 < 4096 ∧
    instr_fX55 idle (0xF055 + 256 * 2) storeState =
      { storeState with
          ram := fun a => if storeState.I ≤ a ∧ a ≤ storeState.I + 2
                          then storeState.V (a - storeState.I) else storeState.ram a,
          I := storeState.I + (2 + 1) } :=
  ⟨by decide, by decide, by decide,
    instr_fX55_spec idle 2 (by decide) storeState (by decide) (by decide)⟩

/-! ## Program load and default key map -/

/-- Once the stream has failed the load loop is over. -/
theorem LoadROMLoop_stopped (n i : Nat) (stream : List Nat) (byte : Nat) (ram : Nat → Nat) :
    LoadROMLoop n i stream false byte ram = ram := by
  cases n <;> simp [LoadROMLoop]

/-- Closed form of the load loop: the bytes read land at consecutive addresses; when the stream ends
before the capacity is used up, one more byte is written right after them (the last byte read, or
the initial content of the buffer for an empty stream); every other byte is kept. -/
theorem LoadROMLoop_spec (n : Nat) :
    ∀ (i : Nat) (stream : List Nat) (byte : Nat) (ram : Nat → Nat) (a : Nat),
      LoadROMLoop n i stream true byte ram a =
        if MEMORY_USABLE + i ≤ a ∧ a < MEMORY_USABLE + i + min n stream.length then
          stream.getD (a - (MEMORY_USABLE + i)) 0 % 256
        else if a = MEMORY_USABLE + i + stream.length ∧ stream.length < n then
          (stream.getLast?.getD byte) % 256
        else ram a := by
  induction n with
  | zero =>
    intro i stream byte ram a
    have c1 : ¬ (MEMORY_USABLE + i ≤ a ∧ a < MEMORY_USABLE + i + min 0 stream.length) := by
      simp
    have c2 : ¬ (a = MEMORY_USABLE + i + stream.length ∧ stream.length < 0) := by simp
    rw [if_neg c1, if_neg c2]
    rfl
  | succ n ih =>
    intro i stream byte ram a
    cases stream with
    | nil =>
      have e : LoadROMLoop (n + 1) i [] true byte ram =
          LoadROMLoop n (i + 1) [] false byte (poke ram (MEMORY_USABLE + i) byte) := by
        simp [LoadROMLoop]
      rw [e, LoadROMLoop_stopped]
      have c1 : ¬ (MEMORY_USABLE + i ≤ a ∧
          a < MEMORY_USABLE + i + min (n + 1) ([] : List Nat).length) := by
        simp
      rw [if_neg c1]
      simp only [poke, List.length_nil, Nat.add_zero, List.getLast?_nil, Option.getD_none]
      by_cases h : a = MEMORY_USABLE + i
      · have c2 : a = MEMORY_USABLE + i ∧ 0 < n + 1 := ⟨h, by omega⟩
        rw [if_pos h, if_pos c2]
      · have c2 : ¬ (a = MEMORY_USABLE + i ∧ 0 < n + 1) := fun c => h c.1
        rw [if_neg h, if_neg c2]
    | cons b rest =>
      have e : LoadROMLoop (n + 1) i (b :: rest) true byte ram =
          LoadROMLoop n (i + 1) rest true b (poke ram (MEMORY_USABLE + i) b) := by
        simp [LoadROMLoop]
      rw [e, ih]
      have hl : (b :: rest).getLast?.getD byte = rest.getLast?.getD b := by
        cases rest with
        | nil => rfl
        | cons c r =>
          rw [List.getLast?_cons_cons, List.getLast?_eq_getLast _ (List.cons_ne_nil c r)]
          rfl
      rw [hl]
      simp only [List.length_cons, poke]
      by_cases h0 : a = MEMORY_USABLE + i
      · have c1 : ¬ (MEMORY_USABLE + (i + 1) ≤ a ∧
            a < MEMORY_USABLE + (i + 1) + min n rest.length) := by omega
        have c2 : ¬ (a = MEMORY_USABLE + (i + 1) + rest.length ∧ rest.length < n) := by omega
        have c3 : MEMORY_USABLE + i ≤ a ∧
            a < MEMORY_USABLE + i + min (n + 1) (rest.length + 1) := by omega
        have e0 : a - (MEMORY_USABLE + i) = 0 := by omega
        rw [if_neg c1, if_neg c2, if_pos h0, if_pos c3, e0]
        rfl
      · by_cases c1 : MEMORY_USABLE + (i + 1) ≤ a ∧
            a < MEMORY_USABLE + (i + 1) + min n rest.length
        · have c3 : MEMORY_USABLE + i ≤ a ∧
              a < MEMORY_USABLE + i + min (n + 1) (rest.length + 1) := by omega
          have e1 : a - (MEMORY_USABLE + i) = (a - (MEMORY_USABLE + (i + 1))) + 1 := by omega
          rw [if_pos c1, if_pos c3, e1]
          rfl
        · have c3 : ¬ (MEMORY_USABLE + i ≤ a ∧
              a < MEMORY_USABLE + i + min (n + 1) (rest.length + 1)) := by omega
          rw [if_neg c1, if_neg c3]
          by_cases c2 : a = MEMORY_USABLE + (i + 1) + rest.length ∧ rest.length < n
          · have c4 : a = MEMORY_USABLE + i + (rest.length + 1) ∧
                rest.length + 1 < n + 1 := by omega
            rw [if_pos c2, if_pos c4]
          · have c4 : ¬ (a = MEMORY_USABLE + i + (rest.length + 1) ∧
                rest.length + 1 < n + 1) := by omega
            rw [if_neg c2, if_neg c4, if_neg h0]

/-- Memory after a successful load of a program of at most 3584 bytes. -/
theorem LoadROM_ram (s : State) (file : List Nat) (byte0 : Nat) (hlen : file.length ≤ 3584)
    (a : Nat) :
    (LoadROM s (some file) byte0).1.ram a =
      if 0x200 ≤ a ∧ a < 0x200 + file.length then file.getD (a - 0x200) 0 % 256
      else if a = 0x200 + file.length ∧ file.length < 3584 then
        (file.getLast?.getD byte0) % 256
      else s.ram a := by
  have hn : ¬ (file.length > GetRamSize) := by
    show ¬ (file.length > 3584)
    omega
  have hmin : min 3584 file.length = file.length := by omega
  simp only [LoadROM, if_neg hn, LoadROMStream]
  rw [LoadROMLoop_spec]
  simp only [GetRamSize, MEMORY_USABLE, Nat.add_zero, hmin]

/-- C25: loading the one-byte program `AB` into an all-zero memory succeeds and puts `0xAB` at
`0x200`, and also at `0x201`, a byte outside the program that held 0 before the load. -/
theorem LoadROM_writes_past_program :
    (LoadROM blank (some [0xAB]) 0).2 = true ∧
    blank.ram 0x201 = 0 ∧
    (LoadROM blank (some [0xAB]) 0).1.ram 0x200 = 0xAB ∧
    (LoadROM blank (some [0xAB]) 0).1.ram 0x201 = 0xAB := by
  decide

/-- C26: the capacity is 3584 bytes; a program longer than that is rejected with the state
unchanged; every program of at most 3584 bytes is accepted; a program of exactly 3584 bytes fills
`0x200..0xFFF` with its bytes and leaves every other byte unchanged. -/
theorem LoadROM_capacity (s : State) (file : List Nat) (byte0 : Nat) :
    GetRamSize = 3584 ∧
    (3584 < file.length → LoadROM s (some file) byte0 = (s, false)) ∧
    (file.length ≤ 3584 → (LoadROM s (some file) byte0).2 = true) ∧
    (file.length = 3584 → ∀ a, (LoadROM s (some file) byte0).1.ram a =
      if 0x200 ≤ a ∧ a < 0x1000 then file.getD (a - 0x200) 0 % 256 else s.ram a) := by
  refine ⟨rfl, ?_, ?_, ?_⟩
  · intro h
    have hn : file.length > GetRamSize := h
    simp only [LoadROM, if_pos hn]
  · intro h
    have hn : ¬ (file.length > GetRamSize) := by
      show ¬ (file.length > 3584)
      omega
    simp only [LoadROM, if_neg hn, LoadROMStream]
  · intro h a
    rw [LoadROM_ram s file byte0 (by omega) a, h]
    have c2 : ¬ (a = 0x200 + 3584 ∧ 3584 < 3584) := by omega
    rw [if_neg c2]

/-- Witness for C26: a program of 3584 bytes `AA` is accepted and fills `0x200..0xFFF`; one of 3585
bytes is rejected with the state unchanged. -/
theorem LoadROM_capacity_witness :
    (LoadROM blank (some (List.replicate 3584 0xAA)) 0).2 = true ∧
    (∀ a, (LoadROM blank (some (List.replicate 3584 0xAA)) 0).1.ram a =
      if 0x200 ≤ a ∧ a < 0x1000 then (List.replicate 3584 0xAA).getD (a - 0x200) 0 % 256
      else blank.ram a) ∧
    LoadROM blank (some (List.replicate 3585 0xAA)) 0 = (blank, false) :=
  ⟨(LoadROM_capacity blank (List.replicate 3584 0xAA) 0).2.2.1
      (le_of_eq (List.length_replicate 3584 0xAA)),
    (LoadROM_capacity blank (List.replicate 3584 0xAA) 0).2.2.2 (List.length_replicate 3584 0xAA),
    (LoadROM_capacity blank (List.replicate 3585 0xAA) 0).2.1
      (by rw [List.length_replicate]; decide)⟩

/-- C28: the key codes that the `InputSDL` constructor maps are exactly `1..16`, each once: key `0`
(`K0`) has no scancode, key `1` gets the scancode of `keymap[0]`, and code `0x10` (`_invalid`) gets
the scancode of `keymap[15]`. -/
theorem InputSDL_key_domain (scan : Nat → Nat) :
    (∀ k, k ∈ (InputSDL_to_sdl scan).map Prod.fst ↔ 1 ≤ k ∧ k ≤ 16) ∧
    ((InputSDL_to_sdl scan).map Prod.fst).Nodup ∧
    (InputSDL_to_sdl scan).lookup 0 = none ∧
    (InputSDL_to_sdl scan).lookup 1 = some (scan 0) ∧
    (InputSDL_to_sdl scan).lookup Key_invalid = some (scan 15) := by
  have hdom : (InputSDL_to_sdl scan).map Prod.fst = (List.range 16).map (fun i => 1 + i) := by
    simp only [InputSDL_to_sdl, gInputTotalKeys, Key_K1, List.map_map]
    rfl
  refine ⟨?_, ?_, rfl, rfl, rfl⟩
  · intro k
    rw [hdom]
    simp only [List.mem_map, List.mem_range]
    constructor
    · rintro ⟨i, hi, rfl⟩
      omega
    · intro h
      exact ⟨k - 1, by omega, by omega⟩
  · rw [hdom]
    decide

/-! ## Score of an exact match; drawing twice -/

/-- C31: for all four-character strings `s` (a rendered opcode) and `t` (a template),
`StrCmp(s, t)` is at most 30, and it equals 30 exactly when at every one of the four positions
either the two characters are equal or the template character is one of `N`, `X`, `Y`, `*`. -/
theorem StrCmp_score (s t : List Char) (hs : s.length = 4) (ht : t.length = 4) :
    StrCmp s t ≤ 30 ∧
    (StrCmp s t = 30 ↔
      ∀ i, i < 4 → s.getD i ' ' = t.getD i ' ' ∨ t.getD i ' ' ∈ special_values) := by
  obtain ⟨a, b, c, d, rfl⟩ := length_four hs
  obtain ⟨t0, t1, t2, t3, rfl⟩ := length_four ht
  have hall : (∀ i, i < 4 → [a, b, c, d].getD i ' ' = [t0, t1, t2, t3].getD i ' ' ∨
        [t0, t1, t2, t3].getD i ' ' ∈ special_values) ↔
      ((a = t0 ∨ t0 ∈ special_values) ∧ (b = t1 ∨ t1 ∈ special_values) ∧
        (c = t2 ∨ t2 ∈ special_values) ∧ (d = t3 ∨ t3 ∈ special_values)) := by
    constructor
    · intro h
      exact ⟨h 0 (by omega), h 1 (by omega), h 2 (by omega), h 3 (by omega)⟩
    · rintro ⟨h0, h1, h2, h3⟩ i hi
      interval_cases i
      · exact h0
      · exact h1
      · exact h2
      · exact h3
  rw [hall, StrCmp_four]
  by_cases h0 : a = t0 ∨ t0 ∈ special_values <;> by_cases h1 : b = t1 ∨ t1 ∈ special_values <;>
    by_cases h2 : c = t2 ∨ t2 ∈ special_values <;> by_cases h3 : d = t3 ∨ t3 ∈ special_values <;>
    simp [h0, h1, h2, h3]

/-- Witness for C31: the rendered opcode `8124` against the template `8XY4`. -/
theorem StrCmp_score_witness :
    ['8', '1', '2', '4'].length = 4 ∧ ['8', 'X', 'Y', '4'].length = 4 ∧
    (StrCmp ['8', '1', '2', '4'] ['8', 'X', 'Y', '4'] ≤ 30 ∧
    (StrCmp ['8', '1', '2', '4'] ['8', 'X', 'Y', '4'] = 30 ↔
      ∀ i, i < 4 → ['8', '1', '2', '4'].getD i ' ' = ['8', 'X', 'Y', '4'].getD i ' ' ∨
        ['8', 'X', 'Y', '4'].getD i ' ' ∈ special_values)) :=
  ⟨by decide, by decide, StrCmp_score ['8', '1', '2', '4'] ['8', 'X', 'Y', '4'] (by decide) (by decide)⟩

/-- Every byte of the memory after the row loop is a byte. -/
theorem DrawLoop_wf (X : Nat) (hX : X < 64) (N Y sprite : Nat) (ram : Nat → Nat) (vf : Nat)
    (hwf : ∀ a, ram a < 256)
    (hs : ∀ r, r < N → sprite + r < 0xF00 ∨ 0x1000 ≤ sprite + r) (a : Nat) :
    (DrawLoop 64 32 X N Y sprite (0xF00 + 8 * Y + X / 8) (ram, vf)).1 a < 256 := by
  rw [DrawLoop_ram X hX N Y sprite ram vf hwf hs]
  have hsh : ∀ b, ram b >>> (X % 8) < 256 := by
    intro b
    rw [Nat.shiftRight_eq_div_pow]
    exact lt_of_le_of_lt (Nat.div_le_self _ _) (hwf _)
  split_ifs
  · exact byte_xor_lt (hwf _) (hsh _)
  · exact byte_xor_lt (hwf _) (Nat.mod_lt _ (by norm_num))
  · exact hwf _
  · exact hwf _

theorem xor_xor_cancel (a b : Nat) : a ^^^ b ^^^ b = a := by
  rw [Nat.xor_assoc, Nat.xor_self, Nat.xor_zero]

/-- C32: for every position `(VX, VY)`, every height `N` and sprite bytes outside the display
region, drawing twice with the same position, address and height gives back the memory as it
was before the first draw: every display byte and every other byte. The flag passed to the
second call (`VF2`) is arbitrary, so this covers the flag the first call left. -/
theorem Draw_twice (ram : Nat → Nat) (VF VF2 VX VY I N : Nat) (hwf : ∀ a, ram a < 256)
    (hs : ∀ r, r < N → I + r < 0xF00 ∨ 0x1000 ≤ I + r) :
    (Draw (Draw ram 0 MEMORY_VIDEO VF VX VY I N displayW displayH).1 0 MEMORY_VIDEO VF2 VX VY I N
      displayW displayH).1 = ram := by
  have hX : VX % 64 < 64 := Nat.mod_lt _ (by norm_num)
  funext a
  rw [Draw_eq_DrawLoop, Draw_eq_DrawLoop]
  have hwf1 := DrawLoop_wf (VX % 64) hX N (VY % 32) I ram VF hwf hs
  rw [DrawLoop_ram (VX % 64) hX N (VY % 32) I _ VF2 hwf1 hs]
  have hsp : ∀ r, r < N →
      (DrawLoop 64 32 (VX % 64) N (VY % 32) I (0xF00 + 8 * (VY % 32) + VX % 64 / 8) (ram, VF)).1
        (I + r) = ram (I + r) := by
    intro r hr
    rw [DrawLoop_ram (VX % 64) hX N (VY % 32) I ram VF hwf hs]
    have c : ¬ (0xF00 ≤ I + r ∧ I + r < 0x1000 ∧ VY % 32 ≤ (I + r - 0xF00) / 8 ∧
        (I + r - 0xF00) / 8 < VY % 32 + N) := by
      have := hs r hr
      omega
    rw [if_neg c]
  by_cases c : 0xF00 ≤ a ∧ a < 0x1000 ∧ VY % 32 ≤ (a - 0xF00) / 8 ∧
      (a - 0xF00) / 8 < VY % 32 + N
  · rw [if_pos c, hsp _ (by omega), DrawLoop_ram (VX % 64) hX N (VY % 32) I ram VF hwf hs,
      if_pos c]
    by_cases c1 : (a - 0xF00) % 8 = VX % 64 / 8
    · rw [if_pos c1, if_pos c1, xor_xor_cancel]
    · rw [if_neg c1, if_neg c1]
      by_cases c2 : (a - 0xF00) % 8 = VX % 64 / 8 + 1
      · rw [if_pos c2, if_pos c2, xor_xor_cancel]
      · rw [if_neg c2, if_neg c2]
  · rw [if_neg c, DrawLoop_ram (VX % 64) hX N (VY % 32) I ram VF hwf hs, if_neg c]

/-- Witness for C32: a two-row sprite `FF 81` at `0x300` drawn twice at `(3, 0)` over a display
whose first byte is `0x3C`. -/
theorem Draw_twice_witness :
    (∀ a, mem [(0x300, 0xFF), (0x301, 0x81), (0xF00, 0x3C)] a < 256) ∧
    (∀ r, r < 2 → 0x300 + r < 0xF00 ∨ 0x1000 ≤ 0x300 + r) ∧
    (Draw (Draw (mem [(0x300, 0xFF), (0x301, 0x81), (0xF00, 0x3C)]) 0 MEMORY_VIDEO 0 3 0 0x300 2
        displayW displayH).1 0 MEMORY_VIDEO 1 3 0 0x300 2 displayW displayH).1 =
      mem [(0x300, 0xFF), (0x301, 0x81), (0xF00, 0x3C)] :=
  ⟨mem_lt_256 _ (by decide), by decide,
    Draw_twice (mem [(0x300, 0xFF), (0x301, 0x81), (0xF00, 0x3C)]) 0 1 3 0 0x300 2
      (mem_lt_256 _ (by decide)) (by decide)⟩

end CHIP8
